import Mathlib

/-! The decode direction of shuymn/fuel (`decode.go`).

A shallow embedding of `decode.go` and a verification of its specification.

* Wire values (`types.AttributeValue`) are the inductive `AttributeValue`.
* Go types, as far as `reflect` lets the decoder see them, are the inductive `GoType`;
  Go values are the inductive `Value`.  Pointers own their pointee (decode only ever stores
  freshly allocated pointers), a nil slice or map is `none`.
* A `reflect.Value` is an `RV`: a type, the current content of the storage it designates and the
  flags `reflect` keeps (`flagAddr`, `flagStickyRO`, `flagEmbedRO`).
* Functions that mutate their destination return the new content of that destination, together
  with the returned `error`; a Go panic and an exhausted recursion budget are outcomes of their
  own (`Outcome`).
* The recursion of `unmarshalReflect`, `unmarshalItem`, `unmarshalSlice` and `fieldsInStruct`
  is bounded by an explicit budget `gas`, because Go types may be recursive (`GoType.ref`).
* Integers are `Int`/`Nat` with explicit reduction modulo `2^w`; the platform is 64-bit.
-/

namespace Fuel

/-! ## Wire values -/

/-- Byte sequences (`[]byte`); every member is below 256. -/
abbrev Bytes := List Nat

/-- The union `types.AttributeValue` of the AWS SDK: the ten members, the SDK's
`UnknownUnionMember`, and the nil interface value. A Go map is a list of entries in the order in
which `range` enumerates it. -/
inductive AttributeValue where
  | B (value : Bytes)
  | BOOL (value : Bool)
  | BS (value : List Bytes)
  | L (value : List AttributeValue)
  | M (value : List (String × AttributeValue))
  | N (value : String)
  | NS (value : List String)
  | NULL (value : Bool)
  | S (value : String)
  | SS (value : List String)
  | Unknown (tag : String)
  | nil
  deriving Inhabited

/-- An item: `map[string]types.AttributeValue`. -/
abbrev Item := List (String × AttributeValue)

/-- The tag of a wire value: which member of the union it is. -/
inductive AVKind where
  | B | BOOL | BS | L | M | N | NS | NULL | S | SS
  deriving DecidableEq, Inhabited

/-- The member a wire value belongs to, if it is one of the ten. -/
def AttributeValue.member : AttributeValue → Option AVKind
  | .B _ => some .B
  | .BOOL _ => some .BOOL
  | .BS _ => some .BS
  | .L _ => some .L
  | .M _ => some .M
  | .N _ => some .N
  | .NS _ => some .NS
  | .NULL _ => some .NULL
  | .S _ => some .S
  | .SS _ => some .SS
  | .Unknown _ => none
  | .nil => none

/-- The Go expression `item[name]` with the comma-ok form. -/
def Item.get (item : Item) (name : String) : Option AttributeValue :=
  match item with
  | [] => none
  | (k, v) :: rest => if k = name then some v else Item.get rest name

/-! ## Go types -/

/-- The kinds of `reflect.Kind`. -/
inductive Kind where
  | Invalid | Bool
  | Int | Int8 | Int16 | Int32 | Int64
  | Uint | Uint8 | Uint16 | Uint32 | Uint64 | Uintptr
  | Float32 | Float64 | Complex64 | Complex128
  | Array | Chan | Func | Interface | Map | Ptr | Slice | String | Struct | UnsafePointer
  deriving DecidableEq, Inhabited

/-- The kinds of the types in which the decoder sees no structure. -/
inductive OtherKind where
  | invalid | uintptr | complex64 | complex128 | chan | func | unsafePointer
  deriving DecidableEq, Inhabited

/-- The kind as a `reflect.Kind`. -/
def OtherKind.kind : OtherKind → Kind
  | .invalid => .Invalid
  | .uintptr => .Uintptr
  | .complex64 => .Complex64
  | .complex128 => .Complex128
  | .chan => .Chan
  | .func => .Func
  | .unsafePointer => .UnsafePointer

/-- The sizes of the integer types: `int`/`uint` (64 bits on the platform modelled) and the
sized types. -/
inductive IntSize where
  | platform | s8 | s16 | s32 | s64
  deriving DecidableEq, Inhabited

/-- The width in bits. -/
def IntSize.bits : IntSize → Nat
  | .platform => 64
  | .s8 => 8
  | .s16 => 16
  | .s32 => 32
  | .s64 => 64

/-- The sizes of the float types. -/
inductive FloatSize where
  | f32 | f64
  deriving DecidableEq, Inhabited

/-- The receiver of a method: a value receiver puts the method in the method set of `T` and of
`*T`, a pointer receiver only in that of `*T`. -/
inductive Recv where
  | value | pointer
  deriving DecidableEq, Inhabited

/-- The hook methods a defined type declares: `UnmarshalDynamoDB` (interface `Unmarshaler`),
`UnmarshalText` (`encoding.TextUnmarshaler`) and `UnmarshalDynamoDBItem` (`ItemUnmarshaler`). -/
structure Methods where
  unmarshalDynamoDB : Option Recv
  unmarshalText : Option Recv
  unmarshalDynamoDBItem : Option Recv
  deriving DecidableEq, Inhabited

/-- A method set without hooks. -/
def Methods.none : Methods := ⟨Option.none, Option.none, Option.none⟩

/-- The part of `reflect.StructField` the decoder reads: the field's name, its `dynamodb` struct
tag, `Anonymous` (an embedded field) and `IsExported()`. -/
structure FieldDecl where
  name : String
  tag : String
  anonymous : Bool
  exported : Bool
  deriving DecidableEq, Inhabited

/-- Go types. `named` is a defined type with its hook methods; `ref` names a declared type of
the environment and is how a recursive type refers to itself, in the element position of a
pointer, slice or map; `time` is `time.Time`; `avMember k` is the struct
`types.AttributeValueMember<k>`; `attributeValue` is the interface `types.AttributeValue`;
`awsEncoder` is the struct type of this package that `unmarshalItem` and `unmarshalAppend` test
for (it is declared outside `decode.go`, and is taken to wrap one unexported interface field);
`other k` is a type of a kind with no structure the decoder looks at (function, channel,
complex, ...). -/
inductive GoType where
  | bool
  | int (size : IntSize)
  | uint (size : IntSize)
  | float (size : FloatSize)
  | string
  | ptr (elem : GoType)
  | slice (elem : GoType)
  | array (len : Nat) (elem : GoType)
  | map (key : GoType) (elem : GoType)
  | iface (numMethod : Nat)
  | struct (fields : List (FieldDecl × GoType))
  | time
  | avMember (k : AVKind)
  | attributeValue
  | awsEncoder
  | named (name : String) (methods : Methods) (underlying : GoType)
  | ref (name : String)
  | other (k : OtherKind)
  deriving Inhabited

/-! ## Go values -/

/-- Go values. `ptr none`, `slice none`, `map none` and `iface none` are the nil values; a map
is a list of entries with pairwise different keys; `av a` is the dynamic value of an interface
`types.AttributeValue` (a pointer to a member struct, kept whole); `float b` is a float given
by its IEEE bits. -/
inductive Value where
  | bool (b : Bool)
  | int (i : Int)
  | uint (n : Nat)
  | float (bits : Nat)
  | string (s : String)
  | ptr (pointee : Option Value)
  | slice (elems : Option (List Value))
  | array (elems : List Value)
  | map (entries : Option (List (Value × Value)))
  | iface (dyn : Option Value)
  | struct (fields : List Value)
  | av (a : AttributeValue)
  | invalid
  deriving Inhabited

/-! ## Errors and outcomes -/

/-- The errors of `strconv`: `ErrSyntax` and `ErrRange`, with the function and the text. -/
inductive NumError where
  | errSyntax (fn : String) (text : String)
  | errRange (fn : String) (text : String)
  deriving DecidableEq, Inhabited

/-- The `error` values the decoder returns. `cannotUnmarshal src dst` is
`"dynamodb: cannot unmarshal <src> data into <dst>"`. -/
inductive Error where
  | cannotUnmarshal (src : String) (dst : String)
  | num (e : NumError)
  | mapSetValueType (t : GoType)
  | mapKey (inner : Error)
  | mapKeySS (inner : Error)
  | vdataIntoMap (src : String)
  | tooSmall (src : String) (dstLen : Nat) (srcLen : Nat)
  | cannotUnmarshalToType (t : GoType) (v : Value)
  | unknownTag (tag : String)
  | unsupportedAttributeValue
  | unimplementedAwsEncoder
  | notAPointer (t : GoType)
  | unsupportedType (t : GoType)
  | mapKeyMustBeString (t : GoType)
  | appendNotSlicePointer
  | hook (msg : String)
  deriving Inhabited

/-- What a call does: it returns (`done`), with the new content of its destination and the
`error` it returned, or it panics, or the recursion budget of the model ran out. -/
inductive Outcome (α : Type) where
  | done (result : α) (err : Option Error)
  | panic (msg : String)
  | outOfGas
  deriving Inhabited

/-- The returned `error`, when the call returned. -/
def Outcome.err? {α : Type} : Outcome α → Option (Option Error)
  | .done _ e => some e
  | _ => Option.none

/-- The content of the destination after the call, when the call returned. -/
def Outcome.result? {α : Type} : Outcome α → Option α
  | .done r _ => some r
  | _ => Option.none

/-- Whether the call returned a nil `error`. -/
def Outcome.returnsNil {α : Type} : Outcome α → Bool
  | .done _ Option.none => true
  | _ => false

/-- Whether the call returned a non-nil `error`. -/
def Outcome.returnsError {α : Type} : Outcome α → Bool
  | .done _ (some _) => true
  | _ => false

/-- Post-processing of the destination of a call that returned. -/
def Outcome.mapResult {α β : Type} (f : α → β) : Outcome α → Outcome β
  | .done r e => .done (f r) e
  | .panic m => .panic m
  | .outOfGas => .outOfGas

/-! ## The standard library: `strconv` and `time` -/

/-- The largest `uint64`. -/
def maxUint64 : Nat := 2 ^ 64 - 1

/-- The loop of `strconv.ParseUint` for base 10: `n` is the number read so far, `s0` the whole
text, `maxVal` the largest value of the bit size. The result is the pair the Go function
returns. -/
def parseUintLoop (s0 : String) (maxVal : Nat) : List Char → Nat → Nat × Option NumError
  | [], n => (n, none)
  | c :: cs, n =>
    if 48 ≤ c.toNat ∧ c.toNat ≤ 57 then
      let d := c.toNat - 48
      if n ≥ maxUint64 / 10 + 1 then
        (maxVal, some (.errRange "ParseUint" s0))
      else
        let n10 := (n * 10) % 2 ^ 64
        let n1 := (n10 + d) % 2 ^ 64
        if n1 < n10 ∨ n1 > maxVal then
          (maxVal, some (.errRange "ParseUint" s0))
        else
          parseUintLoop s0 maxVal cs n1
    else
      (0, some (.errSyntax "ParseUint" s0))

/-- The call `strconv.ParseUint(s, 10, bitSize)` for `0 < bitSize ≤ 64`. -/
def parseUint (s : String) (bitSize : Nat) : Nat × Option NumError :=
  if s = "" then (0, some (.errSyntax "ParseUint" s))
  else parseUintLoop s (2 ^ bitSize - 1) s.data 0

/-- The call `strconv.ParseInt(s, 10, bitSize)` for `0 < bitSize ≤ 64`. -/
def parseInt (s : String) (bitSize : Nat) : Int × Option NumError :=
  match s.data with
  | [] => (0, some (.errSyntax "ParseInt" s))
  | c :: cs =>
    let neg := c = '-'
    let rest : String := if c = '+' ∨ c = '-' then ⟨cs⟩ else s
    let cutoff : Nat := 2 ^ (bitSize - 1)
    match parseUint rest bitSize with
    | (_, some (.errSyntax _ _)) => (0, some (.errSyntax "ParseInt" s))
    | (un, _) =>
      if ¬ neg ∧ un ≥ cutoff then ((cutoff : Int) - 1, some (.errRange "ParseInt" s))
      else if neg ∧ un > cutoff then (-(cutoff : Int), some (.errRange "ParseInt" s))
      else (if neg then -(un : Int) else (un : Int), none)

/-- The conversion of an `int64` to the signed integer type of `w` bits, as in `int8(x)`. -/
def wrapInt (w : Nat) (x : Int) : Int :=
  (x + 2 ^ (w - 1)) % 2 ^ w - 2 ^ (w - 1)

/-- The conversion of a `uint64` to the unsigned integer type of `w` bits, as in `uint8(x)`. -/
def wrapUint (w : Nat) (x : Nat) : Nat :=
  x % 2 ^ w

/-- The constant `unixToInternal` of package `time`: the seconds from year 1 to 1970. -/
def unixToInternal : Int := 62135596800

/-- The value `time.Unix(ts, 0).UTC()`: a `time.Time` is the struct of its fields `wall`, `ext`
and `loc`; `Unix` stores `wall = nsec`, `ext = sec + unixToInternal` (in `int64`) and `UTC` sets
`loc` to nil. -/
def timeUnixUTC (ts : Int) : Value :=
  .struct [.uint 0, .int (wrapInt 64 (ts + unixToInternal)), .ptr none]

/-- The method `Time.Unix()`: the seconds since the epoch, for a time without monotonic
reading. -/
def timeUnix : Value → Option Int
  | .struct [.uint _, .int ext, _] => some (wrapInt 64 (ext - unixToInternal))
  | _ => none

/-- The method `Time.Nanosecond()`: the low 30 bits of `wall`. -/
def timeNanosecond : Value → Option Nat
  | .struct [.uint wall, .int _, _] => some (wall % 2 ^ 30)
  | _ => none

/-- Whether `Time.Location()` is `time.UTC`: the field `loc` is nil. -/
def timeIsUTC : Value → Bool
  | .struct [.uint _, .int _, .ptr none] => true
  | _ => false

/-! ## `reflect`: types -/

/-- The field types of the structs `types.AttributeValueMember<k>`. -/
def memberValueType : AVKind → GoType
  | .B => .slice (.uint .s8)
  | .BOOL => .bool
  | .BS => .slice (.slice (.uint .s8))
  | .L => .slice .attributeValue
  | .M => .map .string .attributeValue
  | .N => .string
  | .NS => .slice .string
  | .NULL => .bool
  | .S => .string
  | .SS => .slice .string

/-- The method `Type.Kind()`. -/
def GoType.kind : GoType → Kind
  | .bool => .Bool
  | .int .platform => .Int
  | .int .s8 => .Int8
  | .int .s16 => .Int16
  | .int .s32 => .Int32
  | .int .s64 => .Int64
  | .uint .platform => .Uint
  | .uint .s8 => .Uint8
  | .uint .s16 => .Uint16
  | .uint .s32 => .Uint32
  | .uint .s64 => .Uint64
  | .float .f32 => .Float32
  | .float .f64 => .Float64
  | .string => .String
  | .ptr _ => .Ptr
  | .slice _ => .Slice
  | .array _ _ => .Array
  | .map _ _ => .Map
  | .iface _ => .Interface
  | .struct _ => .Struct
  | .time => .Struct
  | .avMember _ => .Struct
  | .attributeValue => .Interface
  | .awsEncoder => .Struct
  | .named _ _ u => u.kind
  | .ref _ => .Invalid
  | .other k => k.kind

/-- The method `Type.Elem()` of a pointer, slice, array or map type. -/
def GoType.elem : GoType → GoType
  | .ptr e => e
  | .slice e => e
  | .array _ e => e
  | .map _ e => e
  | .named _ _ u => u.elem
  | _ => .other .invalid

/-- The method `Type.Key()` of a map type. -/
def GoType.key : GoType → GoType
  | .map k _ => k
  | .named _ _ u => u.key
  | _ => .other .invalid

/-- The method `Type.Len()` of an array type. -/
def GoType.len : GoType → Nat
  | .array n _ => n
  | .named _ _ u => u.len
  | _ => 0

/-- The fields of a struct type, in declaration order (`Type.Field(i)` for `i < NumField()`). -/
def GoType.fields : GoType → List (FieldDecl × GoType)
  | .struct fs => fs
  | .time => [(⟨"wall", "", false, false⟩, .uint .s64), (⟨"ext", "", false, false⟩, .int .s64),
      (⟨"loc", "", false, false⟩, .ptr (.ref "time.Location"))]
  | .avMember k => [(⟨"Value", "", false, true⟩, memberValueType k),
      (⟨"noSmithyDocumentSerde", "", true, false⟩, .struct [])]
  | .awsEncoder => [(⟨"iface", "", false, false⟩, .iface 0)]
  | .named _ _ u => u.fields
  | _ => []

/-- The method `NumMethod()` of an interface type. -/
def GoType.numMethod : GoType → Nat
  | .iface n => n
  | .attributeValue => 1
  | .named _ _ u => u.numMethod
  | _ => 0

/-- The name and the hook methods of a type that declares methods; `time.Time` declares
`UnmarshalText` with a pointer receiver. -/
def GoType.methods : GoType → Option (String × Methods)
  | .named n m _ => some (n, m)
  | .time => some ("time.Time", ⟨none, some .pointer, none⟩)
  | _ => none

/-- Whether the type is the unnamed type `struct{}`: the package variable `emptyStructType`,
declared outside `decode.go`. -/
def GoType.isEmptyStruct : GoType → Bool
  | .struct [] => true
  | _ => false

/-- Whether the type is the unnamed type `string`. -/
def GoType.isString : GoType → Bool
  | .string => true
  | _ => false

/-- Whether the type is the unnamed type `bool`. -/
def GoType.isBool : GoType → Bool
  | .bool => true
  | _ => false

/-- Whether the type is the unnamed type `uint8` (`byte`). -/
def GoType.isUint8 : GoType → Bool
  | .uint .s8 => true
  | _ => false

/-- Whether the type is this package's `awsEncoder`. -/
def GoType.isAwsEncoder : GoType → Bool
  | .awsEncoder => true
  | _ => false

/-- Whether the type is `time.Time`. -/
def GoType.isTime : GoType → Bool
  | .time => true
  | _ => false

/-- Whether the type is `map[string]types.AttributeValue`. -/
def GoType.isItemMap : GoType → Bool
  | .map .string .attributeValue => true
  | _ => false

/-- The member of the union that the type is the struct of, if any. -/
def GoType.avMember? : GoType → Option AVKind
  | .avMember k => some k
  | _ => none

/-! ## `reflect`: values -/

/-- The zero value of the field `Value` of the struct `types.AttributeValueMember<k>`. -/
def zeroMemberValue : AVKind → Value
  | .B => .slice none
  | .BOOL => .bool false
  | .BS => .slice none
  | .L => .slice none
  | .M => .map none
  | .N => .string ""
  | .NS => .slice none
  | .NULL => .bool false
  | .S => .string ""
  | .SS => .slice none

mutual
/-- The zero value of a type (`reflect.Zero`). -/
def zero : GoType → Value
  | .bool => .bool false
  | .int _ => .int 0
  | .uint _ => .uint 0
  | .float _ => .float 0
  | .string => .string ""
  | .ptr _ => .ptr none
  | .slice _ => .slice none
  | .array n e => .array (List.replicate n (zero e))
  | .map _ _ => .map none
  | .iface _ => .iface none
  | .struct fs => .struct (zeroFields fs)
  | .time => .struct [.uint 0, .int 0, .ptr none]
  | .avMember k => .struct [zeroMemberValue k, .struct []]
  | .attributeValue => .iface none
  | .awsEncoder => .struct [.iface none]
  | .named _ _ u => zero u
  | .ref _ => .invalid
  | .other _ => .invalid
/-- The zero values of the fields of a struct type. -/
def zeroFields : List (FieldDecl × GoType) → List Value
  | [] => []
  | (_, t) :: rest => zero t :: zeroFields rest
end

mutual
/-- Equality of wire values. -/
def AttributeValue.beq : AttributeValue → AttributeValue → Bool
  | .B a, .B b => a == b
  | .BOOL a, .BOOL b => a == b
  | .BS a, .BS b => a == b
  | .L a, .L b => AttributeValue.beqList a b
  | .M a, .M b => AttributeValue.beqEntries a b
  | .N a, .N b => a == b
  | .NS a, .NS b => a == b
  | .NULL a, .NULL b => a == b
  | .S a, .S b => a == b
  | .SS a, .SS b => a == b
  | .Unknown a, .Unknown b => a == b
  | .nil, .nil => true
  | _, _ => false
/-- Equality of lists of wire values. -/
def AttributeValue.beqList : List AttributeValue → List AttributeValue → Bool
  | [], [] => true
  | a :: as, b :: bs => AttributeValue.beq a b && AttributeValue.beqList as bs
  | _, _ => false
/-- Equality of lists of entries. -/
def AttributeValue.beqEntries :
    List (String × AttributeValue) → List (String × AttributeValue) → Bool
  | [], [] => true
  | (k, a) :: as, (l, b) :: bs =>
    k == l && AttributeValue.beq a b && AttributeValue.beqEntries as bs
  | _, _ => false
end

mutual
/-- Equality of Go values, as the `==` of map keys. -/
def Value.beq : Value → Value → Bool
  | .bool a, .bool b => a == b
  | .int a, .int b => a == b
  | .uint a, .uint b => a == b
  | .float a, .float b => a == b
  | .string a, .string b => a == b
  | .ptr none, .ptr none => true
  | .ptr (some a), .ptr (some b) => Value.beq a b
  | .slice none, .slice none => true
  | .slice (some a), .slice (some b) => Value.beqList a b
  | .array a, .array b => Value.beqList a b
  | .map none, .map none => true
  | .map (some a), .map (some b) => Value.beqEntries a b
  | .iface none, .iface none => true
  | .iface (some a), .iface (some b) => Value.beq a b
  | .struct a, .struct b => Value.beqList a b
  | .av a, .av b => AttributeValue.beq a b
  | .invalid, .invalid => true
  | _, _ => false
/-- Equality of lists of Go values. -/
def Value.beqList : List Value → List Value → Bool
  | [], [] => true
  | a :: as, b :: bs => Value.beq a b && Value.beqList as bs
  | _, _ => false
/-- Equality of lists of map entries. -/
def Value.beqEntries : List (Value × Value) → List (Value × Value) → Bool
  | [], [] => true
  | (k, a) :: as, (l, b) :: bs => Value.beq k l && Value.beq a b && Value.beqEntries as bs
  | _, _ => false
end

/-- The method `Value.SetMapIndex(key, elem)` on the entries of a non-nil map: the entry of an
equal key is replaced, a new key is added. -/
def mapSet (entries : List (Value × Value)) (key elem : Value) : List (Value × Value) :=
  match entries with
  | [] => [(key, elem)]
  | (k, v) :: rest => if Value.beq k key then (k, elem) :: rest else (k, v) :: mapSet rest key elem

/-- The entries of a map value; a nil map has none. -/
def Value.entries : Value → List (Value × Value)
  | .map (some es) => es
  | _ => []

/-- A `[]byte` value with the given bytes. -/
def bytesValue (b : Bytes) : Value :=
  .slice (some (b.map Value.uint))

/-- The value of an item as a `map[string]types.AttributeValue`. -/
def itemValue (item : List (String × AttributeValue)) : Value :=
  .map (some (item.map (fun kv => (Value.string kv.1, Value.iface (some (Value.av kv.2))))))

/-- The field `Value` of the member struct that a wire value points to. -/
def memberValue : AttributeValue → Value
  | .B v => bytesValue v
  | .BOOL v => .bool v
  | .BS v => .slice (some (v.map bytesValue))
  | .L v => .slice (some (v.map (fun a => Value.iface (some (Value.av a)))))
  | .M v => itemValue v
  | .N v => .string v
  | .NS v => .slice (some (v.map Value.string))
  | .NULL v => .bool v
  | .S v => .string v
  | .SS v => .slice (some (v.map Value.string))
  | .Unknown _ => .invalid
  | .nil => .invalid

/-- The member struct `types.AttributeValueMember<k>` that a wire value points to: its field
`Value` and the embedded `noSmithyDocumentSerde`. -/
def memberStruct (av : AttributeValue) : Value :=
  .struct [memberValue av, .struct []]

/-- The conversion `[]byte(s)`: the UTF-8 bytes of a string. -/
def stringBytes (s : String) : Bytes :=
  s.toUTF8.data.toList.map UInt8.toNat

/-! ## The environment of a call -/

/-- A field of the struct being decoded, as `fieldsInStruct` stores it in its table: where the
field is (`path`: the indices of the fields to go through, an embedded pointer being followed to
its pointee), its type, and the read-only flags of the `reflect.Value`. -/
structure FieldRef where
  path : List Nat
  typ : GoType
  flagStickyRO : Bool
  flagEmbedRO : Bool
  deriving Inhabited

/-- The table `map[string]reflect.Value` that `fieldsInStruct` returns, as a list of entries
with pairwise different names. -/
abbrev FieldTable := List (String × FieldRef)

/-- What the decoder takes from outside `decode.go`: the declared types that `GoType.ref`
names, `strconv.ParseFloat(s, 64)` and the conversion `float32(x)` (on IEEE bits), the hook
methods of the caller's types by type name (a hook gets its receiver and returns the receiver
as it left it), and the order in which `range` enumerates the table of fields. -/
structure Env where
  types : String → Option GoType
  parseFloat : String → Nat × Option NumError
  toFloat32 : Nat → Nat
  unmarshalDynamoDB : String → AttributeValue → Value → Outcome Value
  unmarshalText : String → Bytes → Value → Outcome Value
  unmarshalDynamoDBItem : String → Item → Value → Outcome Value
  rangeFields : FieldTable → FieldTable

/-- The type a type expression denotes: a `ref` is looked up in the environment. -/
def resolve (env : Env) : GoType → GoType
  | .ref n => (env.types n).getD (.other .invalid)
  | t => t

/-- A `reflect.Value`: its type, the content of the storage it designates, and its flags. -/
structure RV where
  typ : GoType
  val : Value
  flagAddr : Bool
  flagStickyRO : Bool
  flagEmbedRO : Bool
  deriving Inhabited

/-- The method `Value.CanInterface()`: no read-only flag is set. -/
def RV.canInterface (rv : RV) : Bool := !(rv.flagStickyRO || rv.flagEmbedRO)

/-- The method `Value.CanAddr()`. -/
def RV.canAddr (rv : RV) : Bool := rv.flagAddr

/-- The method `Value.CanSet()`: addressable and not read-only. -/
def RV.canSet (rv : RV) : Bool := rv.flagAddr && !(rv.flagStickyRO || rv.flagEmbedRO)

/-- The value `reflect.New(t).Elem()`: fresh, zero, addressable storage of type `t`. -/
def RV.fresh (t : GoType) : RV := ⟨t, zero t, true, false, false⟩

/-- The value `reflect.ValueOf(x)` for `x` of dynamic type `t`: not addressable. -/
def RV.valueOf (t : GoType) (v : Value) : RV := ⟨t, v, false, false, false⟩

/-- The bit size of an integer kind. -/
def Kind.bits : Kind → Nat
  | .Int8 => 8
  | .Uint8 => 8
  | .Int16 => 16
  | .Uint16 => 16
  | .Int32 => 32
  | .Uint32 => 32
  | _ => 64

/-! ## Fields of a struct value -/

/-- The content of the field at a path; an embedded pointer is followed to its pointee. -/
def getAt : Value → List Nat → Value
  | v, [] => v
  | .struct fs, i :: p => getAt (fs.getD i .invalid) p
  | .ptr (some (.struct fs)), i :: p => getAt (fs.getD i .invalid) p
  | _, _ :: _ => .invalid

/-- The value with the content of the field at a path replaced. -/
def setAt : Value → List Nat → Value → Value
  | _, [], x => x
  | .struct fs, i :: p, x => .struct (fs.set i (setAt (fs.getD i .invalid) p x))
  | .ptr (some (.struct fs)), i :: p, x =>
    .ptr (some (.struct (fs.set i (setAt (fs.getD i .invalid) p x))))
  | v, _ :: _, _ => v

/-- Modelled from the spec: `fieldInfo` (declared outside `decode.go`), of which the decoder
uses the wire name only. The directive is comma-separated, its first segment is the rename, and
an empty rename keeps the field's own identifier. -/
def fieldInfo (field : FieldDecl) : String :=
  let seg : String := ⟨field.tag.data.takeWhile (fun c => c != ',')⟩
  if seg = "" then field.name else seg

/-- The Go expression `fields[name]` with the comma-ok form. -/
def tableGet (fields : FieldTable) (name : String) : Option FieldRef :=
  match fields with
  | [] => none
  | (k, v) :: rest => if k = name then some v else tableGet rest name

/-- The Go statement `fields[name] = fv`: an existing entry is overwritten. -/
def tableSet (fields : FieldTable) (name : String) (fv : FieldRef) : FieldTable :=
  match fields with
  | [] => [(name, fv)]
  | (k, v) :: rest => if k = name then (k, fv) :: rest else (k, v) :: tableSet rest name fv

/-- The loop over `innerFields` in `fieldsInStruct`: an entry is added, under the field `i` it
was reached through, unless the table has its name already. -/
def mergeInner (i : Nat) : FieldTable → FieldTable → FieldTable
  | fields, [] => fields
  | fields, (k, v) :: rest =>
    match tableGet fields k with
    | some _ => mergeInner i fields rest
    | none => mergeInner i (tableSet fields k { v with path := i :: v.path }) rest

/-- The loop `for i := 0; i < rv.Type().NumField(); i++` of `fieldsInStruct`, from field `i`
on: `decls` are the fields left, `fields` is the table so far, `v` the struct value, and
`inner` is the recursive call. The struct is addressable and not read-only, so a field is
read-only exactly when it is not exported (`flagEmbedRO` if it is embedded, `flagStickyRO`
otherwise). -/
def fieldsLoop (env : Env) (inner : GoType → Value → Outcome (FieldTable × Value)) :
    List (FieldDecl × GoType) → Nat → FieldTable → Value → Outcome (FieldTable × Value)
  | [], _, fields, v => .done (fields, v) none
  | (field, ft0) :: decls, i, fields, v =>
    let ft := resolve env ft0
    let isPtr := ft.kind = .Ptr
    let name := fieldInfo field
    if name = "-" then
      fieldsLoop env inner decls (i + 1) fields v
    else if (ft.kind = .Struct ∨ (isPtr ∧ (resolve env ft.elem).kind = .Struct))
        ∧ field.anonymous then
      if isPtr ∧ ¬ field.exported then
        fieldsLoop env inner decls (i + 1) fields v
      else
        let fv : Value := if isPtr then .ptr (some (zero (resolve env ft.elem))) else getAt v [i]
        match inner ft fv with
        | .done (innerFields, fv1) _ =>
          fieldsLoop env inner decls (i + 1) (mergeInner i fields innerFields) (setAt v [i] fv1)
        | .panic m => .panic m
        | .outOfGas => .outOfGas
    else
      fieldsLoop env inner decls (i + 1)
        (tableSet fields name ⟨[i], ft, !field.exported && !field.anonymous,
          !field.exported && field.anonymous⟩) v

/-- The function `fieldsInStruct`: the table of the fields of a struct (or of the struct a
pointer points to), and the struct as the function leaves it (it allocates the embedded
pointers). -/
def fieldsInStruct (env : Env) : Nat → GoType → Value → Outcome (FieldTable × Value)
  | 0, _, _ => .outOfGas
  | gas + 1, t, v =>
    if t.kind = .Ptr then
      match v with
      | .ptr (some pointee) =>
        (fieldsInStruct env gas (resolve env t.elem) pointee).mapResult
          (fun r => (r.1, Value.ptr (some r.2)))
      | _ => .panic "reflect: call of reflect.Value.Type on zero Value"
    else if t.kind = .Struct then
      fieldsLoop env (fieldsInStruct env gas) t.fields 0 [] v
    else
      .panic "reflect: NumField of non-struct type"

/-! ## The open-value projection -/

mutual
/-- The function `av2iface`: the dynamic value of the `interface{}` it returns (`none` is the
nil interface), or the error. -/
def av2iface (env : Env) : AttributeValue → Except Error (Option Value)
  | .B v => .ok (some (bytesValue v))
  | .BS v => .ok (some (.slice (some (v.map bytesValue))))
  | .BOOL v => .ok (some (.bool v))
  | .N v =>
    match env.parseFloat v with
    | (_, some e) => .error (.num e)
    | (f, none) => .ok (some (.float f))
  | .S v => .ok (some (.string v))
  | .L v =>
    match av2ifaceList env v with
    | .ok list => .ok (some (.slice (some list)))
    | .error e => .error e
  | .NS v =>
    match av2ifaceFloats env v with
    | .ok set => .ok (some (.slice (some set)))
    | .error e => .error e
  | .SS v => .ok (some (.slice (some (v.map Value.string))))
  | .M v =>
    match av2ifaceMap env v with
    | .ok m => .ok (some (.map (some m)))
    | .error e => .error e
  | .NULL _ => .ok none
  | .Unknown tag => .error (.unknownTag tag)
  | .nil => .error .unsupportedAttributeValue
/-- The loop of `av2iface` over the elements of a List. -/
def av2ifaceList (env : Env) : List AttributeValue → Except Error (List Value)
  | [] => .ok []
  | item :: rest =>
    match av2iface env item with
    | .error e => .error e
    | .ok iface =>
      match av2ifaceList env rest with
      | .error e => .error e
      | .ok list => .ok (.iface iface :: list)
/-- The loop of `av2iface` over the entries of a Map (whose keys are pairwise different), in
the order of enumeration. -/
def av2ifaceMap (env : Env) : List (String × AttributeValue) → Except Error (List (Value × Value))
  | [] => .ok []
  | (k, v) :: rest =>
    match av2iface env v with
    | .error e => .error e
    | .ok iface =>
      match av2ifaceMap env rest with
      | .error e => .error e
      | .ok m => .ok ((.string k, .iface iface) :: m)
/-- The loop of `av2iface` over the members of a NumberSet. -/
def av2ifaceFloats (env : Env) : List String → Except Error (List Value)
  | [] => .ok []
  | n :: rest =>
    match env.parseFloat n with
    | (_, some e) => .error (.num e)
    | (f, none) =>
      match av2ifaceFloats env rest with
      | .error e => .error e
      | .ok set => .ok (.float f :: set)
end

/-- The function `avTypeName`. -/
def avTypeName : AttributeValue → String
  | .B _ => "binary"
  | .BOOL _ => "boolean"
  | .BS _ => "binary set"
  | .L _ => "list"
  | .M _ => "map"
  | .N _ => "number"
  | .NS _ => "number set"
  | .NULL _ => "null"
  | .S _ => "string"
  | .SS _ => "string set"
  | .Unknown _ => "unknown"
  | .nil => "<empty>"

/-! ## Hook dispatch -/

/-- The value `iface` at the head of `unmarshalReflect`: `rv.Addr().Interface()` if `rv` is
addressable, `rv.Interface()` otherwise. The result says whether `iface` is a pointer, gives
the pointee type (or the type of `iface` if it is no pointer) and the value of `iface`. -/
def ifaceOf (env : Env) (rv : RV) : Bool × GoType × Value :=
  if rv.flagAddr then (true, rv.typ, .ptr (some rv.val))
  else
    match rv.typ with
    | .ptr e => (true, resolve env e, rv.val)
    | t => (false, t, rv.val)

/-- The content of the storage of `rv` once the pointer `iface` has been written through. -/
def writeBack (rv : RV) (iface : Value) : Value :=
  if rv.flagAddr then
    match iface with
    | .ptr (some v) => v
    | _ => rv.val
  else iface

/-- The assignment `*x = y` through the pointer `iface`. -/
def storeThrough (rv : RV) (iface : Value) (y : Value) : Outcome Value :=
  match iface with
  | .ptr (some _) => .done (writeBack rv (.ptr (some y))) none
  | _ => .panic "invalid memory address or nil pointer dereference"

/-- Whether `iface` implements a hook interface: the method (selected by `sel`) is in the
method set of `*T` whatever its receiver, and in that of `T` if its receiver is a value. The
result is the name of the type and the receiver of the method. -/
def hookOf (sel : Methods → Option Recv) (isPtr : Bool) (target : GoType) :
    Option (String × Recv) :=
  match target.methods with
  | some (n, m) =>
    match sel m with
    | some r => if isPtr ∨ r = .value then some (n, r) else none
    | none => none
  | none => none

/-- The call of a hook method `h` on `iface`. A method with a pointer receiver gets the pointer
and what it leaves behind it is stored; a method with a value receiver gets a copy. -/
def callHook (rv : RV) (isPtr : Bool) (iface : Value) (recv : Recv)
    (h : Value → Outcome Value) : Outcome Value :=
  match recv with
  | .pointer => (h iface).mapResult (writeBack rv)
  | .value =>
    if isPtr then
      match iface with
      | .ptr (some v) => (h v).mapResult (fun _ => rv.val)
      | _ => .panic "value method called using nil pointer"
    else (h iface).mapResult (fun _ => rv.val)

/-- The block `if rv.CanInterface()` at the head of `unmarshalReflect`, without the test:
`some` is what the function returns from inside the block, `none` means that control leaves
the block. -/
def tryInterface (env : Env) (av : AttributeValue) (rv : RV) : Option (Outcome Value) :=
  match ifaceOf env rv with
  | (isPtr, target, iface) =>
    match (if isPtr ∧ target.isTime then (match av with | .N s => some s | _ => none)
           else none) with
    | some s =>
      match parseInt s 64 with
      | (_, some e) => some (.done rv.val (some (.num e)))
      | (ts, none) => some (storeThrough rv iface (timeUnixUTC ts))
    | none =>
      if isPtr ∧ target.avMember?.isSome then
        if av.member = target.avMember? then some (storeThrough rv iface (memberStruct av))
        else none
      else
        match hookOf (fun m => m.unmarshalDynamoDB) isPtr target with
        | some (name, recv) =>
          some (callHook rv isPtr iface recv (env.unmarshalDynamoDB name av))
        | none =>
          match hookOf (fun m => m.unmarshalText) isPtr target with
          | some (name, recv) =>
            match av with
            | .S s => some (callHook rv isPtr iface recv (env.unmarshalText name (stringBytes s)))
            | _ => none
          | none => none

/-! ## The loops of the decoder

Each loop takes the recursive call `dec` (`unmarshalReflect` with the budget left). -/

/-- The loops of `unmarshalSlice` and of the array case: every element is decoded into
`reflect.New(elemType).Elem()`. The result is the list of the decoded elements, or the elements
before the first one that failed, with its error. -/
def decodeElems (dec : AttributeValue → RV → Outcome Value) (elemType : GoType) :
    List AttributeValue → Outcome (List Value)
  | [] => .done [] none
  | av :: rest =>
    match dec av (RV.fresh elemType) with
    | .done v none =>
      match decodeElems dec elemType rest with
      | .done vs e => .done (v :: vs) e
      | .panic m => .panic m
      | .outOfGas => .outOfGas
    | .done _ (some e) => .done [] (some e)
    | .panic m => .panic m
    | .outOfGas => .outOfGas

/-- The key of a map entry: `tm.UnmarshalText([]byte(k))` on the shared key `kv` if the pointer
to the key type implements `encoding.TextUnmarshaler`, `kv.SetString(k)` otherwise (which
panics unless the key is of kind string). The result is the new content of `kv`. -/
def setKey (env : Env) (keyType : GoType) (kv : Value) (k : String) : Outcome Value :=
  match hookOf (fun m => m.unmarshalText) true keyType with
  | some (name, recv) =>
    callHook (RV.mk keyType kv true false false) true (.ptr (some kv)) recv
      (env.unmarshalText name (stringBytes k))
  | none =>
    if keyType.kind = .String then .done (.string k) none
    else .panic "reflect: call of reflect.Value.SetString on non-string Value"

/-- The loop of the map case over the entries of a Map: `m` are the entries of the destination
so far, `kv` the content of the shared key. -/
def mapLoopM (env : Env) (dec : AttributeValue → RV → Outcome Value) (keyType elemType : GoType) :
    List (String × AttributeValue) → List (Value × Value) → Value → Outcome (List (Value × Value))
  | [], m, _ => .done m none
  | (k, v) :: rest, m, kv =>
    match dec v (RV.fresh elemType) with
    | .done inner none =>
      match setKey env keyType kv k with
      | .done kv1 none => mapLoopM env dec keyType elemType rest (mapSet m kv1 inner) kv1
      | .done _ (some e) => .done m (some (.mapKey e))
      | .panic msg => .panic msg
      | .outOfGas => .outOfGas
    | .done _ (some e) => .done m (some e)
    | .panic msg => .panic msg
    | .outOfGas => .outOfGas

/-- The loop of the map case over the members of a StringSet. -/
def mapLoopSS (env : Env) (keyType : GoType) (truthy : Outcome Value) :
    List String → List (Value × Value) → Value → Outcome (List (Value × Value))
  | [], m, _ => .done m none
  | s :: rest, m, kv =>
    match setKey env keyType kv s with
    | .done kv1 none =>
      match truthy with
      | .done t _ => mapLoopSS env keyType truthy rest (mapSet m kv1 t) kv1
      | .panic msg => .panic msg
      | .outOfGas => .outOfGas
    | .done _ (some e) => .done m (some (.mapKeySS e))
    | .panic msg => .panic msg
    | .outOfGas => .outOfGas

/-- The loop of the map case over the members of a NumberSet: every member is decoded, as a
Number, into the shared key `kv`. -/
def mapLoopNS (dec : AttributeValue → RV → Outcome Value) (keyType : GoType)
    (truthy : Outcome Value) :
    List String → List (Value × Value) → Value → Outcome (List (Value × Value))
  | [], m, _ => .done m none
  | n :: rest, m, kv =>
    match dec (.N n) (RV.mk keyType kv true false false) with
    | .done kv1 none =>
      match truthy with
      | .done t _ => mapLoopNS dec keyType truthy rest (mapSet m kv1 t) kv1
      | .panic msg => .panic msg
      | .outOfGas => .outOfGas
    | .done _ (some e) => .done m (some e)
    | .panic msg => .panic msg
    | .outOfGas => .outOfGas

/-- The call `reflect.Copy(kv, reflect.ValueOf(bb))` on a fresh key: the key must be an array
(a slice cannot be a key) of elements of type `uint8`, and gets the first bytes of `bb`. -/
def copyBytes (keyType : GoType) (bb : Bytes) : Outcome Value :=
  if keyType.kind = .Array then
    if keyType.elem.isUint8 then
      .done (.array ((bb.take keyType.len).map Value.uint ++
        List.replicate (keyType.len - bb.length) (Value.uint 0))) none
    else .panic "reflect.Copy: element types do not match"
  else .panic "reflect.Copy: destination is not an array"

/-- The loop of the map case over the members of a BinarySet. -/
def mapLoopBS (keyType : GoType) (truthy : Outcome Value) :
    List Bytes → List (Value × Value) → Outcome (List (Value × Value))
  | [], m => .done m none
  | bb :: rest, m =>
    match copyBytes keyType bb with
    | .done kv _ =>
      match truthy with
      | .done t _ => mapLoopBS keyType truthy rest (mapSet m kv t)
      | .panic msg => .panic msg
      | .outOfGas => .outOfGas
    | .panic msg => .panic msg
    | .outOfGas => .outOfGas

/-- The loop `for name, fv := range fields` of `unmarshalItem`: `s` is the struct so far, `err`
the variable `err`. -/
def itemFieldsLoop (dec : AttributeValue → RV → Outcome Value) (item : Item) :
    FieldTable → Value → Option Error → Outcome Value
  | [], s, err => .done s err
  | (name, fv) :: rest, s, err =>
    match item.get name with
    | some av =>
      match dec av ⟨fv.typ, getAt s fv.path, true, fv.flagStickyRO, fv.flagEmbedRO⟩ with
      | .done v none => itemFieldsLoop dec item rest (setAt s fv.path v) err
      | .done v (some innerErr) => itemFieldsLoop dec item rest (setAt s fv.path v) (some innerErr)
      | .panic msg => .panic msg
      | .outOfGas => .outOfGas
    | none => itemFieldsLoop dec item rest s err

/-- The loop `for k, av := range item` of the map case of `unmarshalItem`;
`mapv.SetMapIndex(reflect.ValueOf(k), innerRV)` panics unless a `string` is assignable to the
key type. -/
def itemMapLoop (dec : AttributeValue → RV → Outcome Value) (keyType elemType : GoType) :
    Item → List (Value × Value) → Outcome (List (Value × Value))
  | [], m => .done m none
  | (k, av) :: rest, m =>
    match dec av (RV.fresh elemType) with
    | .done inner none =>
      if keyType.isString then itemMapLoop dec keyType elemType rest (mapSet m (.string k) inner)
      else .panic "reflect.Value.SetMapIndex: value of type string is not assignable"
    | .done _ (some e) => .done m (some e)
    | .panic msg => .panic msg
    | .outOfGas => .outOfGas

/-! ## The decoder -/

/-- The value `truthy` of the map case, as `SetMapIndex` takes it: `true` must be assignable to
the element type, which it is not if that is a defined type. -/
def truthyBool (elemType : GoType) : Outcome Value :=
  if elemType.isBool then .done (.bool true) none
  else .panic "reflect.Value.SetMapIndex: value of type bool is not assignable"

/-- The error at the end of `unmarshalReflect`. -/
def cannotUnmarshalToType (rv : RV) : Outcome Value :=
  .done rv.val (some (.cannotUnmarshalToType rv.typ rv.val))

/-- The code of `unmarshalReflect` from `if !rv.CanSet()` on: the Null reset and the switch on
the kind of the destination. `dec`, `decSlice` and `decItem` are the calls of
`unmarshalReflect`, `unmarshalSlice` and `unmarshalItem`. -/
def shapeDirected (env : Env) (dec : AttributeValue → RV → Outcome Value)
    (decSlice : AttributeValue → RV → Outcome Value)
    (decItem : Item → GoType → Value → Outcome Value)
    (av : AttributeValue) (rv : RV) : Outcome Value :=
  if ¬ rv.canSet then .done rv.val none
  else if av.member = some .NULL then .done (zero rv.typ) none
  else
    match rv.typ.kind with
    | .Ptr =>
      match av with
      | .NULL true => .done (.ptr (some (zero (resolve env rv.typ.elem)))) none
      | _ =>
        (dec av (RV.fresh (resolve env rv.typ.elem))).mapResult (fun v => Value.ptr (some v))
    | .Bool =>
      match av with
      | .BOOL b => .done (.bool b) none
      | _ => .done rv.val (some (.cannotUnmarshal (avTypeName av) "bool"))
    | .Int | .Int64 | .Int32 | .Int16 | .Int8 =>
      match av with
      | .N s =>
        match parseInt s 64 with
        | (_, some e) => .done rv.val (some (.num e))
        | (n, none) => .done (.int (wrapInt rv.typ.kind.bits n)) none
      | _ => .done rv.val (some (.cannotUnmarshal (avTypeName av) "int"))
    | .Uint | .Uint64 | .Uint32 | .Uint16 | .Uint8 =>
      match av with
      | .N s =>
        match parseUint s 64 with
        | (_, some e) => .done rv.val (some (.num e))
        | (n, none) => .done (.uint (wrapUint rv.typ.kind.bits n)) none
      | _ => .done rv.val (some (.cannotUnmarshal (avTypeName av) "uint"))
    | .Float64 | .Float32 =>
      match av with
      | .N s =>
        match env.parseFloat s with
        | (_, some e) => .done rv.val (some (.num e))
        | (n, none) =>
          .done (.float (if rv.typ.kind = .Float32 then env.toFloat32 n else n)) none
      | _ => .done rv.val (some (.cannotUnmarshal (avTypeName av) "float"))
    | .String =>
      match av with
      | .S s => .done (.string s) none
      | _ => .done rv.val (some (.cannotUnmarshal (avTypeName av) "string"))
    | .Struct =>
      match av with
      | .M item =>
        (decItem item (.ptr rv.typ) (.ptr (some rv.val))).mapResult
          (fun out => match out with
            | .ptr (some v) => v
            | _ => rv.val)
      | _ => .done rv.val (some (.cannotUnmarshal (avTypeName av) "struct"))
    | .Map =>
      let m0 : List (Value × Value) := rv.val.entries
      let keyType := resolve env rv.typ.key
      let elemType := resolve env rv.typ.elem
      let marker : Bool := elemType.isEmptyStruct ||
        (elemType.kind = .Struct && elemType.fields.length = 0)
      if elemType.kind ≠ .Bool ∧ ¬ marker ∧ av.member ≠ some .M then
        .done (.map (some m0)) (some (.mapSetValueType rv.typ))
      else
        let truthy : Outcome Value :=
          if elemType.kind = .Bool then truthyBool elemType else .done (.struct []) none
        match av with
        | .M x =>
          (mapLoopM env dec keyType elemType x m0 (zero keyType)).mapResult
            (fun m => Value.map (some m))
        | .SS x =>
          (mapLoopSS env keyType truthy x m0 (zero keyType)).mapResult
            (fun m => Value.map (some m))
        | .NS x =>
          (mapLoopNS dec keyType truthy x m0 (zero keyType)).mapResult
            (fun m => Value.map (some m))
        | .BS x =>
          (mapLoopBS keyType truthy x m0).mapResult (fun m => Value.map (some m))
        | _ => .done (.map (some m0)) (some (.vdataIntoMap (avTypeName av)))
    | .Slice => decSlice av rv
    | .Array =>
      let elemType := resolve env rv.typ.elem
      match av with
      | .B x =>
        if x.length > rv.typ.len then
          .done rv.val (some (.tooSmall (avTypeName av) rv.typ.len x.length))
        else if elemType.isUint8 then
          .done (.array (x.map Value.uint ++
            List.replicate (rv.typ.len - x.length) (Value.uint 0))) none
        else .panic "reflect.Copy: element types do not match"
      | .L x =>
        if x.length > rv.typ.len then
          .done rv.val (some (.tooSmall (avTypeName av) rv.typ.len x.length))
        else
          match decodeElems dec elemType x with
          | .done vs none =>
            .done (.array (vs ++ List.replicate (rv.typ.len - vs.length) (zero elemType))) none
          | .done _ (some _) => .done rv.val none
          | .panic m => .panic m
          | .outOfGas => .outOfGas
      | _ => cannotUnmarshalToType rv
    | .Interface =>
      if rv.typ.numMethod = 0 then
        match av2iface env av with
        | .error e => .done rv.val (some e)
        | .ok iface => .done (.iface iface) none
      else cannotUnmarshalToType rv
    | _ => cannotUnmarshalToType rv

/-- The body of `unmarshalSlice`; `dec` is the call of `unmarshalReflect`. -/
def sliceBody (env : Env) (dec : AttributeValue → RV → Outcome Value)
    (av : AttributeValue) (rv : RV) : Outcome Value :=
  let elemType := resolve env rv.typ.elem
  match av with
  | .B x =>
    if elemType.kind = .Uint8 then .done (bytesValue x) none
    else .panic "reflect.Value.SetBytes of non-byte slice"
  | .L x =>
    match decodeElems dec elemType x with
    | .done vs none => .done (.slice (some vs)) none
    | .done _ (some e) => .done rv.val (some e)
    | .panic m => .panic m
    | .outOfGas => .outOfGas
  | .BS x =>
    match decodeElems dec elemType (x.map AttributeValue.B) with
    | .done vs none => .done (.slice (some vs)) none
    | .done _ (some e) => .done rv.val (some e)
    | .panic m => .panic m
    | .outOfGas => .outOfGas
  | .SS x =>
    match decodeElems dec elemType (x.map AttributeValue.S) with
    | .done vs none => .done (.slice (some vs)) none
    | .done _ (some e) => .done rv.val (some e)
    | .panic m => .panic m
    | .outOfGas => .outOfGas
  | .NS x =>
    match decodeElems dec elemType (x.map AttributeValue.N) with
    | .done vs none => .done (.slice (some vs)) none
    | .done _ (some _) => .done rv.val none
    | .panic m => .panic m
    | .outOfGas => .outOfGas
  | _ => .done rv.val (some (.cannotUnmarshal (avTypeName av) "slice"))

/-- The struct case of `unmarshalItem`, for a destination of struct type `t`: the destination
is zeroed, the table of its fields is built, and the fields that the item has are decoded.
`fieldsOf` and `dec` are the calls of `fieldsInStruct` and `unmarshalReflect`. -/
def itemStruct (env : Env) (fieldsOf : GoType → Value → Outcome (FieldTable × Value))
    (dec : AttributeValue → RV → Outcome Value) (item : Item) (t : GoType) : Outcome Value :=
  match fieldsOf t (zero t) with
  | .done (fields, s) _ => itemFieldsLoop dec item (env.rangeFields fields) s none
  | .panic m => .panic m
  | .outOfGas => .outOfGas

/-- The body of `unmarshalItem`: `outType` is the dynamic type of `out` and the result is the
value of `out` after the call (a pointer, with the pointee as the call left it). `fieldsOf`,
`dec` and `decItem` are the calls of `fieldsInStruct`, `unmarshalReflect` and
`unmarshalItem`. -/
def itemBody (env : Env) (fieldsOf : GoType → Value → Outcome (FieldTable × Value))
    (dec : AttributeValue → RV → Outcome Value)
    (decItem : Item → GoType → Value → Outcome Value)
    (item : Item) (outType : GoType) (out : Value) : Outcome Value :=
  if outType.kind = .Ptr ∧ outType.elem.isItemMap ∧ outType.methods.isNone then
    storeThrough (RV.valueOf outType out) out (itemValue item)
  else if outType.isAwsEncoder then .done out (some .unimplementedAwsEncoder)
  else
    match hookOf (fun m => m.unmarshalDynamoDBItem) (ifaceOf env (RV.valueOf outType out)).1
        (ifaceOf env (RV.valueOf outType out)).2.1 with
    | some (name, recv) =>
      callHook (RV.valueOf outType out) (ifaceOf env (RV.valueOf outType out)).1 out recv
        (env.unmarshalDynamoDBItem name item)
    | none =>
      if outType.kind ≠ .Ptr then .done out (some (.notAPointer outType))
      else
        match out with
        | .ptr (some pointee) =>
          let t := resolve env outType.elem
          match t.kind with
          | .Ptr =>
            (decItem item t (.ptr (some (zero (resolve env t.elem))))).mapResult
              (fun v => Value.ptr (some v))
          | .Struct =>
            (itemStruct env fieldsOf dec item t).mapResult (fun v => Value.ptr (some v))
          | .Map =>
            if (resolve env t.key).kind ≠ .String then
              .done out (some (.mapKeyMustBeString t))
            else
              (itemMapLoop dec (resolve env t.key) (resolve env t.elem) item
                pointee.entries).mapResult (fun m => Value.ptr (some (Value.map (some m))))
          | _ => .done out (some (.unsupportedType outType))
        | _ => .done out (some (.unsupportedType outType))

mutual
/-- The function `unmarshalReflect`: the content of the storage of `rv` after the call, and
the error returned. -/
def unmarshalReflect (env : Env) : Nat → AttributeValue → RV → Outcome Value
  | 0, _, _ => .outOfGas
  | gas + 1, av, rv =>
    match (if rv.canInterface then tryInterface env av rv else none) with
    | some r => r
    | none =>
      shapeDirected env (unmarshalReflect env gas) (unmarshalSlice env gas)
        (unmarshalItem env gas) av rv
/-- The function `unmarshalSlice`. -/
def unmarshalSlice (env : Env) : Nat → AttributeValue → RV → Outcome Value
  | 0, _, _ => .outOfGas
  | gas + 1, av, rv => sliceBody env (unmarshalReflect env gas) av rv
/-- The function `unmarshalItem`. -/
def unmarshalItem (env : Env) : Nat → Item → GoType → Value → Outcome Value
  | 0, _, _, _ => .outOfGas
  | gas + 1, item, outType, out =>
    itemBody env (fieldsInStruct env gas) (unmarshalReflect env gas) (unmarshalItem env gas)
      item outType out
end

/-- The function `unmarshalAppend`. -/
def unmarshalAppend (env : Env) (gas : Nat) (item : Item) (outType : GoType) (out : Value) :
    Outcome Value :=
  if outType.isAwsEncoder then .done out (some .unimplementedAwsEncoder)
  else if outType.kind ≠ .Ptr then .done out (some .appendNotSlicePointer)
  else
    match out with
    | .ptr (some (.slice elems)) =>
      if (resolve env outType.elem).kind ≠ .Slice then .done out (some .appendNotSlicePointer)
      else
        let elemType := resolve env (resolve env outType.elem).elem
        match unmarshalItem env gas item (.ptr elemType) (.ptr (some (zero elemType))) with
        | .done (.ptr (some x)) none =>
          .done (.ptr (some (.slice (some (elems.getD [] ++ [x]))))) none
        | .done _ none => .done out none
        | .done _ (some e) => .done out (some e)
        | .panic m => .panic m
        | .outOfGas => .outOfGas
    | _ => .done out (some .appendNotSlicePointer)

/-- The function `UnmarshalAppend`. -/
def UnmarshalAppend (env : Env) (gas : Nat) (item : Item) (outType : GoType) (out : Value) :
    Outcome Value :=
  unmarshalAppend env gas item outType out

/-- The function `UnmarshalItem`. -/
def UnmarshalItem (env : Env) (gas : Nat) (item : Item) (outType : GoType) (out : Value) :
    Outcome Value :=
  unmarshalItem env gas item outType out

/-- The function `Unmarshal`: `rv := reflect.ValueOf(out)` is not addressable. -/
def Unmarshal (env : Env) (gas : Nat) (av : AttributeValue) (outType : GoType) (out : Value) :
    Outcome Value :=
  unmarshalReflect env gas av (RV.valueOf outType out)

/-! ## Vocabulary of the specification -/

/-- Whether the pointer type `*T` implements `Unmarshaler` (the full-value hook). -/
def implementsUnmarshaler (t : GoType) : Bool :=
  (hookOf (fun m => m.unmarshalDynamoDB) true t).isSome

/-- Whether the pointer type `*T` implements `encoding.TextUnmarshaler` (the text hook). -/
def implementsTextUnmarshaler (t : GoType) : Bool :=
  (hookOf (fun m => m.unmarshalText) true t).isSome

/-- The wire variant that the scalar and struct shapes require. -/
def requiredMember : Kind → Option AVKind
  | .Bool => some .BOOL
  | .Int | .Int64 | .Int32 | .Int16 | .Int8 => some .N
  | .Uint | .Uint64 | .Uint32 | .Uint16 | .Uint8 => some .N
  | .Float64 | .Float32 => some .N
  | .String => some .S
  | .Struct => some .M
  | _ => none

/-- The canonical decimal text of a natural number (`strconv.FormatUint(n, 10)`). -/
def decimal (n : Nat) : String :=
  if n = 0 then "0" else ⟨(Nat.digits 10 n).reverse.map Nat.digitChar⟩

/-- The call of `unmarshalReflect` that the struct case of `unmarshalItem` makes for an entry
of the table of fields, on the struct `s`. -/
def fieldDecode (dec : AttributeValue → RV → Outcome Value) (s : Value) (av : AttributeValue)
    (fv : FieldRef) : Outcome Value :=
  dec av ⟨fv.typ, getAt s fv.path, true, fv.flagStickyRO, fv.flagEmbedRO⟩

/-- Two paths of which neither leads through the other: they designate disjoint storage. -/
def incomparable (p q : List Nat) : Prop :=
  ¬ p <+: q ∧ ¬ q <+: p

/-- Whether a path designates storage in a value: every index on it is a field of a struct. -/
def validPath : Value → List Nat → Bool
  | _, [] => true
  | .struct fs, i :: p => decide (i < fs.length) && validPath (fs.getD i .invalid) p
  | .ptr (some (.struct fs)), i :: p => decide (i < fs.length) && validPath (fs.getD i .invalid) p
  | _, _ :: _ => false

/-- What the loop of `fieldsInStruct` does with a field: it passes over it (`continue`), it
unfolds it as an embedded struct, or it enters it into the table under its wire name. -/
inductive FieldRole where
  | skipped
  | unfolded
  | entered
  deriving DecidableEq, Inhabited

/-- The branch that the loop of `fieldsInStruct` takes for a declared field: a field named "-"
and an embedded pointer to a struct that is not exported are passed over, another embedded
struct or pointer to a struct is unfolded, and every other field is entered into the table. -/
def fieldRole (env : Env) (field : FieldDecl) (ft0 : GoType) : FieldRole :=
  if fieldInfo field = "-" then .skipped
  else if ((resolve env ft0).kind = .Struct ∨
      ((resolve env ft0).kind = .Ptr ∧ (resolve env (resolve env ft0).elem).kind = .Struct))
      ∧ field.anonymous then
    if (resolve env ft0).kind = .Ptr ∧ ¬ field.exported then .skipped else .unfolded
  else .entered

/-- The entry `fields[name] = fv` of a field that is entered into the table: `rv.Field(i)`. -/
def directRef (env : Env) (i : Nat) (field : FieldDecl) (ft0 : GoType) : FieldRef :=
  ⟨[i], resolve env ft0, !field.exported && !field.anonymous,
    !field.exported && field.anonymous⟩

/-- The struct type that an unfolded field embeds, by value or by pointer. -/
def embeddedStruct (env : Env) (ft0 : GoType) : GoType :=
  if (resolve env ft0).kind = .Ptr then resolve env (resolve env ft0).elem else resolve env ft0

/-- The value that `fieldsInStruct` is called on for an unfolded field whose content is `cur`:
a pointer to a fresh zero struct for an embedded pointer, the field itself otherwise. -/
def embeddedValue (env : Env) (ft0 : GoType) (cur : Value) : Value :=
  if (resolve env ft0).kind = .Ptr then .ptr (some (zero (resolve env (resolve env ft0).elem)))
  else cur

/-- The loop of `TestUnmarshalAppend`: `unmarshalAppend(item, &results)` for one item after
the other on the same destination, up to the first call that returns an error. -/
def appendLoop (env : Env) (gas : Nat) (outType : GoType) : List Item → Value → Outcome Value
  | [], out => .done out none
  | item :: rest, out =>
    match unmarshalAppend env gas item outType out with
    | .done out1 none => appendLoop env gas outType rest out1
    | r => r

/-- The hooks of the types of `encoding_test.go`: `customMarshaler.UnmarshalDynamoDB`. -/
def testUnmarshalDynamoDB (name : String) (av : AttributeValue) (recv : Value) : Outcome Value :=
  if name = "customMarshaler" then
    match av, recv with
    | .BOOL true, .ptr (some _) => .done (.ptr (some (.int 1))) none
    | .BOOL true, _ => .panic "invalid memory address or nil pointer dereference"
    | _, _ => .done recv none
  else .done recv none

/-- The hooks of the types of `encoding_test.go`: `textMarshaler.UnmarshalText`; every other
type of the sample environment rejects its text. -/
def testUnmarshalText (name : String) (text : Bytes) (recv : Value) : Outcome Value :=
  if name = "textMarshaler" then
    match recv with
    | .ptr (some _) => .done (.ptr (some (.bool (text == stringBytes "true")))) none
    | _ => .panic "invalid memory address or nil pointer dereference"
  else .done recv (some (.hook "cannot parse"))

/-- A sample environment: no declared types, a `ParseFloat` that knows no text, the hooks of
the test types, and a `range` that enumerates the table of fields in the order of insertion. -/
def Env.sample : Env where
  types := fun _ => none
  parseFloat := fun s => (0, some (.errSyntax "ParseFloat" s))
  toFloat32 := fun b => b
  unmarshalDynamoDB := testUnmarshalDynamoDB
  unmarshalText := testUnmarshalText
  unmarshalDynamoDBItem := fun _ _ recv => .done recv none
  rangeFields := fun fields => fields

/-- The sample environment with a `range` that enumerates the table of fields backwards. -/
def Env.sampleReversed : Env :=
  { Env.sample with rangeFields := fun fields => fields.reverse }

/-- The type `customMarshaler` of `encoding_test.go`. -/
def customMarshaler : GoType :=
  .named "customMarshaler" ⟨some .pointer, none, none⟩ (.int .platform)

/-- The type `textMarshaler` of `encoding_test.go`. -/
def textMarshaler : GoType :=
  .named "textMarshaler" ⟨none, some .pointer, none⟩ .bool

mutual
/-- The condition of the specification under which the open-value projection fails: a Number
or a member of a NumberSet, at any depth, that does not parse, or a value, at any depth, that
is none of the ten variants (an unknown union member, or no value at all). -/
def projectionFails (env : Env) : AttributeValue → Bool
  | .N s => (env.parseFloat s).2.isSome
  | .NS v => v.any (fun s => (env.parseFloat s).2.isSome)
  | .L v => projectionFailsList env v
  | .M v => projectionFailsEntries env v
  | .Unknown _ => true
  | .nil => true
  | .B _ => false
  | .BOOL _ => false
  | .BS _ => false
  | .NULL _ => false
  | .S _ => false
  | .SS _ => false
/-- Whether the projection of an element of a List fails. -/
def projectionFailsList (env : Env) : List AttributeValue → Bool
  | [] => false
  | x :: rest => projectionFails env x || projectionFailsList env rest
/-- Whether the projection of a value of a Map fails. -/
def projectionFailsEntries (env : Env) : List (String × AttributeValue) → Bool
  | [] => false
  | (_, x) :: rest => projectionFails env x || projectionFailsEntries env rest
end

/-- The variable `err` at the end of the loop `for name, fv := range fields` of `unmarshalItem`
over the table in the order `L`, from the value `err`, with every decode made on the struct
`s0`: the error of the last field of `L` that the item has and whose decode fails. -/
def surfacedError (dec : AttributeValue → RV → Outcome Value) (item : Item) (s0 : Value) :
    FieldTable → Option Error → Option Error
  | [], err => err
  | (name, fv) :: rest, err =>
    match item.get name with
    | some av =>
      match fieldDecode dec s0 av fv with
      | .done _ (some e) => surfacedError dec item s0 rest (some e)
      | _ => surfacedError dec item s0 rest err
    | none => surfacedError dec item s0 rest err

/-- The type `type T struct { *T }`: a struct that embeds a pointer to its own type. -/
def selfEmbedding : GoType :=
  .struct [(⟨"T", "", true, true⟩, .ptr (.ref "T"))]

/-- The sample environment with the declaration of the type `T`. -/
def Env.withSelfEmbedding : Env :=
  { Env.sample with types := fun n => if n = "T" then some selfEmbedding else none }

/-- The index expression `m[key]`, in its comma-ok form, on the entries of a map. -/
def mapGet (entries : List (Value × Value)) (key : Value) : Option Value :=
  match entries with
  | [] => none
  | (k, v) :: rest => if Value.beq k key then some v else mapGet rest key

/-! ## Verification: auxiliary facts -/

theorem isTime_of_methods_none {t : GoType} (h : t.methods = none) : t.isTime = false := by
  cases t <;> simp_all [GoType.methods, GoType.isTime]

theorem hookOf_of_methods_none (sel : Methods → Option Recv) (isPtr : Bool) {t : GoType}
    (h : t.methods = none) : hookOf sel isPtr t = none := by
  simp [hookOf, h]

theorem kind_of_isTime {t : GoType} (h : t.isTime = true) : t.kind = .Struct := by
  cases t <;> simp_all [GoType.isTime, GoType.kind]

theorem kind_of_avMember {t : GoType} {k : AVKind} (h : t.avMember? = some k) :
    t.kind = .Struct := by
  cases t <;> simp_all [GoType.avMember?, GoType.kind]

theorem isTime_implementsTextUnmarshaler {t : GoType} (h : t.isTime = true) :
    implementsTextUnmarshaler t = true := by
  cases t <;> simp_all [GoType.isTime, implementsTextUnmarshaler, hookOf, GoType.methods]

theorem zero_of_kind_ptr : ∀ (t : GoType), t.kind = .Ptr → zero t = .ptr none
  | .named _ _ u, h => by
    have ih := zero_of_kind_ptr u (by simpa [GoType.kind] using h)
    simpa [zero] using ih
  | .ptr _, _ => by simp [zero]
  | .int sz, h => by cases sz <;> simp [GoType.kind] at h
  | .uint sz, h => by cases sz <;> simp [GoType.kind] at h
  | .float sz, h => by cases sz <;> simp [GoType.kind] at h
  | .other k, h => by cases k <;> simp [GoType.kind, OtherKind.kind] at h
  | .bool, h => by simp [GoType.kind] at h
  | .string, h => by simp [GoType.kind] at h
  | .slice _, h => by simp [GoType.kind] at h
  | .array _ _, h => by simp [GoType.kind] at h
  | .map _ _, h => by simp [GoType.kind] at h
  | .iface _, h => by simp [GoType.kind] at h
  | .struct _, h => by simp [GoType.kind] at h
  | .time, h => by simp [GoType.kind] at h
  | .avMember _, h => by simp [GoType.kind] at h
  | .attributeValue, h => by simp [GoType.kind] at h
  | .awsEncoder, h => by simp [GoType.kind] at h
  | .ref _, h => by simp [GoType.kind] at h

/-- The interface block of `unmarshalReflect` lets a settable destination through when its
type has no hook, is not a wire member struct, and the value is not a Number for a
`time.Time`. -/
theorem tryInterface_none (env : Env) (av : AttributeValue) (rv : RV)
    (haddr : rv.flagAddr = true)
    (htime : rv.typ.isTime = true → ∀ s, av ≠ .N s)
    (hav : ∀ k, rv.typ.avMember? = some k → av.member ≠ some k)
    (hu : implementsUnmarshaler rv.typ = false)
    (ht : implementsTextUnmarshaler rv.typ = true → ∀ s, av ≠ .S s) :
    tryInterface env av rv = none := by
  have h1 : (if rv.typ.isTime = true then
      (match av with | .N s => some s | _ => none) else none) = none := by
    by_cases hT : rv.typ.isTime = true
    · have := htime hT
      cases av <;> simp_all
    · simp [hT]
  simp only [tryInterface, ifaceOf, haddr, if_true, true_and]
  rw [h1]
  simp only [implementsUnmarshaler, implementsTextUnmarshaler] at hu ht
  cases hA : rv.typ.avMember? with
  | some k =>
    have := hav k hA
    simp [this]
  | none =>
    simp only [Option.isSome_none, Bool.false_eq_true, and_false, if_false]
    cases hU : hookOf (fun m => m.unmarshalDynamoDB) true rv.typ with
    | some p => simp [hU] at hu
    | none =>
      cases hX : hookOf (fun m => m.unmarshalText) true rv.typ with
      | none => rfl
      | some p =>
        have := ht (by simp [hX])
        cases av <;> simp_all

theorem unmarshalReflect_eq_shapeDirected (env : Env) (gas : Nat) (av : AttributeValue) (rv : RV)
    (h : tryInterface env av rv = none) :
    unmarshalReflect env (gas + 1) av rv =
      shapeDirected env (unmarshalReflect env gas) (unmarshalSlice env gas)
        (unmarshalItem env gas) av rv := by
  simp [unmarshalReflect, h]

theorem canSet_flags {rv : RV} (h : rv.canSet = true) :
    rv.flagAddr = true ∧ rv.canInterface = true := by
  simp only [RV.canSet, RV.canInterface] at h ⊢
  simpa using h

theorem parseInt_bounds {s : String} {t : Int} (h : parseInt s 64 = (t, none)) :
    -(2 : Int) ^ 63 ≤ t ∧ t < 2 ^ 63 := by
  unfold parseInt at h
  split at h
  · simp at h
  · simp only at h
    split at h
    · simp at h
    · rename_i un e _ _
      split_ifs at h with h1 h2 h3
      · simp at h
      · simp at h
      · simp only [Prod.mk.injEq, and_true] at h
        subst h
        have hle : un ≤ 2 ^ 63 := by
          by_contra hc
          exact h2 ⟨h3, by norm_num at hc ⊢; omega⟩
        norm_num at hle ⊢
        omega
      · simp only [Prod.mk.injEq, and_true] at h
        subst h
        have hlt : un < 2 ^ 63 := by
          by_contra hc
          exact h1 ⟨h3, by norm_num at hc ⊢; omega⟩
        norm_num at hlt ⊢
        omega

theorem timeUnix_timeUnixUTC {t : Int} (h : -(2 : Int) ^ 63 ≤ t ∧ t < 2 ^ 63) :
    timeUnix (timeUnixUTC t) = some t := by
  simp only [timeUnixUTC, timeUnix, wrapInt, unixToInternal, Option.some.injEq]
  norm_num at h ⊢
  omega

/-! ### C1 -/

/-- C1 (the code departs from it): `Unmarshal(av, p)` for a pointer `p` to a variable of a type
with no hook returns nil and writes nothing: the pointer and its pointee are as before. -/
theorem Unmarshal_plain_pointer_unchanged (env : Env) (gas : Nat) (av : AttributeValue)
    (t : GoType) (p : Value)
    (hm : (resolve env t).methods = none) (ha : (resolve env t).avMember? = none) :
    Unmarshal env (gas + 1) av (.ptr t) p = .done p none := by
  simp [Unmarshal, unmarshalReflect, RV.valueOf, RV.canInterface, tryInterface, ifaceOf,
    isTime_of_methods_none hm, ha, hookOf_of_methods_none _ _ hm, shapeDirected, RV.canSet]

/-- An instance: `Unmarshal` of Bool true through a pointer to a `bool` that holds false. -/
theorem Unmarshal_plain_pointer_unchanged_witness :
    Unmarshal Env.sample 1 (.BOOL true) (.ptr .bool) (.ptr (some (.bool false)))
      = .done (.ptr (some (.bool false))) none :=
  Unmarshal_plain_pointer_unchanged Env.sample 0 (.BOOL true) .bool (.ptr (some (.bool false)))
    rfl rfl

/-! ### C3 -/

/-- C3 as stated fails: the struct `types.AttributeValueMemberNULL` is a settable destination
with no hook, and decoding Null into it copies the wire value instead of zeroing. -/
theorem null_into_null_member_is_copied :
    (RV.fresh (.avMember .NULL)).canSet = true ∧
    implementsUnmarshaler (.avMember .NULL) = false ∧
    unmarshalReflect Env.sample 1 (.NULL true) (RV.fresh (.avMember .NULL))
      = .done (.struct [.bool true, .struct []]) none ∧
    zero (.avMember .NULL) = .struct [.bool false, .struct []] :=
  ⟨rfl, rfl, rfl, rfl⟩

/-- C3 (amended): for a settable destination whose type has no full-value hook and is not the
struct `types.AttributeValueMemberNULL`, decoding Null returns nil and sets the destination to
the zero value of its type; a destination of pointer kind becomes nil. -/
theorem unmarshalReflect_null_zeroes (env : Env) (gas : Nat) (b : Bool) (rv : RV)
    (hset : rv.canSet = true)
    (hhook : implementsUnmarshaler rv.typ = false)
    (hmember : rv.typ.avMember? ≠ some .NULL) :
    unmarshalReflect env (gas + 1) (.NULL b) rv = .done (zero rv.typ) none ∧
    (rv.typ.kind = .Ptr → unmarshalReflect env (gas + 1) (.NULL b) rv = .done (.ptr none) none) := by
  have hflags : rv.flagAddr = true ∧ rv.canInterface = true := by
    simp only [RV.canSet, RV.canInterface] at hset ⊢
    simpa using hset
  have hnone : tryInterface env (.NULL b) rv = none := by
    apply tryInterface_none env _ rv hflags.1
    · intro _ s; simp
    · intro k hk
      simp only [AttributeValue.member]
      intro h
      exact hmember (by rw [hk]; exact h.symm ▸ rfl)
    · exact hhook
    · intro _ s; simp
  have hmain : unmarshalReflect env (gas + 1) (.NULL b) rv = .done (zero rv.typ) none := by
    simp [unmarshalReflect, hflags.2, hnone, shapeDirected, hset, AttributeValue.member]
  exact ⟨hmain, fun hk => by rw [hmain, zero_of_kind_ptr _ hk]⟩

/-- An instance: Null into a non-nil `**int` makes it nil. -/
theorem unmarshalReflect_null_zeroes_witness :
    RV.canSet ⟨.ptr (.ptr (.int .platform)), .ptr (some (.ptr (some (.int 7)))), true, false,
        false⟩ = true ∧
    unmarshalReflect Env.sample 1 (.NULL true)
        ⟨.ptr (.ptr (.int .platform)), .ptr (some (.ptr (some (.int 7)))), true, false, false⟩
      = .done (.ptr none) none :=
  ⟨rfl, (unmarshalReflect_null_zeroes Env.sample 0 true
    ⟨.ptr (.ptr (.int .platform)), .ptr (some (.ptr (some (.int 7)))), true, false, false⟩
    rfl rfl (by simp [GoType.avMember?])).2 rfl⟩

/-! ### C6 -/

/-- C6 as stated fails: the text "300" is outside the range of an 8-bit signed destination, and
decoding it returns nil and stores the truncated value 44. -/
theorem int8_overflow_is_truncated :
    (RV.fresh (.int .s8)).canSet = true ∧
    unmarshalReflect Env.sample 1 (.N "300") (RV.fresh (.int .s8)) = .done (.int 44) none ∧
    unmarshalReflect Env.sample 1 (.N "256") (RV.fresh (.uint .s8)) = .done (.uint 0) none :=
  ⟨rfl, rfl, rfl⟩

/-- C6 (amended): integer decoding uses the 64-bit parser for every width. For a settable
destination of a signed (unsigned) integer kind with no hook, a Number is parsed by
`ParseInt(s, 10, 64)` (`ParseUint(s, 10, 64)`): if that fails the error is returned and the
destination is unchanged, otherwise nil is returned and the value is stored converted to the
width of the destination. -/
theorem unmarshalReflect_integer_parses_64 (env : Env) (gas : Nat) (s : String) (rv : RV)
    (hset : rv.canSet = true)
    (hu : implementsUnmarshaler rv.typ = false)
    (ht : implementsTextUnmarshaler rv.typ = false) :
    (rv.typ.kind ∈ [Kind.Int, .Int64, .Int32, .Int16, .Int8] →
      unmarshalReflect env (gas + 1) (.N s) rv =
        match parseInt s 64 with
        | (_, some e) => .done rv.val (some (.num e))
        | (n, none) => .done (.int (wrapInt rv.typ.kind.bits n)) none) ∧
    (rv.typ.kind ∈ [Kind.Uint, .Uint64, .Uint32, .Uint16, .Uint8] →
      unmarshalReflect env (gas + 1) (.N s) rv =
        match parseUint s 64 with
        | (_, some e) => .done rv.val (some (.num e))
        | (n, none) => .done (.uint (wrapUint rv.typ.kind.bits n)) none) := by
  have hflags := canSet_flags hset
  have hnone : rv.typ.kind ≠ .Struct → tryInterface env (.N s) rv = none := by
    intro hk
    apply tryInterface_none env _ rv hflags.1
    · intro h; exact absurd (kind_of_isTime h) hk
    · intro k h; exact absurd (kind_of_avMember h) hk
    · exact hu
    · intro h; simp [ht] at h
  constructor
  · intro hk
    have hns : rv.typ.kind ≠ .Struct := by
      intro h; simp [h] at hk
    rw [unmarshalReflect_eq_shapeDirected env gas _ rv (hnone hns)]
    simp only [List.mem_cons, List.mem_singleton, List.not_mem_nil, or_false] at hk
    rcases hk with hk | hk | hk | hk | hk <;>
      simp [shapeDirected, hset, hk, AttributeValue.member]
  · intro hk
    have hns : rv.typ.kind ≠ .Struct := by
      intro h; simp [h] at hk
    rw [unmarshalReflect_eq_shapeDirected env gas _ rv (hnone hns)]
    simp only [List.mem_cons, List.mem_singleton, List.not_mem_nil, or_false] at hk
    rcases hk with hk | hk | hk | hk | hk <;>
      simp [shapeDirected, hset, hk, AttributeValue.member]

/-- An instance: "40000" into an `int16` is stored as -25536. -/
theorem unmarshalReflect_integer_parses_64_witness :
    (RV.fresh (.int .s16)).canSet = true ∧
    unmarshalReflect Env.sample 1 (.N "40000") (RV.fresh (.int .s16)) = .done (.int (-25536)) none :=
  ⟨rfl, ((unmarshalReflect_integer_parses_64 Env.sample 0 "40000" (RV.fresh (.int .s16))
    rfl rfl rfl).1 (by decide)).trans rfl⟩

/-! ### C7 -/

/-- C7 as stated fails: a destination of the struct type `types.AttributeValueMemberS` is
settable, hook-free and struct-shaped, and decoding a String (not a Map, not Null) into it
returns nil and changes it. -/
theorem string_into_string_member_is_accepted :
    (RV.fresh (.avMember .S)).canSet = true ∧
    implementsUnmarshaler (.avMember .S) = false ∧
    implementsTextUnmarshaler (.avMember .S) = false ∧
    (GoType.avMember .S).kind = .Struct ∧
    (AttributeValue.S "x").member ≠ requiredMember (GoType.avMember .S).kind ∧
    unmarshalReflect Env.sample 1 (.S "x") (RV.fresh (.avMember .S))
      = .done (.struct [.string "x", .struct []]) none ∧
    (RV.fresh (.avMember .S)).val = .struct [.string "", .struct []] :=
  ⟨rfl, rfl, rfl, rfl, by decide, rfl, rfl⟩

theorem shapeDirected_mismatch (env : Env) (dec decSlice : AttributeValue → RV → Outcome Value)
    (decItem : Item → GoType → Value → Outcome Value) (av : AttributeValue) (rv : RV)
    (hset : rv.canSet = true) (k : AVKind)
    (hreq : requiredMember rv.typ.kind = some k) (hne : av.member ≠ some k)
    (hnn : av.member ≠ some .NULL) :
    ∃ e, shapeDirected env dec decSlice decItem av rv = .done rv.val (some e) := by
  unfold shapeDirected
  rw [if_neg (by simp [hset]), if_neg hnn]
  cases hk : rv.typ.kind <;> simp only [hk, requiredMember] at hreq <;> cases hreq <;>
    cases av <;> first | exact absurd rfl hne | exact ⟨_, rfl⟩

/-- C7 (amended): for a settable hook-free destination of shape bool, integer, unsigned, float,
string or struct that is not one of the wire member structs `types.AttributeValueMember<k>`,
a non-Null wire value of another variant than the required one gives a non-nil error and leaves
the destination unchanged; the required variant with well-formed content gives nil (for a
struct: exactly when `unmarshalItem` on the destination does). -/
theorem unmarshalReflect_shape_mismatch (env : Env) (gas : Nat) (rv : RV)
    (hset : rv.canSet = true)
    (hu : implementsUnmarshaler rv.typ = false)
    (ht : implementsTextUnmarshaler rv.typ = false)
    (hm : rv.typ.avMember? = none) :
    (∀ av k, requiredMember rv.typ.kind = some k → av.member ≠ some k →
      av.member ≠ some .NULL →
      ∃ e, unmarshalReflect env (gas + 1) av rv = .done rv.val (some e)) ∧
    (rv.typ.kind = .Bool → ∀ b,
      unmarshalReflect env (gas + 1) (.BOOL b) rv = .done (.bool b) none) ∧
    (rv.typ.kind ∈ [Kind.Int, .Int64, .Int32, .Int16, .Int8] → ∀ s n,
      parseInt s 64 = (n, none) →
      (unmarshalReflect env (gas + 1) (.N s) rv).returnsNil = true) ∧
    (rv.typ.kind ∈ [Kind.Uint, .Uint64, .Uint32, .Uint16, .Uint8] → ∀ s n,
      parseUint s 64 = (n, none) →
      (unmarshalReflect env (gas + 1) (.N s) rv).returnsNil = true) ∧
    (rv.typ.kind ∈ [Kind.Float64, .Float32] → ∀ s f,
      env.parseFloat s = (f, none) →
      (unmarshalReflect env (gas + 1) (.N s) rv).returnsNil = true) ∧
    (rv.typ.kind = .String → ∀ s,
      unmarshalReflect env (gas + 1) (.S s) rv = .done (.string s) none) ∧
    (rv.typ.kind = .Struct → ∀ item,
      (unmarshalReflect env (gas + 1) (.M item) rv).returnsNil =
        (unmarshalItem env gas item (.ptr rv.typ) (.ptr (some rv.val))).returnsNil) := by
  have hflags := canSet_flags hset
  have hnone : ∀ av, tryInterface env av rv = none := by
    intro av
    apply tryInterface_none env _ rv hflags.1
    · intro h
      have := isTime_implementsTextUnmarshaler h
      simp [ht] at this
    · intro k h; simp [hm] at h
    · exact hu
    · intro h; simp [ht] at h
  have hsd : ∀ av, unmarshalReflect env (gas + 1) av rv =
      shapeDirected env (unmarshalReflect env gas) (unmarshalSlice env gas)
        (unmarshalItem env gas) av rv :=
    fun av => unmarshalReflect_eq_shapeDirected env gas av rv (hnone av)
  refine ⟨?_, ?_, ?_, ?_, ?_, ?_, ?_⟩
  · intro av k hreq hne hnn
    rw [hsd]
    exact shapeDirected_mismatch env _ _ _ av rv hset k hreq hne hnn
  · intro hk b
    rw [hsd]; simp [shapeDirected, hset, hk, AttributeValue.member]
  · intro hk s n hp
    rw [hsd]
    simp only [List.mem_cons, List.mem_singleton, List.not_mem_nil, or_false] at hk
    rcases hk with hk | hk | hk | hk | hk <;>
      simp [shapeDirected, hset, hk, AttributeValue.member, hp, Outcome.returnsNil]
  · intro hk s n hp
    rw [hsd]
    simp only [List.mem_cons, List.mem_singleton, List.not_mem_nil, or_false] at hk
    rcases hk with hk | hk | hk | hk | hk <;>
      simp [shapeDirected, hset, hk, AttributeValue.member, hp, Outcome.returnsNil]
  · intro hk s f hp
    rw [hsd]
    simp only [List.mem_cons, List.mem_singleton, List.not_mem_nil, or_false] at hk
    rcases hk with hk | hk <;>
      simp [shapeDirected, hset, hk, AttributeValue.member, hp, Outcome.returnsNil]
  · intro hk s
    rw [hsd]; simp [shapeDirected, hset, hk, AttributeValue.member]
  · intro hk item
    rw [hsd]
    simp only [shapeDirected, hset, hk, AttributeValue.member]
    cases unmarshalItem env gas item (.ptr rv.typ) (.ptr (some rv.val)) with
    | done r e => cases e <;> simp [Outcome.mapResult, Outcome.returnsNil]
    | panic m => simp [Outcome.mapResult, Outcome.returnsNil]
    | outOfGas => simp [Outcome.mapResult, Outcome.returnsNil]

/-- An instance: a String into a `bool` is an error and leaves the `bool` as it was. -/
theorem unmarshalReflect_shape_mismatch_witness :
    (RV.fresh .bool).canSet = true ∧
    ∃ e, unmarshalReflect Env.sample 1 (.S "true") (RV.fresh .bool) = .done (.bool false) (some e) :=
  ⟨rfl, (unmarshalReflect_shape_mismatch Env.sample 0 (RV.fresh .bool) rfl rfl rfl rfl).1
    (.S "true") .BOOL rfl (by decide) (by decide)⟩

/-! ### C8 -/

/-- C8: for a settable destination whose type declares `UnmarshalDynamoDB` (so that its
pointer type implements `Unmarshaler`) and for every wire value, Null and mismatching variants
included, `unmarshalReflect` is the call of that hook on the address of the destination and
nothing else: it returns what the hook returns. -/
theorem unmarshalReflect_full_hook_owns (env : Env) (gas : Nat) (av : AttributeValue) (rv : RV)
    (name : String) (m : Methods) (recv : Recv)
    (hset : rv.canSet = true)
    (hmeth : rv.typ.methods = some (name, m))
    (hrecv : m.unmarshalDynamoDB = some recv) :
    unmarshalReflect env (gas + 1) av rv =
      callHook rv true (.ptr (some rv.val)) recv (env.unmarshalDynamoDB name av) ∧
    (recv = .pointer →
      unmarshalReflect env (gas + 1) av rv =
        (env.unmarshalDynamoDB name av (.ptr (some rv.val))).mapResult (writeBack rv) ∧
      (unmarshalReflect env (gas + 1) av rv).err? =
        (env.unmarshalDynamoDB name av (.ptr (some rv.val))).err?) := by
  have hflags := canSet_flags hset
  have hT : rv.typ.isTime = false := by
    cases h : rv.typ <;> simp_all [GoType.methods, GoType.isTime]
    obtain ⟨_, hm⟩ := hmeth
    subst hm
    simp at hrecv
  have hA : rv.typ.avMember? = none := by
    cases h : rv.typ <;> simp_all [GoType.methods, GoType.avMember?]
  have hmain : unmarshalReflect env (gas + 1) av rv =
      callHook rv true (.ptr (some rv.val)) recv (env.unmarshalDynamoDB name av) := by
    simp [unmarshalReflect, hflags.2, tryInterface, ifaceOf, hflags.1, hT, hA, hookOf, hmeth,
      hrecv]
  refine ⟨hmain, fun hp => ?_⟩
  subst hp
  rw [hmain]
  simp only [callHook, true_and]
  cases env.unmarshalDynamoDB name av (.ptr (some rv.val)) <;>
    simp [Outcome.mapResult, Outcome.err?]

/-- An instance: the hook of `customMarshaler` gets Null and Bool, and its result is returned. -/
theorem unmarshalReflect_full_hook_owns_witness :
    (RV.fresh customMarshaler).canSet = true ∧
    unmarshalReflect Env.sample 1 (.NULL true) ⟨customMarshaler, .int 5, true, false, false⟩
      = .done (.int 5) none ∧
    unmarshalReflect Env.sample 1 (.BOOL true) ⟨customMarshaler, .int 5, true, false, false⟩
      = .done (.int 1) none :=
  ⟨rfl,
   (unmarshalReflect_full_hook_owns Env.sample 0 (.NULL true)
     ⟨customMarshaler, .int 5, true, false, false⟩ "customMarshaler" _ .pointer rfl rfl rfl).1,
   rfl⟩

/-! ### C9 -/

/-- C9 as stated fails: `time.Time` implements `encoding.TextUnmarshaler` and not `Unmarshaler`,
and a Number (neither String nor Null) decoded into it does not take the shape-directed path of
its kind, which rejects a Number for a struct: it is read as unix seconds and nil is
returned. -/
theorem time_number_is_not_shape_directed :
    (RV.fresh .time).canSet = true ∧
    implementsTextUnmarshaler .time = true ∧
    implementsUnmarshaler .time = false ∧
    unmarshalReflect Env.sample 2 (.N "5") (RV.fresh .time) = .done (timeUnixUTC 5) none ∧
    shapeDirected Env.sample (unmarshalReflect Env.sample 1) (unmarshalSlice Env.sample 1)
        (unmarshalItem Env.sample 1) (.N "5") (RV.fresh .time)
      = .done (zero .time) (some (.cannotUnmarshal "number" "struct")) :=
  ⟨rfl, rfl, rfl, rfl, rfl⟩

/-- C9 (amended): for a settable destination whose type declares `UnmarshalText` and not
`UnmarshalDynamoDB`, decoding a String is the call of the text hook on the bytes of the string
and returns what it returns; Null zeroes the destination without a call of the hook; every
other variant, a Number for a `time.Time` excepted, takes the shape-directed path of
`unmarshalReflect` without a call of the hook. -/
theorem unmarshalReflect_text_hook (env : Env) (gas : Nat) (rv : RV)
    (name : String) (m : Methods) (recv : Recv)
    (hset : rv.canSet = true)
    (hmeth : rv.typ.methods = some (name, m))
    (hfull : m.unmarshalDynamoDB = none)
    (htext : m.unmarshalText = some recv) :
    (∀ s, unmarshalReflect env (gas + 1) (.S s) rv =
      callHook rv true (.ptr (some rv.val)) recv (env.unmarshalText name (stringBytes s))) ∧
    (∀ b, unmarshalReflect env (gas + 1) (.NULL b) rv = .done (zero rv.typ) none) ∧
    (∀ av, (∀ s, av ≠ .S s) → (rv.typ.isTime = true → ∀ s, av ≠ .N s) →
      unmarshalReflect env (gas + 1) av rv =
        shapeDirected env (unmarshalReflect env gas) (unmarshalSlice env gas)
          (unmarshalItem env gas) av rv) := by
  have hflags := canSet_flags hset
  have hA : rv.typ.avMember? = none := by
    cases h : rv.typ <;> simp_all [GoType.methods, GoType.avMember?]
  have hu : implementsUnmarshaler rv.typ = false := by
    simp [implementsUnmarshaler, hookOf, hmeth, hfull]
  have hother : ∀ av, (∀ s, av ≠ .S s) → (rv.typ.isTime = true → ∀ s, av ≠ .N s) →
      unmarshalReflect env (gas + 1) av rv =
        shapeDirected env (unmarshalReflect env gas) (unmarshalSlice env gas)
          (unmarshalItem env gas) av rv := by
    intro av hS hN
    apply unmarshalReflect_eq_shapeDirected
    apply tryInterface_none env _ rv hflags.1 hN
    · intro k h; simp [hA] at h
    · exact hu
    · intro _; exact hS
  refine ⟨?_, ?_, hother⟩
  · intro s
    simp [unmarshalReflect, hflags.2, tryInterface, ifaceOf, hflags.1, hA, hookOf, hmeth,
      hfull, htext]
  · intro b
    rw [hother (.NULL b) (by intro s; simp) (by intro _ s; simp)]
    simp [shapeDirected, hset, AttributeValue.member]

/-- An instance: the String "true" into a `textMarshaler`. -/
theorem unmarshalReflect_text_hook_witness :
    (RV.fresh textMarshaler).canSet = true ∧
    unmarshalReflect Env.sample 1 (.S "true") (RV.fresh textMarshaler) = .done (.bool true) none :=
  ⟨rfl, ((unmarshalReflect_text_hook Env.sample 0 (RV.fresh textMarshaler) "textMarshaler" _
    .pointer rfl rfl rfl rfl).1 "true").trans rfl⟩

/-! ### C10 -/

/-- C10: for a settable destination of type `time.Time` (decode knows no directive) and a
Number whose text `ParseInt(s, 10, 64)` accepts as `t`, decoding returns nil and stores
`time.Unix(t, 0).UTC()`: the instant `t` seconds after the epoch, with no sub-second part, in
UTC. If the text is not a base-10 signed 64-bit integer, the error is returned and the
destination is unchanged. -/
theorem unmarshalReflect_implicit_unixtime (env : Env) (gas : Nat) (s : String) (rv : RV)
    (hset : rv.canSet = true)
    (htime : rv.typ.isTime = true) :
    (∀ t, parseInt s 64 = (t, none) →
      unmarshalReflect env (gas + 1) (.N s) rv = .done (timeUnixUTC t) none ∧
      timeUnix (timeUnixUTC t) = some t ∧
      timeNanosecond (timeUnixUTC t) = some 0 ∧
      timeIsUTC (timeUnixUTC t) = true) ∧
    (∀ v e, parseInt s 64 = (v, some e) →
      unmarshalReflect env (gas + 1) (.N s) rv = .done rv.val (some (.num e))) := by
  have hflags := canSet_flags hset
  constructor
  · intro t hp
    refine ⟨?_, timeUnix_timeUnixUTC (parseInt_bounds hp), rfl, rfl⟩
    simp [unmarshalReflect, hflags.2, tryInterface, ifaceOf, hflags.1, htime, hp,
      storeThrough, writeBack]
  · intro v e hp
    simp [unmarshalReflect, hflags.2, tryInterface, ifaceOf, hflags.1, htime, hp]

/-- An instance: the Number "1546300800" into a `time.Time`, and the malformed "1.5". -/
theorem unmarshalReflect_implicit_unixtime_witness :
    (RV.fresh .time).canSet = true ∧
    unmarshalReflect Env.sample 1 (.N "1546300800") (RV.fresh .time)
      = .done (timeUnixUTC 1546300800) none ∧
    timeUnix (timeUnixUTC 1546300800) = some 1546300800 ∧
    unmarshalReflect Env.sample 1 (.N "1.5") (RV.fresh .time)
      = .done (zero .time) (some (.num (.errSyntax "ParseInt" "1.5"))) :=
  ⟨rfl,
   ((unmarshalReflect_implicit_unixtime Env.sample 0 "1546300800" (RV.fresh .time) rfl rfl).1
      1546300800 rfl).1,
   ((unmarshalReflect_implicit_unixtime Env.sample 0 "1546300800" (RV.fresh .time) rfl rfl).1
      1546300800 rfl).2.1,
   rfl⟩

/-! ### C5 -/

theorem digitChar_toNat {d : Nat} (h : d < 10) : (Nat.digitChar d).toNat = 48 + d := by
  interval_cases d <;> rfl

/-- The number that a list of decimal digits, most significant first, denotes after `acc`. -/
theorem horner_ge (ds : List Nat) (acc : Nat) :
    acc ≤ ds.foldl (fun a d => a * 10 + d) acc := by
  induction ds generalizing acc with
  | nil => simp
  | cons d ds ih =>
    simp only [List.foldl_cons]
    have := ih (acc * 10 + d)
    omega

theorem parseUintLoop_digits (s0 : String) (maxVal : Nat) (hmax : maxVal < 2 ^ 64)
    (ds : List Nat) (hds : ∀ d ∈ ds, d < 10) (acc : Nat)
    (hval : ds.foldl (fun a d => a * 10 + d) acc ≤ maxVal) :
    parseUintLoop s0 maxVal (ds.map Nat.digitChar) acc
      = (ds.foldl (fun a d => a * 10 + d) acc, none) := by
  induction ds generalizing acc with
  | nil => simp [parseUintLoop]
  | cons d ds ih =>
    have hd : d < 10 := hds d (List.mem_cons_self _ _)
    have hge := horner_ge ds (acc * 10 + d)
    simp only [List.foldl_cons] at hval hge ⊢
    have hacc : acc * 10 + d ≤ maxVal := le_trans hge hval
    simp only [List.map_cons, parseUintLoop, digitChar_toNat hd, maxUint64]
    norm_num at hmax
    have h1 : 48 ≤ 48 + d ∧ 48 + d ≤ 57 := by omega
    have h2 : ¬ (acc ≥ (2 ^ 64 - 1) / 10 + 1) := by norm_num; omega
    have h3 : acc * 10 % 2 ^ 64 = acc * 10 := by norm_num; omega
    have h4 : (acc * 10 + (48 + d - 48)) % 2 ^ 64 = acc * 10 + d := by norm_num; omega
    rw [if_pos h1, if_neg h2]
    simp only [h3, h4]
    rw [if_neg (by omega)]
    exact ih (fun x hx => hds x (List.mem_cons_of_mem _ hx)) _ hval

theorem horner_digits (n : Nat) :
    (Nat.digits 10 n).reverse.foldl (fun a d => a * 10 + d) 0 = n := by
  rw [List.foldl_reverse]
  have h : ∀ L : List Nat, L.foldr (fun d a => a * 10 + d) 0 = Nat.ofDigits 10 L := by
    intro L
    induction L with
    | nil => simp
    | cons d L ih => simp [List.foldr_cons, ih, Nat.ofDigits_cons]; ring
  rw [h, Nat.ofDigits_digits]

/-- The parser `strconv.ParseUint(s, 10, 64)` reads the canonical decimal text of every
`uint64` back. -/
theorem parseUint_decimal (n : Nat) (hn : n < 2 ^ 64) : parseUint (decimal n) 64 = (n, none) := by
  by_cases h0 : n = 0
  · subst h0; decide
  · have hne : (Nat.digits 10 n).reverse.map Nat.digitChar ≠ [] := by
      simp [Nat.digits_ne_nil_iff_ne_zero, h0]
    have hs : decimal n = ⟨(Nat.digits 10 n).reverse.map Nat.digitChar⟩ := by
      simp [decimal, h0]
    have hnotempty : decimal n ≠ "" := by
      rw [hs]
      intro h
      exact hne (congrArg String.data h)
    rw [parseUint, if_neg hnotempty, hs]
    have := parseUintLoop_digits ⟨(Nat.digits 10 n).reverse.map Nat.digitChar⟩ (2 ^ 64 - 1)
      (by norm_num) (Nat.digits 10 n).reverse
      (fun d hd => Nat.digits_lt_base (by norm_num) (List.mem_reverse.mp hd)) 0
      (by rw [horner_digits]; omega)
    rw [horner_digits] at this
    exact this

theorem shapeDirected_uint64 (env : Env) (dec decSlice : AttributeValue → RV → Outcome Value)
    (decItem : Item → GoType → Value → Outcome Value) (n : Nat) (hn : n < 2 ^ 64) (rv : RV)
    (hset : rv.canSet = true) (hk : rv.typ.kind = .Uint64 ∨ rv.typ.kind = .Uint) :
    shapeDirected env dec decSlice decItem (.N (decimal n)) rv = .done (.uint n) none := by
  have hw : wrapUint 64 n = n := by
    simp only [wrapUint]; exact Nat.mod_eq_of_lt hn
  rcases hk with hk | hk <;>
    simp [shapeDirected, hset, hk, AttributeValue.member, parseUint_decimal n hn, Kind.bits, hw]

theorem unmarshalReflect_uint64 (env : Env) (gas : Nat) (n : Nat) (hn : n < 2 ^ 64) (rv : RV)
    (hset : rv.canSet = true) (hk : rv.typ.kind = .Uint64 ∨ rv.typ.kind = .Uint)
    (hu : implementsUnmarshaler rv.typ = false)
    (ht : implementsTextUnmarshaler rv.typ = false) :
    unmarshalReflect env (gas + 1) (.N (decimal n)) rv = .done (.uint n) none := by
  have hns : rv.typ.kind ≠ .Struct := by
    rcases hk with hk | hk <;> simp [hk]
  rw [unmarshalReflect_eq_shapeDirected]
  · exact shapeDirected_uint64 env _ _ _ n hn rv hset hk
  · apply tryInterface_none env _ rv (canSet_flags hset).1
    · intro h; exact absurd (kind_of_isTime h) hns
    · intro k h; exact absurd (kind_of_avMember h) hns
    · exact hu
    · intro h; simp [ht] at h

theorem mapLoopNS_uint64 (env : Env) (gas : Nat) (keyType : GoType) (t : Value)
    (hkey : keyType = .uint .s64 ∨ keyType = .uint .platform)
    (ns : List Nat) (hns : ∀ n ∈ ns, n < 2 ^ 64) (m : List (Value × Value)) (kv : Value) :
    mapLoopNS (unmarshalReflect env (gas + 1)) keyType (.done t none) (ns.map decimal) m kv
      = .done (ns.foldl (fun m n => mapSet m (.uint n) t) m) none := by
  induction ns generalizing m kv with
  | nil => simp [mapLoopNS]
  | cons n ns ih =>
    have hdec : unmarshalReflect env (gas + 1) (.N (decimal n)) ⟨keyType, kv, true, false, false⟩
        = .done (.uint n) none := by
      apply unmarshalReflect_uint64 env gas n (hns n (List.mem_cons_self _ _))
      · rfl
      · rcases hkey with h | h <;> subst h <;> simp [GoType.kind]
      · rcases hkey with h | h <;> subst h <;> rfl
      · rcases hkey with h | h <;> subst h <;> rfl
    simp only [List.map_cons, mapLoopNS, hdec, List.foldl_cons]
    exact ih (fun x hx => hns x (List.mem_cons_of_mem _ hx)) _ _

/-- C5: for every `n` below `2^64`, the platform maximum included, decoding the Number whose
text is the canonical decimal text of `n` into a settable hook-free destination of kind
`uint64` (or `uint`) returns nil and stores exactly `n`; and decoding a NumberSet of such texts
into a nil map with keys of type `uint64` or `uint` and marker values (`bool` or `struct{}`)
returns nil and gives every member, exactly, as a key mapped to the marker. -/
theorem unmarshalReflect_uint64_exact (env : Env) (gas : Nat) :
    (∀ n rv, n < 2 ^ 64 → rv.canSet = true →
      (rv.typ.kind = .Uint64 ∨ rv.typ.kind = .Uint) →
      implementsUnmarshaler rv.typ = false → implementsTextUnmarshaler rv.typ = false →
      unmarshalReflect env (gas + 1) (.N (decimal n)) rv = .done (.uint n) none) ∧
    (∀ ns : List Nat, (∀ n ∈ ns, n < 2 ^ 64) →
      ∀ keyType ∈ [GoType.uint .s64, .uint .platform],
      ∀ marker ∈ [(GoType.bool, Value.bool true), (GoType.struct [], Value.struct [])],
      unmarshalReflect env (gas + 2) (.NS (ns.map decimal)) (RV.fresh (.map keyType marker.1))
        = .done (.map (some (ns.foldl (fun m n => mapSet m (.uint n) marker.2) []))) none) := by
  refine ⟨fun n rv hn hset hk hu ht => unmarshalReflect_uint64 env gas n hn rv hset hk hu ht, ?_⟩
  intro ns hns keyType hkey marker hmarker
  have hkey2 : keyType = .uint .s64 ∨ keyType = .uint .platform := by simpa using hkey
  have hloop := fun t kv => mapLoopNS_uint64 env gas keyType t hkey2 ns hns [] kv
  simp only [List.mem_cons, List.mem_singleton, List.not_mem_nil, or_false] at hmarker
  rw [unmarshalReflect_eq_shapeDirected]
  · rcases hmarker with h | h <;> subst h <;> rcases hkey2 with h | h <;> subst h <;>
      simp [shapeDirected, RV.fresh, RV.canSet, AttributeValue.member, GoType.kind, GoType.key,
        GoType.elem, resolve, zero, Value.entries, truthyBool, GoType.isBool,
        GoType.isEmptyStruct, hloop, Outcome.mapResult]
  · apply tryInterface_none env _ _ rfl
    · intro h; simp [RV.fresh, GoType.isTime] at h
    · intro k h; simp [RV.fresh, GoType.avMember?] at h
    · rfl
    · intro h; simp [RV.fresh, implementsTextUnmarshaler, hookOf, GoType.methods] at h

/-- An instance: the largest `uint64`. -/
theorem unmarshalReflect_uint64_exact_witness :
    unmarshalReflect Env.sample 1 (.N (decimal 18446744073709551615)) (RV.fresh (.uint .s64))
      = .done (.uint 18446744073709551615) none ∧
    decimal 18446744073709551615 = "18446744073709551615" :=
  ⟨(unmarshalReflect_uint64_exact Env.sample 0).1 18446744073709551615 (RV.fresh (.uint .s64))
      (by norm_num) rfl (Or.inl rfl) rfl rfl,
   by simp [decimal]; decide⟩

/-! ### Paths into a struct value -/

theorem incomparable_symm {p q : List Nat} (h : incomparable p q) : incomparable q p :=
  ⟨h.2, h.1⟩

theorem incomparable_cons_cons {i j : Nat} {p q : List Nat} (h : incomparable (i :: p) (j :: q)) :
    i ≠ j ∨ incomparable p q := by
  by_cases hij : i = j
  · right
    subst hij
    constructor
    · intro hp; exact h.1 ((List.prefix_cons_inj i).mpr hp)
    · intro hp; exact h.2 ((List.prefix_cons_inj i).mpr hp)
  · exact Or.inl hij

theorem incomparable_of_head_ne {i j : Nat} (p q : List Nat) (h : i ≠ j) :
    incomparable (i :: p) (j :: q) := by
  constructor
  · intro hp
    rcases hp with ⟨t, ht⟩
    simp at ht
    exact h ht.1
  · intro hp
    rcases hp with ⟨t, ht⟩
    simp at ht
    exact h ht.1.symm

theorem incomparable_cons_of_incomparable (i : Nat) {p q : List Nat} (h : incomparable p q) :
    incomparable (i :: p) (i :: q) :=
  ⟨fun hp => h.1 ((List.prefix_cons_inj i).mp hp), fun hp => h.2 ((List.prefix_cons_inj i).mp hp)⟩

theorem not_incomparable_nil_left (q : List Nat) : ¬ incomparable [] q :=
  fun h => h.1 (List.nil_prefix)

theorem not_incomparable_nil_right (p : List Nat) : ¬ incomparable p [] :=
  fun h => h.2 (List.nil_prefix)

theorem getD_set_self (fs : List Value) (i : Nat) (x : Value) (h : i < fs.length) :
    (fs.set i x).getD i .invalid = x := by
  simp [List.getD_eq_getElem?_getD, List.getElem?_set, h]

theorem getD_set_ne (fs : List Value) {i j : Nat} (x : Value) (h : i ≠ j) :
    (fs.set i x).getD j .invalid = fs.getD j .invalid := by
  simp [List.getD_eq_getElem?_getD, List.getElem?_set, h]

theorem getD_set_of_not_lt (fs : List Value) (i j : Nat) (x : Value) (h : ¬ i < fs.length) :
    (fs.set i x).getD j .invalid = fs.getD j .invalid := by
  rw [List.set_eq_of_length_le (by omega)]

theorem getAt_fields_set (fs : List Value) (i j : Nat) (p q : List Nat) (x : Value)
    (ih : incomparable p q →
      getAt (setAt (fs.getD i .invalid) p x) q = getAt (fs.getD i .invalid) q)
    (h : incomparable (i :: p) (j :: q)) :
    getAt ((fs.set i (setAt (fs.getD i .invalid) p x)).getD j .invalid) q
      = getAt (fs.getD j .invalid) q := by
  by_cases hij : i = j
  · subst hij
    have hpq : incomparable p q := by
      rcases incomparable_cons_cons h with h' | h'
      · exact absurd rfl h'
      · exact h'
    by_cases hlt : i < fs.length
    · rw [getD_set_self _ _ _ hlt]; exact ih hpq
    · rw [getD_set_of_not_lt _ _ _ _ hlt]
  · rw [getD_set_ne _ _ hij]

/-- A write at a path leaves the content at every incomparable path as it was. -/
theorem getAt_setAt_of_incomparable (p : List Nat) :
    ∀ (q : List Nat) (s x : Value), incomparable p q → getAt (setAt s p x) q = getAt s q := by
  induction p with
  | nil => intro q s x h; exact absurd h (not_incomparable_nil_left q)
  | cons i p ih =>
    intro q s x h
    cases q with
    | nil => exact absurd h (not_incomparable_nil_right _)
    | cons j q =>
      cases s with
      | struct fs =>
        simp only [setAt, getAt]
        exact getAt_fields_set fs i j p q x (ih q _ x) h
      | ptr o =>
        cases o with
        | none => simp [setAt]
        | some v =>
          cases v with
          | struct fs =>
            simp only [setAt, getAt]
            exact getAt_fields_set fs i j p q x (ih q _ x) h
          | _ => simp [setAt]
      | _ => simp [setAt]

theorem getAt_fields_set_self (fs : List Value) (i : Nat) (p : List Nat) (x : Value)
    (ih : validPath (fs.getD i .invalid) p = true →
      getAt (setAt (fs.getD i .invalid) p x) p = x)
    (h : (decide (i < fs.length) && validPath (fs.getD i .invalid) p) = true) :
    getAt ((fs.set i (setAt (fs.getD i .invalid) p x)).getD i .invalid) p = x := by
  simp only [Bool.and_eq_true, decide_eq_true_eq] at h
  rw [getD_set_self _ _ _ h.1]
  exact ih h.2

/-- A write at a path that designates storage is read back at that path. -/
theorem getAt_setAt_self (p : List Nat) :
    ∀ (s x : Value), validPath s p = true → getAt (setAt s p x) p = x := by
  induction p with
  | nil => intro s x _; simp [setAt, getAt]
  | cons i p ih =>
    intro s x h
    cases s with
    | struct fs =>
      simp only [validPath] at h
      simp only [setAt, getAt]
      exact getAt_fields_set_self fs i p x (ih _ x) h
    | ptr o =>
      cases o with
      | none => simp [validPath] at h
      | some v =>
        cases v with
        | struct fs =>
          simp only [validPath] at h
          simp only [setAt, getAt]
          exact getAt_fields_set_self fs i p x (ih _ x) h
        | _ => simp [validPath] at h
    | _ => simp [validPath] at h

theorem validPath_fields_set (fs : List Value) (i j : Nat) (p q : List Nat) (x : Value)
    (ih : incomparable p q →
      validPath (setAt (fs.getD i .invalid) p x) q = validPath (fs.getD i .invalid) q)
    (h : incomparable (i :: p) (j :: q)) :
    (decide (j < (fs.set i (setAt (fs.getD i .invalid) p x)).length) &&
        validPath ((fs.set i (setAt (fs.getD i .invalid) p x)).getD j .invalid) q)
      = (decide (j < fs.length) && validPath (fs.getD j .invalid) q) := by
  simp only [List.length_set]
  by_cases hij : i = j
  · subst hij
    have hpq : incomparable p q := by
      rcases incomparable_cons_cons h with h' | h'
      · exact absurd rfl h'
      · exact h'
    by_cases hlt : i < fs.length
    · rw [getD_set_self _ _ _ hlt, ih hpq]
    · rw [getD_set_of_not_lt _ _ _ _ hlt]
  · rw [getD_set_ne _ _ hij]

/-- A write at a path does not change which incomparable paths designate storage. -/
theorem validPath_setAt_of_incomparable (p : List Nat) :
    ∀ (q : List Nat) (s x : Value), incomparable p q →
      validPath (setAt s p x) q = validPath s q := by
  induction p with
  | nil => intro q s x h; exact absurd h (not_incomparable_nil_left q)
  | cons i p ih =>
    intro q s x h
    cases q with
    | nil => exact absurd h (not_incomparable_nil_right _)
    | cons j q =>
      cases s with
      | struct fs =>
        simp only [setAt, validPath]
        exact validPath_fields_set fs i j p q x (ih q _ x) h
      | ptr o =>
        cases o with
        | none => simp [setAt]
        | some v =>
          cases v with
          | struct fs =>
            simp only [setAt, validPath]
            exact validPath_fields_set fs i j p q x (ih q _ x) h
          | _ => simp [setAt]
      | _ => simp [setAt]

/-! ### The table of fields -/

theorem tableSet_mem {fields : FieldTable} {name : String} {fv : FieldRef}
    {x : String × FieldRef} (h : x ∈ tableSet fields name fv) :
    x ∈ fields ∨ x = (name, fv) := by
  induction fields with
  | nil => simp [tableSet] at h; exact Or.inr h
  | cons hd rest ih =>
    obtain ⟨k, v⟩ := hd
    simp only [tableSet] at h
    split_ifs at h with hk
    · simp only [List.mem_cons] at h ⊢
      rcases h with h | h
      · right; rw [h, hk]
      · left; right; exact h
    · simp only [List.mem_cons] at h ⊢
      rcases h with h | h
      · left; left; exact h
      · rcases ih h with h' | h'
        · left; right; exact h'
        · right; exact h'

theorem tableSet_pairwise {fields : FieldTable} {name : String} {fv : FieldRef}
    (hp : fields.Pairwise (fun a b => incomparable a.2.path b.2.path))
    (hnew : ∀ x ∈ fields, incomparable x.2.path fv.path) :
    (tableSet fields name fv).Pairwise (fun a b => incomparable a.2.path b.2.path) := by
  induction fields with
  | nil => simp [tableSet]
  | cons hd rest ih =>
    obtain ⟨k, v⟩ := hd
    rw [List.pairwise_cons] at hp
    simp only [tableSet]
    split_ifs with hk
    · rw [List.pairwise_cons]
      exact ⟨fun y hy => incomparable_symm (hnew y (List.mem_cons_of_mem _ hy)), hp.2⟩
    · rw [List.pairwise_cons]
      refine ⟨fun y hy => ?_, ih hp.2 (fun x hx => hnew x (List.mem_cons_of_mem _ hx))⟩
      rcases tableSet_mem hy with h' | h'
      · exact hp.1 y h'
      · rw [h']; exact hnew (k, v) (List.mem_cons_self _ _)

theorem mergeInner_mem (i : Nat) (inner : FieldTable) :
    ∀ (fields : FieldTable) (x : String × FieldRef), x ∈ mergeInner i fields inner →
      x ∈ fields ∨ ∃ y ∈ inner, x = (y.1, { y.2 with path := i :: y.2.path }) := by
  induction inner with
  | nil => intro fields x h; simp [mergeInner] at h; exact Or.inl h
  | cons hd rest ih =>
    intro fields x h
    obtain ⟨k, v⟩ := hd
    simp only [mergeInner] at h
    split at h
    · rcases ih _ x h with h' | ⟨y, hy, hxy⟩
      · exact Or.inl h'
      · exact Or.inr ⟨y, List.mem_cons_of_mem _ hy, hxy⟩
    · rcases ih _ x h with h' | ⟨y, hy, hxy⟩
      · rcases tableSet_mem h' with h'' | h''
        · exact Or.inl h''
        · exact Or.inr ⟨(k, v), List.mem_cons_self _ _, h''⟩
      · exact Or.inr ⟨y, List.mem_cons_of_mem _ hy, hxy⟩

theorem mergeInner_pairwise (i : Nat) (inner : FieldTable) :
    ∀ (fields : FieldTable),
      fields.Pairwise (fun a b => incomparable a.2.path b.2.path) →
      inner.Pairwise (fun a b => incomparable a.2.path b.2.path) →
      (∀ x ∈ fields, ∀ y ∈ inner, incomparable x.2.path (i :: y.2.path)) →
      (mergeInner i fields inner).Pairwise (fun a b => incomparable a.2.path b.2.path) := by
  induction inner with
  | nil => intro fields hp _ _; simpa [mergeInner] using hp
  | cons hd rest ih =>
    intro fields hp hin hcross
    obtain ⟨k, v⟩ := hd
    rw [List.pairwise_cons] at hin
    simp only [mergeInner]
    split
    · exact ih fields hp hin.2 (fun x hx y hy => hcross x hx y (List.mem_cons_of_mem _ hy))
    · apply ih _ _ hin.2
      · intro x hx y hy
        rcases tableSet_mem hx with h' | h'
        · exact hcross x h' y (List.mem_cons_of_mem _ hy)
        · rw [h']
          exact incomparable_cons_of_incomparable i (hin.1 y hy)
      · exact tableSet_pairwise hp (fun x hx => hcross x hx (k, v) (List.mem_cons_self _ _))

theorem incomparable_head_lt {j i : Nat} (p q : List Nat) (h : j < i) :
    incomparable (j :: p) (i :: q) :=
  incomparable_of_head_ne p q (Nat.ne_of_lt h)

theorem getAt_setAt_field_ne (v x : Value) {i idx : Nat} (h : i ≠ idx) :
    getAt (setAt v [i] x) [idx] = getAt v [idx] :=
  getAt_setAt_of_incomparable [i] [idx] v x (incomparable_of_head_ne [] [] h)

/-- The loop of `fieldsInStruct` keeps the paths of the table pairwise incomparable, files
every entry under the index of the field it comes from (a field that is not embedded under its
own wire name), and writes to embedded fields only. -/
theorem fieldsLoop_spec (env : Env) (inner : GoType → Value → Outcome (FieldTable × Value))
    (hin : ∀ t v T s e, inner t v = .done (T, s) e →
      T.Pairwise (fun a b => incomparable a.2.path b.2.path))
    (decls : List (FieldDecl × GoType)) :
    ∀ (i : Nat) (T0 : FieldTable) (v : Value) (T : FieldTable) (s : Value) (e : Option Error),
      fieldsLoop env inner decls i T0 v = .done (T, s) e →
      T0.Pairwise (fun a b => incomparable a.2.path b.2.path) →
      (∀ x ∈ T0, ∃ j p, x.2.path = j :: p ∧ j < i) →
      T.Pairwise (fun a b => incomparable a.2.path b.2.path) ∧
      (∀ x ∈ T, x ∈ T0 ∨ ∃ k f ft p, decls[k]? = some (f, ft) ∧ x.2.path = (i + k) :: p ∧
        (f.anonymous = false → x.1 = fieldInfo f)) ∧
      (∀ idx, (∀ k f ft, decls[k]? = some (f, ft) → i + k = idx → f.anonymous = false) →
        getAt s [idx] = getAt v [idx]) := by
  induction decls with
  | nil =>
    intro i T0 v T s e h hp _
    simp only [fieldsLoop, Outcome.done.injEq, Prod.mk.injEq] at h
    obtain ⟨⟨rfl, rfl⟩, _⟩ := h
    exact ⟨hp, fun x hx => Or.inl hx, fun _ _ => rfl⟩
  | cons hd rest ih =>
    intro i T0 v T s e h hp hheads
    obtain ⟨field, ft0⟩ := hd
    -- what the recursive call on the rest gives, for a table and a struct after this field
    have hstep : ∀ (T1 : FieldTable) (v1 : Value),
        fieldsLoop env inner rest (i + 1) T1 v1 = .done (T, s) e →
        T1.Pairwise (fun a b => incomparable a.2.path b.2.path) →
        (∀ x ∈ T1, x ∈ T0 ∨ ∃ p, x.2.path = i :: p ∧
          (field.anonymous = false → x.1 = fieldInfo field)) →
        (∀ idx, (field.anonymous = false ∨ i ≠ idx) → getAt v1 [idx] = getAt v [idx]) →
        T.Pairwise (fun a b => incomparable a.2.path b.2.path) ∧
        (∀ x ∈ T, x ∈ T0 ∨ ∃ k f ft p, ((field, ft0) :: rest)[k]? = some (f, ft) ∧
          x.2.path = (i + k) :: p ∧ (f.anonymous = false → x.1 = fieldInfo f)) ∧
        (∀ idx, (∀ k f ft, ((field, ft0) :: rest)[k]? = some (f, ft) → i + k = idx →
          f.anonymous = false) → getAt s [idx] = getAt v [idx]) := by
      intro T1 v1 h1 hp1 hmem1 hv1
      have hheads1 : ∀ x ∈ T1, ∃ j p, x.2.path = j :: p ∧ j < i + 1 := by
        intro x hx
        rcases hmem1 x hx with h' | ⟨p, hp', _⟩
        · obtain ⟨j, p, hjp, hj⟩ := hheads x h'
          exact ⟨j, p, hjp, by omega⟩
        · exact ⟨i, p, hp', by omega⟩
      obtain ⟨r1, r2, r3⟩ := ih (i + 1) T1 v1 T s e h1 hp1 hheads1
      refine ⟨r1, ?_, ?_⟩
      · intro x hx
        rcases r2 x hx with h' | ⟨k, f, ft, p, hk, hpath, hname⟩
        · rcases hmem1 x h' with h'' | ⟨p, hp', hn⟩
          · exact Or.inl h''
          · exact Or.inr ⟨0, field, ft0, p, by simp, by simpa using hp', hn⟩
        · exact Or.inr ⟨k + 1, f, ft, p, by simpa using hk, by rw [hpath]; congr 1; omega, hname⟩
      · intro idx hidx
        rw [r3 idx (fun k f ft hk hik => hidx (k + 1) f ft (by simpa using hk) (by omega))]
        apply hv1
        by_cases hii : i = idx
        · left; exact hidx 0 field ft0 (by simp) (by omega)
        · right; exact hii
    have hsame : ∀ x ∈ T0, x ∈ T0 ∨ ∃ p, x.2.path = i :: p ∧
        (field.anonymous = false → x.1 = fieldInfo field) := fun x hx => Or.inl hx
    have hunf : field.anonymous = true → ∀ fv : Value,
        (match inner (resolve env ft0) fv with
          | .done (innerFields, fv1) _ =>
            fieldsLoop env inner rest (i + 1) (mergeInner i T0 innerFields) (setAt v [i] fv1)
          | .panic m => .panic m
          | .outOfGas => .outOfGas) = .done (T, s) e →
        T.Pairwise (fun a b => incomparable a.2.path b.2.path) ∧
        (∀ x ∈ T, x ∈ T0 ∨ ∃ k f ft p, ((field, ft0) :: rest)[k]? = some (f, ft) ∧
          x.2.path = (i + k) :: p ∧ (f.anonymous = false → x.1 = fieldInfo f)) ∧
        (∀ idx, (∀ k f ft, ((field, ft0) :: rest)[k]? = some (f, ft) → i + k = idx →
          f.anonymous = false) → getAt s [idx] = getAt v [idx]) := by
      intro hanon fv h
      split at h
      · rename_i innerFields fv1 _ hinner
        apply hstep _ _ h
        · apply mergeInner_pairwise i innerFields T0 hp (hin _ _ _ _ _ hinner)
          intro x hx y _
          obtain ⟨j, p, hjp, hj⟩ := hheads x hx
          rw [hjp]
          exact incomparable_head_lt p _ hj
        · intro x hx
          rcases mergeInner_mem i innerFields T0 x hx with h' | ⟨y, _, hxy⟩
          · exact Or.inl h'
          · right
            refine ⟨y.2.path, by rw [hxy], fun hf => ?_⟩
            rw [hanon] at hf
            exact absurd hf (by simp)
        · intro idx hidx
          rcases hidx with hf | hne
          · rw [hanon] at hf
            exact absurd hf (by simp)
          · exact getAt_setAt_field_ne v fv1 hne
      · simp at h
      · simp at h
    have hdirect : ∀ fv : FieldRef, fv.path = [i] →
        fieldsLoop env inner rest (i + 1) (tableSet T0 (fieldInfo field) fv) v
          = .done (T, s) e →
        T.Pairwise (fun a b => incomparable a.2.path b.2.path) ∧
        (∀ x ∈ T, x ∈ T0 ∨ ∃ k f ft p, ((field, ft0) :: rest)[k]? = some (f, ft) ∧
          x.2.path = (i + k) :: p ∧ (f.anonymous = false → x.1 = fieldInfo f)) ∧
        (∀ idx, (∀ k f ft, ((field, ft0) :: rest)[k]? = some (f, ft) → i + k = idx →
          f.anonymous = false) → getAt s [idx] = getAt v [idx]) := by
      intro fv hfv h
      apply hstep _ _ h
      · apply tableSet_pairwise hp
        intro x hx
        obtain ⟨j, p, hjp, hj⟩ := hheads x hx
        rw [hjp, hfv]
        exact incomparable_head_lt p [] hj
      · intro x hx
        rcases tableSet_mem hx with h' | h'
        · exact Or.inl h'
        · right
          exact ⟨[], by rw [h', hfv], fun _ => by rw [h']⟩
      · intro _ _; rfl
    simp only [fieldsLoop] at h
    split_ifs at h with hskip hemb hunexp hptr
    all_goals first
      | exact hstep T0 v h hp hsame (fun _ _ => rfl)
      | exact hunf hemb.2 _ h
      | exact hdirect _ rfl h

/-- The paths of the table that `fieldsInStruct` returns are pairwise incomparable. -/
theorem fieldsInStruct_pairwise (env : Env) :
    ∀ (gas : Nat) (t : GoType) (v : Value) (T : FieldTable) (s : Value) (e : Option Error),
      fieldsInStruct env gas t v = .done (T, s) e →
      T.Pairwise (fun a b => incomparable a.2.path b.2.path) := by
  intro gas
  induction gas with
  | zero => intro t v T s e h; simp [fieldsInStruct] at h
  | succ gas ih =>
    intro t v T s e h
    simp only [fieldsInStruct] at h
    split_ifs at h with hptr hstruct
    · split at h
      · rename_i pointee
        cases hrec : fieldsInStruct env gas (resolve env t.elem) pointee with
        | done r e' =>
          rw [hrec] at h
          simp only [Outcome.mapResult, Outcome.done.injEq, Prod.mk.injEq] at h
          obtain ⟨⟨h1, _⟩, _⟩ := h
          rw [← h1]
          exact ih _ _ r.1 r.2 e' hrec
        | panic m => rw [hrec] at h; simp [Outcome.mapResult] at h
        | outOfGas => rw [hrec] at h; simp [Outcome.mapResult] at h
      · simp at h
    · exact (fieldsLoop_spec env (fieldsInStruct env gas) ih t.fields 0 [] v T s e h
        List.Pairwise.nil (fun x hx => absurd hx (List.not_mem_nil x))).1

/-- The table that `fieldsInStruct` returns for a struct: every entry lies under the index of
a declared field, a field that is not embedded is entered under its own wire name only, and the
fields that are not embedded are left as they were. -/
theorem fieldsInStruct_struct (env : Env) (gas : Nat) (t : GoType) (v : Value)
    (T : FieldTable) (s : Value) (e : Option Error) (hk : t.kind = .Struct)
    (h : fieldsInStruct env gas t v = .done (T, s) e) :
    (∀ x ∈ T, ∃ k f ft p, t.fields[k]? = some (f, ft) ∧ x.2.path = k :: p ∧
      (f.anonymous = false → x.1 = fieldInfo f)) ∧
    (∀ idx f ft, t.fields[idx]? = some (f, ft) → f.anonymous = false →
      getAt s [idx] = getAt v [idx]) := by
  cases gas with
  | zero => simp [fieldsInStruct] at h
  | succ gas =>
    simp only [fieldsInStruct, hk] at h
    rw [if_neg (by decide), if_pos trivial] at h
    obtain ⟨_, r2, r3⟩ := fieldsLoop_spec env (fieldsInStruct env gas)
      (fieldsInStruct_pairwise env gas) t.fields 0 [] v T s e h
      List.Pairwise.nil (fun x hx => absurd hx (List.not_mem_nil x))
    constructor
    · intro x hx
      rcases r2 x hx with h' | ⟨k, f, ft, p, hk', hpath, hname⟩
      · exact absurd h' (List.not_mem_nil x)
      · exact ⟨k, f, ft, p, hk', by simpa using hpath, hname⟩
    · intro idx f ft hidx hanon
      apply r3 idx
      intro k f' ft' hk' hki
      have : k = idx := by omega
      subst this
      rw [hidx] at hk'
      simp only [Option.some.injEq, Prod.mk.injEq] at hk'
      rw [← hk'.1]
      exact hanon

/-! ### The loop over the table of fields -/

theorem fieldDecode_congr (dec : AttributeValue → RV → Outcome Value) (s s1 : Value)
    (av : AttributeValue) (fv : FieldRef) (h : getAt s1 fv.path = getAt s fv.path) :
    fieldDecode dec s1 av fv = fieldDecode dec s av fv := by
  simp only [fieldDecode, h]

/-- The loop of `unmarshalItem` over a table with pairwise incomparable paths, when the decode
of every field that the item has returns: the loop returns; its error is nil exactly when the
variable `err` was nil and every such decode returned nil; every such field holds what its
decode left; and storage off the paths of these fields is untouched. Each decode is stated on
the struct `s` the loop starts from. -/
theorem itemFieldsLoop_spec (dec : AttributeValue → RV → Outcome Value) (item : Item)
    (L : FieldTable) :
    ∀ (s : Value) (err : Option Error),
      L.Pairwise (fun a b => incomparable a.2.path b.2.path) →
      (∀ x ∈ L, ∀ av, item.get x.1 = some av → ∃ v e, fieldDecode dec s av x.2 = .done v e) →
      ∃ s1 err1, itemFieldsLoop dec item L s err = .done s1 err1 ∧
        (err1 = none ↔ err = none ∧ ∀ x ∈ L, ∀ av, item.get x.1 = some av →
          (fieldDecode dec s av x.2).returnsNil = true) ∧
        (∀ x ∈ L, ∀ av v e, item.get x.1 = some av → fieldDecode dec s av x.2 = .done v e →
          validPath s x.2.path = true → getAt s1 x.2.path = v) ∧
        (∀ q, (∀ x ∈ L, item.get x.1 ≠ none → incomparable x.2.path q) →
          getAt s1 q = getAt s q ∧ validPath s1 q = validPath s q) := by
  induction L with
  | nil =>
    intro s err _ _
    exact ⟨s, err, rfl, by simp, by simp, fun _ _ => ⟨rfl, rfl⟩⟩
  | cons hd rest ih =>
    intro s err hp hret
    obtain ⟨name, fv⟩ := hd
    rw [List.pairwise_cons] at hp
    cases hget : item.get name with
    | none =>
      obtain ⟨s1, err1, h1, h2, h3, h4⟩ := ih s err hp.2
        (fun x hx av hav => hret x (List.mem_cons_of_mem _ hx) av hav)
      refine ⟨s1, err1, by simp only [itemFieldsLoop, hget]; exact h1, ?_, ?_, ?_⟩
      · rw [h2]
        constructor
        · rintro ⟨he, hall⟩
          refine ⟨he, fun x hx av hav => ?_⟩
          rcases List.mem_cons.mp hx with h' | h'
          · subst h'; simp [hget] at hav
          · exact hall x h' av hav
        · rintro ⟨he, hall⟩
          exact ⟨he, fun x hx av hav => hall x (List.mem_cons_of_mem _ hx) av hav⟩
      · intro x hx av v e hav hdec hvalid
        rcases List.mem_cons.mp hx with h' | h'
        · subst h'; simp [hget] at hav
        · exact h3 x h' av v e hav hdec hvalid
      · intro q hq
        exact h4 q (fun x hx hne => hq x (List.mem_cons_of_mem _ hx) hne)
    | some av =>
      obtain ⟨v, e, hdec⟩ := hret (name, fv) (List.mem_cons_self _ _) av hget
      have hframe : ∀ y ∈ rest, getAt (setAt s fv.path v) y.2.path = getAt s y.2.path ∧
          validPath (setAt s fv.path v) y.2.path = validPath s y.2.path :=
        fun y hy => ⟨getAt_setAt_of_incomparable _ _ _ _ (hp.1 y hy),
          validPath_setAt_of_incomparable _ _ _ _ (hp.1 y hy)⟩
      have hcongr : ∀ y ∈ rest, ∀ av', fieldDecode dec (setAt s fv.path v) av' y.2
          = fieldDecode dec s av' y.2 :=
        fun y hy av' => fieldDecode_congr dec _ _ av' y.2 (hframe y hy).1
      have hret1 : ∀ x ∈ rest, ∀ av', item.get x.1 = some av' →
          ∃ v' e', fieldDecode dec (setAt s fv.path v) av' x.2 = .done v' e' := by
        intro x hx av' hav'
        rw [hcongr x hx]
        exact hret x (List.mem_cons_of_mem _ hx) av' hav'
      obtain ⟨s1, err1, h1, h2, h3, h4⟩ := ih (setAt s fv.path v)
        (match e with | none => err | some ie => some ie) hp.2 hret1
      have hloop : itemFieldsLoop dec item ((name, fv) :: rest) s err = .done s1 err1 := by
        have hdec' : dec av ⟨fv.typ, getAt s fv.path, true, fv.flagStickyRO, fv.flagEmbedRO⟩
            = .done v e := hdec
        simp only [itemFieldsLoop, hget, hdec']
        cases e <;> exact h1
      refine ⟨s1, err1, hloop, ?_, ?_, ?_⟩
      · rw [h2]
        constructor
        · rintro ⟨he, hall⟩
          have he' : e = none ∧ err = none := by
            cases e with
            | none => exact ⟨rfl, he⟩
            | some ie => simp at he
          refine ⟨he'.2, fun x hx av' hav' => ?_⟩
          rcases List.mem_cons.mp hx with h' | h'
          · subst h'
            simp only [hget, Option.some.injEq] at hav'
            subst hav'
            rw [hdec, he'.1]; rfl
          · rw [← hcongr x h']; exact hall x h' av' hav'
        · rintro ⟨he, hall⟩
          have hnil := hall (name, fv) (List.mem_cons_self _ _) av hget
          rw [hdec] at hnil
          have he' : e = none := by
            cases e with
            | none => rfl
            | some ie => simp [Outcome.returnsNil] at hnil
          subst he'
          refine ⟨he, fun x hx av' hav' => ?_⟩
          rw [hcongr x hx]
          exact hall x (List.mem_cons_of_mem _ hx) av' hav'
      · intro x hx av' v' e' hav' hdec' hvalid
        rcases List.mem_cons.mp hx with h' | h'
        · subst h'
          simp only [hget, Option.some.injEq] at hav'
          subst hav'
          rw [hdec] at hdec'
          simp only [Outcome.done.injEq] at hdec'
          rw [← hdec'.1]
          rw [(h4 fv.path (fun y hy _ => incomparable_symm (hp.1 y hy))).1]
          exact getAt_setAt_self _ _ _ hvalid
        · apply h3 x h' av' v' e' hav'
          · rw [hcongr x h']; exact hdec'
          · rw [(hframe x h').2]; exact hvalid
      · intro q hq
        have hq0 : incomparable fv.path q :=
          hq (name, fv) (List.mem_cons_self _ _) (by simp [hget])
        obtain ⟨g1, g2⟩ := h4 q (fun x hx hne => hq x (List.mem_cons_of_mem _ hx) hne)
        exact ⟨g1.trans (getAt_setAt_of_incomparable _ _ _ _ hq0),
          g2.trans (validPath_setAt_of_incomparable _ _ _ _ hq0)⟩

/-- Storage off the paths of the fields that the item has is untouched by the loop of
`unmarshalItem`, whenever the loop returns. -/
theorem itemFieldsLoop_frame (dec : AttributeValue → RV → Outcome Value) (item : Item)
    (L : FieldTable) :
    ∀ (s : Value) (err : Option Error) (s1 : Value) (err1 : Option Error),
      itemFieldsLoop dec item L s err = .done s1 err1 →
      ∀ q, (∀ x ∈ L, item.get x.1 ≠ none → incomparable x.2.path q) →
        getAt s1 q = getAt s q := by
  induction L with
  | nil =>
    intro s err s1 err1 h q _
    simp only [itemFieldsLoop, Outcome.done.injEq] at h
    rw [h.1]
  | cons hd rest ih =>
    intro s err s1 err1 h q hq
    obtain ⟨name, fv⟩ := hd
    have hrest : ∀ x ∈ rest, item.get x.1 ≠ none → incomparable x.2.path q :=
      fun x hx hne => hq x (List.mem_cons_of_mem _ hx) hne
    simp only [itemFieldsLoop] at h
    split at h
    · rename_i av hget
      have hq0 : incomparable fv.path q :=
        hq (name, fv) (List.mem_cons_self _ _) (by simp [hget])
      split at h
      · rw [ih _ _ _ _ h q hrest]; exact getAt_setAt_of_incomparable _ _ _ _ hq0
      · rw [ih _ _ _ _ h q hrest]; exact getAt_setAt_of_incomparable _ _ _ _ hq0
      · simp at h
      · simp at h
    · exact ih _ _ _ _ h q hrest

theorem getD_zeroFields (decls : List (FieldDecl × GoType)) :
    ∀ (idx : Nat) (f : FieldDecl) (ft : GoType), decls[idx]? = some (f, ft) →
      (zeroFields decls).getD idx .invalid = zero ft := by
  induction decls with
  | nil => intro idx f ft h; simp at h
  | cons hd rest ih =>
    intro idx f ft h
    obtain ⟨f0, t0⟩ := hd
    cases idx with
    | zero =>
      simp only [List.getElem?_cons_zero, Option.some.injEq, Prod.mk.injEq] at h
      simp [zeroFields, h.2]
    | succ idx =>
      simp only [List.getElem?_cons_succ] at h
      simpa [zeroFields] using ih idx f ft h

theorem zeroMemberValue_eq (k : AVKind) : zeroMemberValue k = zero (memberValueType k) := by
  cases k <;> simp [zeroMemberValue, memberValueType, zero]

/-- The zero value of a type of kind struct is the struct of the zero values of its fields. -/
theorem zero_of_kind_struct : ∀ (t : GoType), t.kind = .Struct →
    zero t = .struct (zeroFields t.fields)
  | .named _ _ u, h => by
    have ih := zero_of_kind_struct u (by simpa [GoType.kind] using h)
    simpa [zero, GoType.fields] using ih
  | .struct _, _ => by simp [zero, GoType.fields]
  | .time, _ => by simp [zero, GoType.fields, zeroFields]
  | .avMember k, _ => by simp [zero, GoType.fields, zeroFields, zeroMemberValue_eq]
  | .awsEncoder, _ => by simp [zero, GoType.fields, zeroFields]
  | .int sz, h => by cases sz <;> simp [GoType.kind] at h
  | .uint sz, h => by cases sz <;> simp [GoType.kind] at h
  | .float sz, h => by cases sz <;> simp [GoType.kind] at h
  | .other k, h => by cases k <;> simp [GoType.kind, OtherKind.kind] at h
  | .bool, h => by simp [GoType.kind] at h
  | .string, h => by simp [GoType.kind] at h
  | .ptr _, h => by simp [GoType.kind] at h
  | .slice _, h => by simp [GoType.kind] at h
  | .array _ _, h => by simp [GoType.kind] at h
  | .map _ _, h => by simp [GoType.kind] at h
  | .iface _, h => by simp [GoType.kind] at h
  | .attributeValue, h => by simp [GoType.kind] at h
  | .ref _, h => by simp [GoType.kind] at h

theorem getAt_zero_field (t : GoType) (hk : t.kind = .Struct) (idx : Nat) (f : FieldDecl)
    (ft : GoType) (h : t.fields[idx]? = some (f, ft)) : getAt (zero t) [idx] = zero ft := by
  rw [zero_of_kind_struct t hk]
  simp only [getAt]
  exact getD_zeroFields t.fields idx f ft h

theorem kind_of_isItemMap (env : Env) {t : GoType} (h : t.isItemMap = true) :
    (resolve env t).kind = .Map := by
  cases t <;> simp_all [GoType.isItemMap, resolve, GoType.kind]

/-- For a pointer to a struct without an item hook, `unmarshalItem` is the struct case, which
does not look at what the pointer points to. -/
theorem unmarshalItem_struct_eq (env : Env) (gas : Nat) (item : Item) (t : GoType)
    (prior : Value) (hk : (resolve env t).kind = .Struct)
    (hhook : hookOf (fun m => m.unmarshalDynamoDBItem) true (resolve env t) = none) :
    unmarshalItem env (gas + 1) item (.ptr t) (.ptr (some prior)) =
      (itemStruct env (fieldsInStruct env gas) (unmarshalReflect env gas) item
        (resolve env t)).mapResult (fun v => Value.ptr (some v)) := by
  have hmap : t.isItemMap = false := by
    cases h : t.isItemMap with
    | false => rfl
    | true => rw [kind_of_isItemMap env h] at hk; exact absurd hk (by decide)
  simp [unmarshalItem, itemBody, GoType.kind, GoType.elem, hmap, GoType.isAwsEncoder, ifaceOf,
    RV.valueOf, hhook, hk]

/-! ### C2 -/

/-- C2: `UnmarshalItem` into a pointer to a struct (without an item hook) does not depend on
what the struct held before the call, and after it every directly declared field that is not
embedded and whose wire name is not a key of the item holds the zero value of its type. The
order in which `range` enumerates the table of fields is arbitrary. -/
theorem UnmarshalItem_resets_destination (env : Env)
    (hperm : ∀ T, (env.rangeFields T).Perm T)
    (gas : Nat) (item : Item) (t : GoType) (prior : Value)
    (hk : (resolve env t).kind = .Struct)
    (hhook : hookOf (fun m => m.unmarshalDynamoDBItem) true (resolve env t) = none) :
    (∀ other : Value, UnmarshalItem env gas item (.ptr t) (.ptr (some prior)) =
      UnmarshalItem env gas item (.ptr t) (.ptr (some other))) ∧
    (∀ out err, UnmarshalItem env gas item (.ptr t) (.ptr (some prior)) = .done out err →
      ∃ s, out = .ptr (some s) ∧
        ∀ idx f ft, (resolve env t).fields[idx]? = some (f, ft) → f.anonymous = false →
          item.get (fieldInfo f) = none → getAt s [idx] = zero ft) := by
  cases gas with
  | zero => simp [UnmarshalItem, unmarshalItem]
  | succ gas =>
    simp only [UnmarshalItem]
    refine ⟨fun other => ?_, ?_⟩
    · rw [unmarshalItem_struct_eq env gas item t prior hk hhook,
        unmarshalItem_struct_eq env gas item t other hk hhook]
    · intro out err h
      rw [unmarshalItem_struct_eq env gas item t prior hk hhook] at h
      simp only [itemStruct] at h
      cases hf : fieldsInStruct env gas (resolve env t) (zero (resolve env t)) with
      | panic m => rw [hf] at h; simp [Outcome.mapResult] at h
      | outOfGas => rw [hf] at h; simp [Outcome.mapResult] at h
      | done r ferr =>
        obtain ⟨T, s0⟩ := r
        rw [hf] at h
        simp only at h
        cases hl : itemFieldsLoop (unmarshalReflect env gas) item (env.rangeFields T) s0 none with
        | panic m => rw [hl] at h; simp [Outcome.mapResult] at h
        | outOfGas => rw [hl] at h; simp [Outcome.mapResult] at h
        | done s err1 =>
          rw [hl] at h
          simp only [Outcome.mapResult, Outcome.done.injEq] at h
          refine ⟨s, h.1.symm, ?_⟩
          intro idx f ft hidx hanon hget
          obtain ⟨horigin, hkeep⟩ := fieldsInStruct_struct env gas _ _ T s0 ferr hk hf
          rw [itemFieldsLoop_frame _ item _ s0 none s err1 hl [idx], hkeep idx f ft hidx hanon,
            getAt_zero_field _ hk idx f ft hidx]
          intro x hx hne
          obtain ⟨k, f', ft', p, hk', hpath, hname⟩ := horigin x ((hperm T).mem_iff.mp hx)
          rw [hpath]
          apply incomparable_of_head_ne
          intro hki
          subst hki
          rw [hidx] at hk'
          simp only [Option.some.injEq, Prod.mk.injEq] at hk'
          have hx1 : x.1 = fieldInfo f := by
            rw [hk'.1]; exact hname (by rw [← hk'.1]; exact hanon)
          rw [hx1] at hne
          exact hne hget

/-- An instance: the field `Name` held "ABC", the item has no key `Name`, and `range` runs backwards. -/
theorem UnmarshalItem_resets_destination_witness :
    UnmarshalItem Env.sampleReversed 2 [("Other", .BOOL true)]
        (.ptr (.struct [(⟨"Name", "", false, true⟩, .string), (⟨"Other", "", false, true⟩, .bool)]))
        (.ptr (some (.struct [.string "ABC", .bool false])))
      = .done (.ptr (some (.struct [.string "", .bool true]))) none ∧
    getAt (.struct [.string "", .bool true]) [0] = zero .string := by
  refine ⟨rfl, ?_⟩
  obtain ⟨s, hs, hz⟩ := (UnmarshalItem_resets_destination Env.sampleReversed
    (fun T => List.reverse_perm T) 2 [("Other", .BOOL true)]
    (.struct [(⟨"Name", "", false, true⟩, .string), (⟨"Other", "", false, true⟩, .bool)])
    (.struct [.string "ABC", .bool false]) rfl rfl).2 _ _ rfl
  simp only [Value.ptr.injEq, Option.some.injEq] at hs
  subst hs
  exact hz 0 ⟨"Name", "", false, true⟩ .string rfl rfl rfl

/-! ### C4 -/

/-- C4: the struct case of `UnmarshalItem` decodes every planned field, whatever the others
do. For a pointer to a struct (without an item hook) whose table of fields is `fields`, with
`s0` the zeroed struct as `fieldsInStruct` leaves it, if the decode of every planned field that
the item has returns, then the call returns; its error is nil exactly when every one of these
decodes returned nil (so a failing field gives a non-nil error); and every planned field holds
what its own decode left in it, the fields decoded next to a failing one included. The order
in which `range` enumerates the table is arbitrary. -/
theorem UnmarshalItem_struct_continues (env : Env)
    (hperm : ∀ T, (env.rangeFields T).Perm T)
    (gas : Nat) (item : Item) (t : GoType) (prior : Value)
    (hk : (resolve env t).kind = .Struct)
    (hhook : hookOf (fun m => m.unmarshalDynamoDBItem) true (resolve env t) = none)
    (fields : FieldTable) (s0 : Value) (ferr : Option Error)
    (hfields : fieldsInStruct env gas (resolve env t) (zero (resolve env t))
      = .done (fields, s0) ferr)
    (hret : ∀ x ∈ fields, ∀ av, item.get x.1 = some av →
      ∃ v e, fieldDecode (unmarshalReflect env gas) s0 av x.2 = .done v e) :
    ∃ s err, UnmarshalItem env (gas + 1) item (.ptr t) (.ptr (some prior))
        = .done (.ptr (some s)) err ∧
      (err = none ↔ ∀ x ∈ fields, ∀ av, item.get x.1 = some av →
        (fieldDecode (unmarshalReflect env gas) s0 av x.2).returnsNil = true) ∧
      (∀ a ∈ fields, ∀ av, item.get a.1 = some av →
        (fieldDecode (unmarshalReflect env gas) s0 av a.2).returnsError = true → err ≠ none) ∧
      (∀ b ∈ fields, ∀ av v e, item.get b.1 = some av →
        fieldDecode (unmarshalReflect env gas) s0 av b.2 = .done v e →
        validPath s0 b.2.path = true → getAt s b.2.path = v) := by
  have hmem : ∀ x, x ∈ env.rangeFields fields ↔ x ∈ fields := fun x => (hperm fields).mem_iff
  have hpw : (env.rangeFields fields).Pairwise (fun a b => incomparable a.2.path b.2.path) :=
    ((hperm fields).pairwise_iff (fun h => incomparable_symm h)).mpr
      (fieldsInStruct_pairwise env gas _ _ fields s0 ferr hfields)
  obtain ⟨s, err, hloop, herr, hval, _⟩ :=
    itemFieldsLoop_spec (unmarshalReflect env gas) item (env.rangeFields fields) s0 none hpw
      (fun x hx av hav => hret x ((hmem x).mp hx) av hav)
  have hiff : err = none ↔ ∀ x ∈ fields, ∀ av, item.get x.1 = some av →
      (fieldDecode (unmarshalReflect env gas) s0 av x.2).returnsNil = true := by
    rw [herr]
    constructor
    · rintro ⟨_, hall⟩ x hx av hav
      exact hall x ((hmem x).mpr hx) av hav
    · intro hall
      exact ⟨rfl, fun x hx av hav => hall x ((hmem x).mp hx) av hav⟩
  refine ⟨s, err, ?_, hiff, ?_, ?_⟩
  · simp only [UnmarshalItem]
    rw [unmarshalItem_struct_eq env gas item t prior hk hhook]
    simp only [itemStruct, hfields, hloop, Outcome.mapResult]
  · intro a ha av hav hfail hnone
    have hnil := hiff.mp hnone a ha av hav
    cases hd : fieldDecode (unmarshalReflect env gas) s0 av a.2 with
    | done v e =>
      rw [hd] at hfail hnil
      cases e <;> simp [Outcome.returnsNil, Outcome.returnsError] at hfail hnil
    | panic m => rw [hd] at hfail; simp [Outcome.returnsError] at hfail
    | outOfGas => rw [hd] at hfail; simp [Outcome.returnsError] at hfail
  · intro b hb av v e hav hdec hvalid
    exact hval b ((hmem b).mpr hb) av v e hav hdec hvalid

/-- An instance: the field `A` (an `int`) gets a String and fails, the field `B` is decoded
all the same, and `range` runs backwards. -/
theorem UnmarshalItem_struct_continues_witness :
    UnmarshalItem Env.sampleReversed 2 [("A", .S "x"), ("B", .S "ok")]
        (.ptr (.struct [(⟨"A", "", false, true⟩, .int .platform),
          (⟨"B", "", false, true⟩, .string)]))
        (.ptr (some (.struct [.int 7, .string "old"])))
      = .done (.ptr (some (.struct [.int 0, .string "ok"])))
          (some (.cannotUnmarshal "string" "int")) ∧
    (some (Error.cannotUnmarshal "string" "int") : Option Error) ≠ none ∧
    getAt (.struct [.int 0, .string "ok"]) [1] = .string "ok" := by
  obtain ⟨s, err, h1, _, h3, h4⟩ := UnmarshalItem_struct_continues Env.sampleReversed
    (fun T => List.reverse_perm T) 1 [("A", .S "x"), ("B", .S "ok")]
    (.struct [(⟨"A", "", false, true⟩, .int .platform), (⟨"B", "", false, true⟩, .string)])
    (.struct [.int 7, .string "old"]) rfl rfl
    [("A", ⟨[0], .int .platform, false, false⟩), ("B", ⟨[1], .string, false, false⟩)]
    (.struct [.int 0, .string ""]) none rfl
    (by
      intro x hx av hav
      simp only [List.mem_cons, List.mem_singleton, List.not_mem_nil, or_false] at hx
      rcases hx with rfl | rfl
      · simp only [Item.get] at hav
        simp only [if_true] at hav
        cases hav
        exact ⟨_, _, rfl⟩
      · simp only [Item.get] at hav
        rw [if_neg (by decide)] at hav
        cases hav
        exact ⟨_, _, rfl⟩)
  have hval : UnmarshalItem Env.sampleReversed 2 [("A", .S "x"), ("B", .S "ok")]
      (.ptr (.struct [(⟨"A", "", false, true⟩, .int .platform),
        (⟨"B", "", false, true⟩, .string)]))
      (.ptr (some (.struct [.int 7, .string "old"])))
      = .done (.ptr (some (.struct [.int 0, .string "ok"])))
          (some (.cannotUnmarshal "string" "int")) := rfl
  rw [hval] at h1
  simp only [Outcome.done.injEq, Value.ptr.injEq, Option.some.injEq] at h1
  obtain ⟨hs, he⟩ := h1
  subst hs
  subst he
  exact ⟨hval,
    h3 ("A", ⟨[0], .int .platform, false, false⟩) (by simp) (.S "x") rfl rfl,
    h4 ("B", ⟨[1], .string, false, false⟩) (by simp) (.S "ok") _ _ rfl rfl rfl⟩

/-! ### The branches of the loop of `fieldsInStruct` -/

theorem fieldsLoop_cons (env : Env) (inner : GoType → Value → Outcome (FieldTable × Value))
    (field : FieldDecl) (ft0 : GoType) (rest : List (FieldDecl × GoType)) (i : Nat)
    (T0 : FieldTable) (v : Value) :
    fieldsLoop env inner ((field, ft0) :: rest) i T0 v =
      match fieldRole env field ft0 with
      | .skipped => fieldsLoop env inner rest (i + 1) T0 v
      | .entered =>
        fieldsLoop env inner rest (i + 1)
          (tableSet T0 (fieldInfo field) (directRef env i field ft0)) v
      | .unfolded =>
        match inner (resolve env ft0) (embeddedValue env ft0 (getAt v [i])) with
        | .done (innerT, fv1) _ =>
          fieldsLoop env inner rest (i + 1) (mergeInner i T0 innerT) (setAt v [i] fv1)
        | .panic m => .panic m
        | .outOfGas => .outOfGas := by
  simp only [fieldsLoop, fieldRole, directRef, embeddedValue]
  split_ifs <;> rfl

/-! ### Lookups in the table of fields -/

theorem tableGet_tableSet (T : FieldTable) (k : String) (v : FieldRef) (X : String) :
    tableGet (tableSet T k v) X = if k = X then some v else tableGet T X := by
  induction T with
  | nil => simp [tableSet, tableGet]
  | cons hd rest ih =>
    obtain ⟨k', v'⟩ := hd
    simp only [tableSet]
    split_ifs with h1 h2 h2
    · subst h1; simp [tableGet, h2]
    · subst h1; simp [tableGet, h2]
    · subst h2
      simp [tableGet, ih, h1]
    · simp [tableGet, ih, h2]

theorem tableGet_mergeInner (i : Nat) (X : String) (inner : FieldTable) :
    ∀ T : FieldTable, tableGet (mergeInner i T inner) X =
      match tableGet T X with
      | some r => some r
      | none => (tableGet inner X).map (fun r => { r with path := i :: r.path }) := by
  induction inner with
  | nil => intro T; cases h : tableGet T X <;> simp [mergeInner, tableGet, h]
  | cons hd rest ih =>
    intro T
    obtain ⟨k, v⟩ := hd
    simp only [mergeInner]
    cases hk : tableGet T k with
    | some r0 =>
      simp only [ih]
      cases hX : tableGet T X with
      | some r => rfl
      | none =>
        have hne : k ≠ X := by
          intro h; subst h; rw [hk] at hX; cases hX
        simp [tableGet, hne]
    | none =>
      simp only [ih, tableGet_tableSet]
      by_cases hkX : k = X
      · subst hkX
        simp [tableGet, hk]
      · simp [tableGet, hkX]

theorem fieldsLoop_lookup_keep (env : Env)
    (inner : GoType → Value → Outcome (FieldTable × Value)) (X : String)
    (decls : List (FieldDecl × GoType)) :
    ∀ (i : Nat) (T0 : FieldTable) (v : Value) (T : FieldTable) (s : Value) (e : Option Error),
      fieldsLoop env inner decls i T0 v = .done (T, s) e →
      (∀ (k : Nat) (f : FieldDecl) (ft : GoType), decls[k]? = some (f, ft) →
        fieldRole env f ft = .entered → fieldInfo f ≠ X) →
      ∀ r, tableGet T0 X = some r → tableGet T X = some r := by
  induction decls with
  | nil =>
    intro i T0 v T s e h _ r hr
    simp only [fieldsLoop, Outcome.done.injEq, Prod.mk.injEq] at h
    rw [← h.1.1]; exact hr
  | cons hd rest ih =>
    intro i T0 v T s e h hno r hr
    obtain ⟨field, ft0⟩ := hd
    have hrest : ∀ (k : Nat) (f : FieldDecl) (ft : GoType), rest[k]? = some (f, ft) →
        fieldRole env f ft = .entered → fieldInfo f ≠ X :=
      fun k f ft hk => hno (k + 1) f ft (by simpa using hk)
    rw [fieldsLoop_cons] at h
    cases hrole : fieldRole env field ft0 with
    | skipped =>
      simp only [hrole] at h
      exact ih _ _ _ _ _ _ h hrest r hr
    | entered =>
      simp only [hrole] at h
      refine ih _ _ _ _ _ _ h hrest r ?_
      rw [tableGet_tableSet, if_neg (hno 0 field ft0 (by simp) hrole)]
      exact hr
    | unfolded =>
      simp only [hrole] at h
      split at h
      · refine ih _ _ _ _ _ _ h hrest r ?_
        rw [tableGet_mergeInner, hr]
      · simp at h
      · simp at h

/-- The wire name of a field that is entered into the table, and after which no field of that
wire name is entered, designates that field. -/
theorem fieldsLoop_lookup_direct (env : Env)
    (inner : GoType → Value → Outcome (FieldTable × Value)) (X : String)
    (decls : List (FieldDecl × GoType)) :
    ∀ (i : Nat) (T0 : FieldTable) (v : Value) (T : FieldTable) (s : Value) (e : Option Error)
      (k : Nat) (f : FieldDecl) (ft : GoType),
      fieldsLoop env inner decls i T0 v = .done (T, s) e →
      decls[k]? = some (f, ft) → fieldRole env f ft = .entered → fieldInfo f = X →
      (∀ (j : Nat) (f1 : FieldDecl) (ft1 : GoType), k < j → decls[j]? = some (f1, ft1) →
        fieldRole env f1 ft1 = .entered → fieldInfo f1 ≠ X) →
      tableGet T X = some (directRef env (i + k) f ft) := by
  induction decls with
  | nil => intro i T0 v T s e k f ft _ hk; simp at hk
  | cons hd rest ih =>
    intro i T0 v T s e k f ft h hk hrole hname hlast
    obtain ⟨field, ft0⟩ := hd
    rw [fieldsLoop_cons] at h
    cases k with
    | zero =>
      simp only [List.getElem?_cons_zero, Option.some.injEq, Prod.mk.injEq] at hk
      obtain ⟨rfl, rfl⟩ := hk
      simp only [hrole] at h
      refine fieldsLoop_lookup_keep env inner X rest _ _ _ _ _ _ h
        (fun j f1 ft1 hj => hlast (j + 1) f1 ft1 (by omega) (by simpa using hj)) _ ?_
      rw [tableGet_tableSet, if_pos hname]
      rfl
    | succ k =>
      simp only [List.getElem?_cons_succ] at hk
      have hlast1 : ∀ (j : Nat) (f1 : FieldDecl) (ft1 : GoType), k < j →
          rest[j]? = some (f1, ft1) → fieldRole env f1 ft1 = .entered → fieldInfo f1 ≠ X :=
        fun j f1 ft1 hj hdecl => hlast (j + 1) f1 ft1 (by omega) (by simpa using hdecl)
      have hidx : i + (k + 1) = i + 1 + k := by omega
      rw [hidx]
      cases hr0 : fieldRole env field ft0 with
      | skipped =>
        simp only [hr0] at h
        exact ih _ _ _ _ _ _ k f ft h hk hrole hname hlast1
      | entered =>
        simp only [hr0] at h
        exact ih _ _ _ _ _ _ k f ft h hk hrole hname hlast1
      | unfolded =>
        simp only [hr0] at h
        split at h
        · exact ih _ _ _ _ _ _ k f ft h hk hrole hname hlast1
        · simp at h
        · simp at h

/-- The wire name that no entered field has designates the field that the first unfolded
field promotes under it. -/
theorem fieldsLoop_lookup_embedded (env : Env)
    (inner : GoType → Value → Outcome (FieldTable × Value)) (X : String)
    (decls : List (FieldDecl × GoType)) :
    ∀ (i : Nat) (T0 : FieldTable) (v : Value) (T : FieldTable) (s : Value) (e : Option Error)
      (k : Nat) (f : FieldDecl) (ft : GoType) (innerT : FieldTable) (fv1 : Value)
      (e1 : Option Error) (r : FieldRef),
      fieldsLoop env inner decls i T0 v = .done (T, s) e →
      tableGet T0 X = none →
      decls[k]? = some (f, ft) → fieldRole env f ft = .unfolded →
      (∀ (j : Nat) (f1 : FieldDecl) (ft1 : GoType), decls[j]? = some (f1, ft1) →
        fieldRole env f1 ft1 = .entered → fieldInfo f1 ≠ X) →
      (∀ (j : Nat) (f1 : FieldDecl) (ft1 : GoType), j < k → decls[j]? = some (f1, ft1) →
        fieldRole env f1 ft1 ≠ .unfolded) →
      inner (resolve env ft) (embeddedValue env ft (getAt v [i + k])) = .done (innerT, fv1) e1 →
      tableGet innerT X = some r →
      tableGet T X = some { r with path := (i + k) :: r.path } := by
  induction decls with
  | nil => intro i T0 v T s e k f ft innerT fv1 e1 r _ _ hk; simp at hk
  | cons hd rest ih =>
    intro i T0 v T s e k f ft innerT fv1 e1 r h hT0 hk hrole hno hfirst hinner hr
    obtain ⟨field, ft0⟩ := hd
    have hrest : ∀ (j : Nat) (f1 : FieldDecl) (ft1 : GoType), rest[j]? = some (f1, ft1) →
        fieldRole env f1 ft1 = .entered → fieldInfo f1 ≠ X :=
      fun j f1 ft1 hj => hno (j + 1) f1 ft1 (by simpa using hj)
    rw [fieldsLoop_cons] at h
    cases k with
    | zero =>
      simp only [List.getElem?_cons_zero, Option.some.injEq, Prod.mk.injEq] at hk
      obtain ⟨rfl, rfl⟩ := hk
      simp only [hrole, Nat.add_zero] at h hinner
      rw [hinner] at h
      simp only at h
      refine fieldsLoop_lookup_keep env inner X rest _ _ _ _ _ _ h hrest _ ?_
      rw [tableGet_mergeInner, hT0, hr]
      rfl
    | succ k =>
      simp only [List.getElem?_cons_succ] at hk
      have hfirst1 : ∀ (j : Nat) (f1 : FieldDecl) (ft1 : GoType), j < k →
          rest[j]? = some (f1, ft1) → fieldRole env f1 ft1 ≠ .unfolded :=
        fun j f1 ft1 hj hdecl => hfirst (j + 1) f1 ft1 (by omega) (by simpa using hdecl)
      have hidx : i + (k + 1) = i + 1 + k := by omega
      rw [hidx] at hinner ⊢
      cases hr0 : fieldRole env field ft0 with
      | skipped =>
        simp only [hr0] at h
        exact ih _ _ _ _ _ _ k f ft innerT fv1 e1 r h hT0 hk hrole hrest hfirst1 hinner hr
      | entered =>
        simp only [hr0] at h
        refine ih _ _ _ _ _ _ k f ft innerT fv1 e1 r h ?_ hk hrole hrest hfirst1 hinner hr
        rw [tableGet_tableSet, if_neg (hno 0 field ft0 (by simp) hr0)]
        exact hT0
      | unfolded => exact absurd hr0 (hfirst 0 field ft0 (by omega) (by simp))

/-! ### The names of the table of fields are distinct -/

theorem tableSet_nodup {T : FieldTable} (k : String) (v : FieldRef)
    (hp : T.Pairwise (fun a b => a.1 ≠ b.1)) :
    (tableSet T k v).Pairwise (fun a b => a.1 ≠ b.1) := by
  induction T with
  | nil => simp [tableSet]
  | cons hd rest ih =>
    obtain ⟨k', v'⟩ := hd
    rw [List.pairwise_cons] at hp
    simp only [tableSet]
    split_ifs with hk
    · rw [List.pairwise_cons]
      exact ⟨hp.1, hp.2⟩
    · rw [List.pairwise_cons]
      refine ⟨fun y hy => ?_, ih hp.2⟩
      rcases tableSet_mem hy with h' | h'
      · exact hp.1 y h'
      · rw [h']; exact hk

theorem mergeInner_nodup (i : Nat) (inner : FieldTable) :
    ∀ T : FieldTable, T.Pairwise (fun a b => a.1 ≠ b.1) →
      (mergeInner i T inner).Pairwise (fun a b => a.1 ≠ b.1) := by
  induction inner with
  | nil => intro T hp; simpa [mergeInner] using hp
  | cons hd rest ih =>
    intro T hp
    obtain ⟨k, v⟩ := hd
    simp only [mergeInner]
    split
    · exact ih T hp
    · exact ih _ (tableSet_nodup _ _ hp)

theorem fieldsLoop_nodup (env : Env) (inner : GoType → Value → Outcome (FieldTable × Value))
    (decls : List (FieldDecl × GoType)) :
    ∀ (i : Nat) (T0 : FieldTable) (v : Value) (T : FieldTable) (s : Value) (e : Option Error),
      fieldsLoop env inner decls i T0 v = .done (T, s) e →
      T0.Pairwise (fun a b => a.1 ≠ b.1) → T.Pairwise (fun a b => a.1 ≠ b.1) := by
  induction decls with
  | nil =>
    intro i T0 v T s e h hp
    simp only [fieldsLoop, Outcome.done.injEq, Prod.mk.injEq] at h
    rw [← h.1.1]; exact hp
  | cons hd rest ih =>
    intro i T0 v T s e h hp
    obtain ⟨field, ft0⟩ := hd
    rw [fieldsLoop_cons] at h
    cases hrole : fieldRole env field ft0 with
    | skipped => simp only [hrole] at h; exact ih _ _ _ _ _ _ h hp
    | entered => simp only [hrole] at h; exact ih _ _ _ _ _ _ h (tableSet_nodup _ _ hp)
    | unfolded =>
      simp only [hrole] at h
      split at h
      · exact ih _ _ _ _ _ _ h (mergeInner_nodup _ _ _ hp)
      · simp at h
      · simp at h

theorem tableGet_of_mem {T : FieldTable} (hp : T.Pairwise (fun a b => a.1 ≠ b.1))
    {x : String × FieldRef} (hx : x ∈ T) : tableGet T x.1 = some x.2 := by
  induction T with
  | nil => simp at hx
  | cons hd rest ih =>
    obtain ⟨k, v⟩ := hd
    rw [List.pairwise_cons] at hp
    simp only [List.mem_cons] at hx
    rcases hx with rfl | hx
    · simp [tableGet]
    · have hne : k ≠ x.1 := hp.1 x hx
      simp only [tableGet, if_neg hne]
      exact ih hp.2 hx

theorem mem_of_tableGet {T : FieldTable} {X : String} {r : FieldRef}
    (h : tableGet T X = some r) : (X, r) ∈ T := by
  induction T with
  | nil => simp [tableGet] at h
  | cons hd rest ih =>
    obtain ⟨k, v⟩ := hd
    simp only [tableGet] at h
    split_ifs at h with hk
    · simp only [Option.some.injEq] at h
      subst hk; subst h
      exact List.mem_cons_self _ _
    · exact List.mem_cons_of_mem _ (ih h)

/-! ### Where the entries of the table come from -/

theorem getAt_struct_field (fs : List Value) (i : Nat) :
    getAt (.struct fs) [i] = fs.getD i .invalid := by
  simp [getAt]

theorem setAt_struct_field (fs : List Value) (i : Nat) (x : Value) :
    setAt (.struct fs) [i] x = .struct (fs.set i x) := by
  simp [setAt]

/-- Every entry of the table comes from a declared field: an entered field gives its own entry,
an unfolded field the entries of the table of the struct it embeds, filed under its index. -/
theorem fieldsLoop_origin (env : Env) (inner : GoType → Value → Outcome (FieldTable × Value))
    (decls : List (FieldDecl × GoType)) :
    ∀ (i : Nat) (T0 : FieldTable) (fs : List Value) (T : FieldTable) (s : Value)
      (e : Option Error),
      fieldsLoop env inner decls i T0 (.struct fs) = .done (T, s) e →
      ∀ x ∈ T, x ∈ T0 ∨ ∃ (k : Nat) (f : FieldDecl) (ft : GoType), decls[k]? = some (f, ft) ∧
        ((fieldRole env f ft = .entered ∧ x = (fieldInfo f, directRef env (i + k) f ft)) ∨
         (fieldRole env f ft = .unfolded ∧ ∃ innerT fv1 e1,
            inner (resolve env ft) (embeddedValue env ft (fs.getD (i + k) .invalid))
              = .done (innerT, fv1) e1 ∧
            ∃ y ∈ innerT, x = (y.1, { y.2 with path := (i + k) :: y.2.path }))) := by
  induction decls with
  | nil =>
    intro i T0 fs T s e h x hx
    simp only [fieldsLoop, Outcome.done.injEq, Prod.mk.injEq] at h
    rw [← h.1.1] at hx; exact Or.inl hx
  | cons hd rest ih =>
    intro i T0 fs T s e h x hx
    obtain ⟨field, ft0⟩ := hd
    rw [fieldsLoop_cons] at h
    have hshift : ∀ (fs1 : List Value),
        (∀ k, fs1.getD (i + 1 + k) .invalid = fs.getD (i + 1 + k) .invalid) →
        (∃ (k : Nat) (f : FieldDecl) (ft : GoType), rest[k]? = some (f, ft) ∧
          ((fieldRole env f ft = .entered ∧ x = (fieldInfo f, directRef env (i + 1 + k) f ft)) ∨
           (fieldRole env f ft = .unfolded ∧ ∃ innerT fv1 e1,
              inner (resolve env ft) (embeddedValue env ft (fs1.getD (i + 1 + k) .invalid))
                = .done (innerT, fv1) e1 ∧
              ∃ y ∈ innerT, x = (y.1, { y.2 with path := (i + 1 + k) :: y.2.path })))) →
        ∃ (k : Nat) (f : FieldDecl) (ft : GoType), ((field, ft0) :: rest)[k]? = some (f, ft) ∧
          ((fieldRole env f ft = .entered ∧ x = (fieldInfo f, directRef env (i + k) f ft)) ∨
           (fieldRole env f ft = .unfolded ∧ ∃ innerT fv1 e1,
              inner (resolve env ft) (embeddedValue env ft (fs.getD (i + k) .invalid))
                = .done (innerT, fv1) e1 ∧
              ∃ y ∈ innerT, x = (y.1, { y.2 with path := (i + k) :: y.2.path }))) := by
      rintro fs1 hfs1 ⟨k, f, ft, hk, hcase⟩
      refine ⟨k + 1, f, ft, by simpa using hk, ?_⟩
      have hidx : i + (k + 1) = i + 1 + k := by omega
      rw [hidx, ← hfs1 k]
      exact hcase
    cases hrole : fieldRole env field ft0 with
    | skipped =>
      simp only [hrole] at h
      rcases ih _ _ _ _ _ _ h x hx with h' | h'
      · exact Or.inl h'
      · exact Or.inr (hshift fs (fun _ => rfl) h')
    | entered =>
      simp only [hrole] at h
      rcases ih _ _ _ _ _ _ h x hx with h' | h'
      · rcases tableSet_mem h' with h'' | h''
        · exact Or.inl h''
        · exact Or.inr ⟨0, field, ft0, by simp, Or.inl ⟨hrole, by simpa using h''⟩⟩
      · exact Or.inr (hshift fs (fun _ => rfl) h')
    | unfolded =>
      simp only [hrole, getAt_struct_field] at h
      split at h
      · rename_i innerT fv1 e1 hinner
        rw [setAt_struct_field] at h
        rcases ih _ _ _ _ _ _ h x hx with h' | h'
        · rcases mergeInner_mem i innerT T0 x h' with h'' | ⟨y, hy, hxy⟩
          · exact Or.inl h''
          · exact Or.inr ⟨0, field, ft0, by simp, Or.inr ⟨hrole, innerT, fv1, e1,
              by simpa using hinner, y, hy, by simpa using hxy⟩⟩
        · exact Or.inr (hshift _ (fun k => getD_set_ne fs fv1 (by omega)) h')
      · simp at h
      · simp at h

/-- The struct that the loop of `fieldsInStruct` leaves: the fields it has passed are as they
were, a field that is not unfolded is as it was, and an unfolded field holds what the call of
`fieldsInStruct` on it left. -/
theorem fieldsLoop_values (env : Env) (inner : GoType → Value → Outcome (FieldTable × Value))
    (decls : List (FieldDecl × GoType)) :
    ∀ (i : Nat) (T0 : FieldTable) (fs : List Value) (T : FieldTable) (s : Value)
      (e : Option Error),
      fieldsLoop env inner decls i T0 (.struct fs) = .done (T, s) e →
      ∃ fs1, s = .struct fs1 ∧ fs1.length = fs.length ∧
        (∀ idx, idx < i → fs1.getD idx .invalid = fs.getD idx .invalid) ∧
        (∀ (k : Nat) (f : FieldDecl) (ft : GoType), decls[k]? = some (f, ft) →
          (fieldRole env f ft ≠ .unfolded →
            fs1.getD (i + k) .invalid = fs.getD (i + k) .invalid) ∧
          (fieldRole env f ft = .unfolded → i + k < fs.length → ∃ innerT e1,
            inner (resolve env ft) (embeddedValue env ft (fs.getD (i + k) .invalid))
              = .done (innerT, fs1.getD (i + k) .invalid) e1)) := by
  induction decls with
  | nil =>
    intro i T0 fs T s e h
    simp only [fieldsLoop, Outcome.done.injEq, Prod.mk.injEq] at h
    exact ⟨fs, h.1.2.symm, rfl, fun _ _ => rfl, fun k f ft hk => by simp at hk⟩
  | cons hd rest ih =>
    intro i T0 fs T s e h
    obtain ⟨field, ft0⟩ := hd
    rw [fieldsLoop_cons] at h
    cases hrole : fieldRole env field ft0 with
    | skipped =>
      simp only [hrole] at h
      obtain ⟨fs1, hs, hlen, hkept, hfield⟩ := ih _ _ _ _ _ _ h
      refine ⟨fs1, hs, hlen, fun idx hidx => hkept idx (by omega), ?_⟩
      intro k f ft hk
      cases k with
      | zero =>
        simp only [List.getElem?_cons_zero, Option.some.injEq, Prod.mk.injEq] at hk
        obtain ⟨rfl, rfl⟩ := hk
        exact ⟨fun _ => hkept i (by omega), fun hu => by rw [hrole] at hu; cases hu⟩
      | succ k =>
        simp only [List.getElem?_cons_succ] at hk
        have hidx : i + (k + 1) = i + 1 + k := by omega
        rw [hidx]
        exact hfield k f ft hk
    | entered =>
      simp only [hrole] at h
      obtain ⟨fs1, hs, hlen, hkept, hfield⟩ := ih _ _ _ _ _ _ h
      refine ⟨fs1, hs, hlen, fun idx hidx => hkept idx (by omega), ?_⟩
      intro k f ft hk
      cases k with
      | zero =>
        simp only [List.getElem?_cons_zero, Option.some.injEq, Prod.mk.injEq] at hk
        obtain ⟨rfl, rfl⟩ := hk
        exact ⟨fun _ => hkept i (by omega), fun hu => by rw [hrole] at hu; cases hu⟩
      | succ k =>
        simp only [List.getElem?_cons_succ] at hk
        have hidx : i + (k + 1) = i + 1 + k := by omega
        rw [hidx]
        exact hfield k f ft hk
    | unfolded =>
      simp only [hrole, getAt_struct_field] at h
      split at h
      · rename_i innerT fv1 e1 hinner
        rw [setAt_struct_field] at h
        obtain ⟨fs1, hs, hlen, hkept, hfield⟩ := ih _ _ _ _ _ _ h
        refine ⟨fs1, hs, by rw [hlen, List.length_set], ?_, ?_⟩
        · intro idx hidx
          rw [hkept idx (by omega)]
          exact getD_set_ne fs fv1 (by omega)
        · intro k f ft hk
          cases k with
          | zero =>
            simp only [List.getElem?_cons_zero, Option.some.injEq, Prod.mk.injEq] at hk
            obtain ⟨rfl, rfl⟩ := hk
            refine ⟨fun hu => absurd hrole hu, fun _ hlt => ⟨innerT, e1, ?_⟩⟩
            simp only [Nat.add_zero] at hlt ⊢
            rw [hkept i (by omega), getD_set_self fs i fv1 hlt]
            exact hinner
          | succ k =>
            simp only [List.getElem?_cons_succ] at hk
            have hidx : i + (k + 1) = i + 1 + k := by omega
            have hne : (fs.set i fv1).getD (i + 1 + k) .invalid = fs.getD (i + 1 + k) .invalid :=
              getD_set_ne fs fv1 (by omega)
            rw [hidx]
            have := hfield k f ft hk
            rw [hne, List.length_set] at this
            exact this
      · simp at h
      · simp at h

/-! ### The table of a struct type -/

theorem fieldRole_unfolded {env : Env} {f : FieldDecl} {ft : GoType}
    (h : fieldRole env f ft = .unfolded) :
    fieldInfo f ≠ "-" ∧ f.anonymous = true ∧
      ((resolve env ft).kind = .Struct ∨
        ((resolve env ft).kind = .Ptr ∧ (resolve env (resolve env ft).elem).kind = .Struct ∧
          f.exported = true)) := by
  simp only [fieldRole] at h
  split_ifs at h with h1 h2 h3
  refine ⟨h1, h2.2, ?_⟩
  rcases h2.1 with hs | hp
  · exact Or.inl hs
  · refine Or.inr ⟨hp.1, hp.2, ?_⟩
    by_contra hne
    exact h3 ⟨hp.1, by simpa using hne⟩

theorem fieldRole_entered_of {env : Env} {f : FieldDecl} {ft : GoType}
    (hname : fieldInfo f ≠ "-") (hanon : f.anonymous = false) :
    fieldRole env f ft = .entered := by
  simp [fieldRole, hname, hanon]

theorem fieldRole_skipped_of {env : Env} {f : FieldDecl} {ft : GoType}
    (hname : fieldInfo f = "-") : fieldRole env f ft = .skipped := by
  simp [fieldRole, hname]

theorem fieldRole_entered {env : Env} {f : FieldDecl} {ft : GoType}
    (h : fieldRole env f ft = .entered) : fieldInfo f ≠ "-" := by
  simp only [fieldRole] at h
  split_ifs at h with h1 h2
  exact h1

theorem embeddedStruct_kind {env : Env} {f : FieldDecl} {ft : GoType}
    (h : fieldRole env f ft = .unfolded) : (embeddedStruct env ft).kind = .Struct := by
  obtain ⟨_, _, hk⟩ := fieldRole_unfolded h
  rcases hk with hs | ⟨hp, he, _⟩
  · simp [embeddedStruct, hs]
  · simp [embeddedStruct, hp, he]

theorem fieldsInStruct_struct_loop (env : Env) (gas : Nat) (t : GoType) (v : Value)
    (T : FieldTable) (s : Value) (e : Option Error) (hk : t.kind = .Struct)
    (h : fieldsInStruct env gas t v = .done (T, s) e) :
    ∃ g, gas = g + 1 ∧
      fieldsLoop env (fieldsInStruct env g) t.fields 0 [] v = .done (T, s) e := by
  cases gas with
  | zero => simp [fieldsInStruct] at h
  | succ g =>
    simp only [fieldsInStruct, hk] at h
    rw [if_neg (by decide), if_pos trivial] at h
    exact ⟨g, rfl, h⟩

theorem fieldsInStruct_ptr (env : Env) (gas : Nat) (t : GoType) (pointee : Value)
    (T : FieldTable) (s : Value) (e : Option Error) (hk : t.kind = .Ptr)
    (h : fieldsInStruct env gas t (.ptr (some pointee)) = .done (T, s) e) :
    ∃ g sE, gas = g + 1 ∧ fieldsInStruct env g (resolve env t.elem) pointee = .done (T, sE) e ∧
      s = .ptr (some sE) := by
  cases gas with
  | zero => simp [fieldsInStruct] at h
  | succ g =>
    simp only [fieldsInStruct, hk, if_true] at h
    cases hrec : fieldsInStruct env g (resolve env t.elem) pointee with
    | done r e' =>
      rw [hrec] at h
      simp only [Outcome.mapResult, Outcome.done.injEq, Prod.mk.injEq] at h
      obtain ⟨⟨h1, h2⟩, h3⟩ := h
      obtain ⟨T', sE⟩ := r
      simp only at h1 h2
      subst h1; subst h3
      exact ⟨g, sE, rfl, hrec, h2.symm⟩
    | panic m => rw [hrec] at h; simp [Outcome.mapResult] at h
    | outOfGas => rw [hrec] at h; simp [Outcome.mapResult] at h

/-- The names of the table that `fieldsInStruct` returns are distinct. -/
theorem fieldsInStruct_nodup (env : Env) :
    ∀ (gas : Nat) (t : GoType) (v : Value) (T : FieldTable) (s : Value) (e : Option Error),
      fieldsInStruct env gas t v = .done (T, s) e → T.Pairwise (fun a b => a.1 ≠ b.1) := by
  intro gas
  induction gas with
  | zero => intro t v T s e h; simp [fieldsInStruct] at h
  | succ gas ih =>
    intro t v T s e h
    simp only [fieldsInStruct] at h
    split_ifs at h with hptr hstruct
    · split at h
      · rename_i pointee
        cases hrec : fieldsInStruct env gas (resolve env t.elem) pointee with
        | done r e' =>
          rw [hrec] at h
          simp only [Outcome.mapResult, Outcome.done.injEq, Prod.mk.injEq] at h
          obtain ⟨⟨h1, _⟩, _⟩ := h
          rw [← h1]
          exact ih _ _ r.1 r.2 e' hrec
        | panic m => rw [hrec] at h; simp [Outcome.mapResult] at h
        | outOfGas => rw [hrec] at h; simp [Outcome.mapResult] at h
      · simp at h
    · exact fieldsLoop_nodup env _ t.fields 0 [] v T s e h List.Pairwise.nil

/-- What `fieldsInStruct` leaves of the zero value of a struct type: a struct with the same
fields, in which every field that is not unfolded is still zero. -/
theorem fieldsInStruct_zero_kept (env : Env) (gas : Nat) (t : GoType)
    (T : FieldTable) (s : Value) (e : Option Error) (hk : t.kind = .Struct)
    (h : fieldsInStruct env gas t (zero t) = .done (T, s) e) :
    ∃ fs1, s = .struct fs1 ∧ fs1.length = t.fields.length ∧
      ∀ (k : Nat) (f : FieldDecl) (ft : GoType), t.fields[k]? = some (f, ft) →
        fieldRole env f ft ≠ .unfolded → getAt s [k] = zero ft ∧ validPath s [k] = true := by
  obtain ⟨g, _, hloop⟩ := fieldsInStruct_struct_loop env gas t _ T s e hk h
  rw [zero_of_kind_struct t hk] at hloop
  obtain ⟨fs1, hs, hlen, _, hfield⟩ := fieldsLoop_values env _ _ _ _ _ _ _ _ hloop
  have hzlen : (zeroFields t.fields).length = t.fields.length := by
    generalize t.fields = decls
    induction decls with
    | nil => simp [zeroFields]
    | cons hd rest ih => obtain ⟨f0, t0⟩ := hd; simp [zeroFields, ih]
  refine ⟨fs1, hs, by rw [hlen, hzlen], ?_⟩
  intro k f ft hdecl hrole
  have h1 := (hfield k f ft hdecl).1 hrole
  simp only [Nat.zero_add] at h1
  have hlt : k < t.fields.length := by
    by_contra hge
    rw [List.getElem?_eq_none (by omega)] at hdecl
    cases hdecl
  subst hs
  refine ⟨?_, ?_⟩
  · rw [getAt_struct_field, h1]
    exact getD_zeroFields t.fields k f ft hdecl
  · simp [validPath, hlen, hzlen, hlt]

theorem length_zeroFields (decls : List (FieldDecl × GoType)) :
    (zeroFields decls).length = decls.length := by
  induction decls with
  | nil => simp [zeroFields]
  | cons hd rest ih => obtain ⟨f0, t0⟩ := hd; simp [zeroFields, ih]

theorem lt_length_of_getElem_some {α : Type} {l : List α} {k : Nat} {a : α}
    (h : l[k]? = some a) : k < l.length := by
  by_contra hge
  rw [List.getElem?_eq_none (by omega)] at h
  cases h

/-- The wire name of an entered field, after which no field of that name is entered,
designates that field in the table of the struct. -/
theorem fieldsInStruct_lookup_direct (env : Env) (gas : Nat) (t : GoType) (v : Value)
    (T : FieldTable) (s : Value) (e : Option Error) (hk : t.kind = .Struct)
    (h : fieldsInStruct env gas t v = .done (T, s) e)
    (k : Nat) (f : FieldDecl) (ft : GoType) (hdecl : t.fields[k]? = some (f, ft))
    (hrole : fieldRole env f ft = .entered)
    (hlast : ∀ (j : Nat) (f1 : FieldDecl) (ft1 : GoType), k < j →
      t.fields[j]? = some (f1, ft1) → fieldRole env f1 ft1 = .entered →
      fieldInfo f1 ≠ fieldInfo f) :
    tableGet T (fieldInfo f) = some (directRef env k f ft) := by
  obtain ⟨g, _, hloop⟩ := fieldsInStruct_struct_loop env gas t v T s e hk h
  have := fieldsLoop_lookup_direct env _ (fieldInfo f) t.fields 0 [] v T s e k f ft hloop hdecl
    hrole rfl hlast
  simpa using this

/-- The call of `fieldsInStruct` on an unfolded field of a zero struct is a call on the zero
value of the struct that the field embeds. -/
theorem embedded_call (env : Env) (g : Nat) (f : FieldDecl) (ft : GoType) (innerT : FieldTable)
    (fv1 : Value) (e1 : Option Error) (hrole : fieldRole env f ft = .unfolded)
    (hval : (resolve env ft).kind ≠ .Ptr → resolve env ft = ft)
    (h : fieldsInStruct env g (resolve env ft) (embeddedValue env ft (zero ft))
      = .done (innerT, fv1) e1) :
    ∃ g1 sE, fieldsInStruct env g1 (embeddedStruct env ft) (zero (embeddedStruct env ft))
        = .done (innerT, sE) e1 ∧
      (∀ j q, getAt fv1 (j :: q) = getAt sE (j :: q)) ∧
      (∀ j q, validPath fv1 (j :: q) = validPath sE (j :: q)) := by
  have hE := embeddedStruct_kind hrole
  by_cases hp : (resolve env ft).kind = .Ptr
  · simp only [embeddedValue, hp, if_true] at h
    simp only [embeddedStruct, hp, if_true] at hE ⊢
    obtain ⟨g1, sE, _, hcall, hfv⟩ := fieldsInStruct_ptr env g _ _ innerT fv1 e1 hp h
    obtain ⟨fs1, hs, _, _⟩ := fieldsInStruct_zero_kept env g1 _ innerT sE e1 hE hcall
    refine ⟨g1, sE, hcall, ?_, ?_⟩
    · intro j q; rw [hfv, hs]; simp [getAt]
    · intro j q; rw [hfv, hs]; simp [validPath]
  · have heq := hval hp
    simp only [embeddedValue, hp, if_false] at h
    simp only [embeddedStruct, hp, if_false] at hE ⊢
    rw [heq] at h ⊢
    exact ⟨g, fv1, h, fun _ _ => rfl, fun _ _ => rfl⟩

/-- Every entry of the table of a struct comes from a declared field that is entered or
unfolded. -/
theorem fieldsInStruct_origin (env : Env) (gas : Nat) (t : GoType)
    (T : FieldTable) (s : Value) (e : Option Error) (hk : t.kind = .Struct)
    (h : fieldsInStruct env gas t (zero t) = .done (T, s) e) :
    ∀ x ∈ T, ∃ (k : Nat) (f : FieldDecl) (ft : GoType), t.fields[k]? = some (f, ft) ∧
      ((fieldRole env f ft = .entered ∧ x = (fieldInfo f, directRef env k f ft)) ∨
       (fieldRole env f ft = .unfolded ∧ ∃ g innerT fv1 e1,
          fieldsInStruct env g (resolve env ft) (embeddedValue env ft (zero ft))
            = .done (innerT, fv1) e1 ∧
          ∃ y ∈ innerT, x = (y.1, { y.2 with path := k :: y.2.path }))) := by
  obtain ⟨g, _, hloop⟩ := fieldsInStruct_struct_loop env gas t _ T s e hk h
  rw [zero_of_kind_struct t hk] at hloop
  intro x hx
  rcases fieldsLoop_origin env _ _ _ _ _ _ _ _ hloop x hx with h' | ⟨k, f, ft, hdecl, hcase⟩
  · exact absurd h' (List.not_mem_nil x)
  · refine ⟨k, f, ft, hdecl, ?_⟩
    simp only [Nat.zero_add] at hcase
    rw [getD_zeroFields t.fields k f ft hdecl] at hcase
    rcases hcase with hc | ⟨hr, innerT, fv1, e1, hcall, hy⟩
    · exact Or.inl hc
    · exact Or.inr ⟨hr, g, innerT, fv1, e1, hcall, hy⟩

/-- An unfolded field of a struct: the table and the value of the struct it embeds, and how
they sit in the table and the value of the struct. -/
theorem fieldsInStruct_embedded (env : Env) (gas : Nat) (t : GoType)
    (T : FieldTable) (s : Value) (e : Option Error) (hk : t.kind = .Struct)
    (h : fieldsInStruct env gas t (zero t) = .done (T, s) e)
    (k : Nat) (f : FieldDecl) (ft : GoType) (hdecl : t.fields[k]? = some (f, ft))
    (hrole : fieldRole env f ft = .unfolded)
    (hval : (resolve env ft).kind ≠ .Ptr → resolve env ft = ft) :
    ∃ g1 innerT sE eE,
      fieldsInStruct env g1 (embeddedStruct env ft) (zero (embeddedStruct env ft))
        = .done (innerT, sE) eE ∧
      (∀ j q, getAt s (k :: j :: q) = getAt sE (j :: q)) ∧
      (∀ j q, validPath s (k :: j :: q) = validPath sE (j :: q)) ∧
      (∀ x ∈ T, ∀ p, x.2.path = k :: p →
        ∃ y ∈ innerT, x = (y.1, { y.2 with path := k :: y.2.path })) ∧
      (∀ X r, tableGet innerT X = some r →
        (∀ (j : Nat) (f1 : FieldDecl) (ft1 : GoType), t.fields[j]? = some (f1, ft1) →
          fieldRole env f1 ft1 = .entered → fieldInfo f1 ≠ X) →
        (∀ (j : Nat) (f1 : FieldDecl) (ft1 : GoType), j < k → t.fields[j]? = some (f1, ft1) →
          fieldRole env f1 ft1 ≠ .unfolded) →
        tableGet T X = some { r with path := k :: r.path }) := by
  obtain ⟨g, _, hloop⟩ := fieldsInStruct_struct_loop env gas t _ T s e hk h
  rw [zero_of_kind_struct t hk] at hloop
  have hlt : k < t.fields.length := lt_length_of_getElem_some hdecl
  obtain ⟨fs1, hs, hlen, _, hfield⟩ := fieldsLoop_values env _ _ _ _ _ _ _ _ hloop
  obtain ⟨innerT, e1, hcall⟩ := (hfield k f ft hdecl).2 hrole
    (by rw [length_zeroFields]; omega)
  simp only [Nat.zero_add] at hcall
  rw [getD_zeroFields t.fields k f ft hdecl] at hcall
  obtain ⟨g1, sE, hE, hget, hvalid⟩ := embedded_call env g f ft innerT _ e1 hrole hval hcall
  have hlen1 : k < fs1.length := by rw [hlen, length_zeroFields]; exact hlt
  refine ⟨g1, innerT, sE, e1, hE, ?_, ?_, ?_, ?_⟩
  · intro j q
    rw [hs]
    simp only [getAt]
    exact hget j q
  · intro j q
    rw [hs]
    simp only [validPath, hlen1, decide_True, Bool.true_and]
    exact hvalid j q
  · intro x hx p hpath
    rcases fieldsLoop_origin env _ _ _ _ _ _ _ _ hloop x hx with h' | ⟨k', f', ft', hd', hcase⟩
    · exact absurd h' (List.not_mem_nil x)
    · simp only [Nat.zero_add] at hcase
      rcases hcase with ⟨hr, hx'⟩ | ⟨hr, innerT', fv1', e1', hcall', y, hy, hxy⟩
      · rw [hx'] at hpath
        simp only [directRef, List.cons.injEq] at hpath
        obtain ⟨hkk, _⟩ := hpath
        subst hkk
        rw [hdecl] at hd'
        simp only [Option.some.injEq, Prod.mk.injEq] at hd'
        rw [← hd'.1, ← hd'.2, hrole] at hr
        cases hr
      · rw [hxy] at hpath
        simp only [List.cons.injEq] at hpath
        obtain ⟨hkk, _⟩ := hpath
        subst hkk
        rw [hdecl] at hd'
        simp only [Option.some.injEq, Prod.mk.injEq] at hd'
        obtain ⟨hf, hft⟩ := hd'
        subst hf; subst hft
        rw [getD_zeroFields t.fields k' f ft hdecl, hcall] at hcall'
        simp only [Outcome.done.injEq, Prod.mk.injEq] at hcall'
        obtain ⟨⟨hT', _⟩, _⟩ := hcall'
        subst hT'
        exact ⟨y, hy, hxy⟩
  · intro X r hr hno hfirst
    have := fieldsLoop_lookup_embedded env _ X t.fields 0 [] _ T s e k f ft innerT _ e1 r hloop
      rfl hdecl hrole hno hfirst
      (by
        simp only [Nat.zero_add, getAt_struct_field]
        rw [getD_zeroFields t.fields k f ft hdecl]
        exact hcall) hr
    simpa using this

/-! ### The struct case of `unmarshalItem`, on the table of the struct -/

/-- The struct case of `UnmarshalItem` when the table is built and the decode of every planned
field that the item has returns: the call returns, every planned field holds what its decode
left, and storage off the paths of the planned fields that the item has is as `fieldsInStruct`
left it. -/
theorem unmarshalItem_struct_run (env : Env)
    (hperm : ∀ T, (env.rangeFields T).Perm T)
    (gas : Nat) (item : Item) (t : GoType) (prior : Value)
    (hk : (resolve env t).kind = .Struct)
    (hhook : hookOf (fun m => m.unmarshalDynamoDBItem) true (resolve env t) = none)
    (fields : FieldTable) (s0 : Value) (ferr : Option Error)
    (hfields : fieldsInStruct env gas (resolve env t) (zero (resolve env t))
      = .done (fields, s0) ferr)
    (hret : ∀ x ∈ fields, ∀ av, item.get x.1 = some av →
      ∃ v e, fieldDecode (unmarshalReflect env gas) s0 av x.2 = .done v e) :
    ∃ s err, UnmarshalItem env (gas + 1) item (.ptr t) (.ptr (some prior))
        = .done (.ptr (some s)) err ∧
      (err = none ↔ ∀ x ∈ fields, ∀ av, item.get x.1 = some av →
        (fieldDecode (unmarshalReflect env gas) s0 av x.2).returnsNil = true) ∧
      (∀ b ∈ fields, ∀ av v e, item.get b.1 = some av →
        fieldDecode (unmarshalReflect env gas) s0 av b.2 = .done v e →
        validPath s0 b.2.path = true → getAt s b.2.path = v) ∧
      (∀ q, (∀ x ∈ fields, item.get x.1 ≠ none → incomparable x.2.path q) →
        getAt s q = getAt s0 q) := by
  have hmem : ∀ x, x ∈ env.rangeFields fields ↔ x ∈ fields := fun x => (hperm fields).mem_iff
  have hpw : (env.rangeFields fields).Pairwise (fun a b => incomparable a.2.path b.2.path) :=
    ((hperm fields).pairwise_iff (fun h => incomparable_symm h)).mpr
      (fieldsInStruct_pairwise env gas _ _ fields s0 ferr hfields)
  obtain ⟨s, err, hloop, herr, hval, hframe⟩ :=
    itemFieldsLoop_spec (unmarshalReflect env gas) item (env.rangeFields fields) s0 none hpw
      (fun x hx av hav => hret x ((hmem x).mp hx) av hav)
  refine ⟨s, err, ?_, ?_, ?_, ?_⟩
  · simp only [UnmarshalItem]
    rw [unmarshalItem_struct_eq env gas item t prior hk hhook]
    simp only [itemStruct, hfields, hloop, Outcome.mapResult]
  · rw [herr]
    constructor
    · rintro ⟨_, hall⟩ x hx av hav
      exact hall x ((hmem x).mpr hx) av hav
    · intro hall
      exact ⟨rfl, fun x hx av hav => hall x ((hmem x).mp hx) av hav⟩
  · intro b hb av v e hav hdec hvalid
    exact hval b ((hmem b).mpr hb) av v e hav hdec hvalid
  · intro q hq
    exact (hframe q (fun x hx hne => hq x ((hmem x).mp hx) hne)).1

/-- A destination that is read-only (a field that is not exported) is left alone, with a nil
error: `CanInterface` and `CanSet` are both false. -/
theorem unmarshalReflect_readonly (env : Env) (gas : Nat) (av : AttributeValue) (rv : RV)
    (h : (rv.flagStickyRO || rv.flagEmbedRO) = true) :
    unmarshalReflect env (gas + 1) av rv = .done rv.val none := by
  have h1 : rv.canInterface = false := by simp [RV.canInterface, h]
  have h2 : rv.canSet = false := by simp [RV.canSet, h]
  simp [unmarshalReflect, h1, shapeDirected, h2]

theorem not_incomparable_singleton {k : Nat} {p : List Nat} {j : Nat}
    (h : ¬ incomparable (j :: p) [k]) : j = k := by
  by_contra hne
  exact h (incomparable_of_head_ne p [] hne)

/-- The entries of the table that lie at or under a field that is not unfolded: at most the
entry of the field itself, when it is entered. -/
theorem entries_at_field (env : Env) (gas : Nat) (t : GoType)
    (T : FieldTable) (s : Value) (e : Option Error) (hk : t.kind = .Struct)
    (h : fieldsInStruct env gas t (zero t) = .done (T, s) e)
    (k : Nat) (f : FieldDecl) (ft : GoType) (hdecl : t.fields[k]? = some (f, ft))
    (hrole : fieldRole env f ft ≠ .unfolded) :
    ∀ x ∈ T, ∀ p, x.2.path = k :: p →
      fieldRole env f ft = .entered ∧ x = (fieldInfo f, directRef env k f ft) := by
  intro x hx p hpath
  obtain ⟨k', f', ft', hd', hcase⟩ := fieldsInStruct_origin env gas t T s e hk h x hx
  have hkk : k' = k := by
    rcases hcase with ⟨_, hx'⟩ | ⟨_, _, _, _, _, _, y, _, hxy⟩
    · rw [hx'] at hpath
      simp only [directRef, List.cons.injEq] at hpath
      exact hpath.1
    · rw [hxy] at hpath
      simp only [List.cons.injEq] at hpath
      exact hpath.1
  subst hkk
  rw [hdecl] at hd'
  simp only [Option.some.injEq, Prod.mk.injEq] at hd'
  obtain ⟨hf, hft⟩ := hd'
  subst hf; subst hft
  rcases hcase with ⟨hr, hx'⟩ | ⟨hr, _⟩
  · exact ⟨hr, hx'⟩
  · exact absurd hr hrole

/-- The entries of the table that lie at, over or under an entered field of an embedded
struct: at most the entry that promotes this field, under its wire name. -/
theorem entries_at_promoted (env : Env) (gas : Nat) (t : GoType)
    (T : FieldTable) (s : Value) (e : Option Error) (hk : t.kind = .Struct)
    (h : fieldsInStruct env gas t (zero t) = .done (T, s) e)
    (k : Nat) (f : FieldDecl) (ft : GoType) (hdecl : t.fields[k]? = some (f, ft))
    (hrole : fieldRole env f ft = .unfolded)
    (hval : (resolve env ft).kind ≠ .Ptr → resolve env ft = ft)
    (j : Nat) (fj : FieldDecl) (tj : GoType)
    (hj : (embeddedStruct env ft).fields[j]? = some (fj, tj))
    (hrj : fieldRole env fj tj = .entered) :
    ∀ x ∈ T, ¬ incomparable x.2.path [k, j] →
      x = (fieldInfo fj, { directRef env j fj tj with path := [k, j] }) := by
  intro x hx hcomp
  obtain ⟨g1, innerT, sE, eE, hE, _, _, hunder, _⟩ :=
    fieldsInStruct_embedded env gas t T s e hk h k f ft hdecl hrole hval
  obtain ⟨k', f', ft', hd', hcase⟩ := fieldsInStruct_origin env gas t T s e hk h x hx
  -- the entry lies under the field `k`
  have hhead : ∃ p, x.2.path = k :: p := by
    rcases hcase with ⟨_, hx'⟩ | ⟨_, _, _, _, _, _, y, _, hxy⟩
    · refine ⟨[], ?_⟩
      rw [hx'] at hcomp ⊢
      simp only [directRef] at hcomp ⊢
      by_contra hne
      exact hcomp (incomparable_of_head_ne [] [j] (fun hkk => hne (by rw [hkk])))
    · refine ⟨y.2.path, ?_⟩
      rw [hxy] at hcomp ⊢
      simp only at hcomp ⊢
      by_contra hne
      exact hcomp (incomparable_of_head_ne _ [j] (fun hkk => hne (by rw [hkk])))
  obtain ⟨p, hp⟩ := hhead
  obtain ⟨y, hy, hxy⟩ := hunder x hx p hp
  have hEk := embeddedStruct_kind hrole
  have hcomp1 : ¬ incomparable y.2.path [j] := by
    intro hinc
    apply hcomp
    rw [hxy]
    exact incomparable_cons_of_incomparable k hinc
  obtain ⟨j', f1, ft1, hd1, hcase1⟩ := fieldsInStruct_origin env g1 _ innerT sE eE hEk hE y hy
  have hjj : j' = j := by
    rcases hcase1 with ⟨_, hy'⟩ | ⟨_, _, _, _, _, _, z, _, hyz⟩
    · rw [hy'] at hcomp1
      exact not_incomparable_singleton hcomp1
    · rw [hyz] at hcomp1
      exact not_incomparable_singleton hcomp1
  subst hjj
  rw [hj] at hd1
  simp only [Option.some.injEq, Prod.mk.injEq] at hd1
  obtain ⟨hf, hft⟩ := hd1
  subst hf; subst hft
  rcases hcase1 with ⟨_, hy'⟩ | ⟨hr, _⟩
  · rw [hxy, hy']
    rfl
  · rw [hrj] at hr; cases hr

theorem fieldsLoop_names (env : Env) (inner : GoType → Value → Outcome (FieldTable × Value))
    (hin : ∀ t v T s e, inner t v = .done (T, s) e → ∀ x ∈ T, x.1 ≠ "-")
    (decls : List (FieldDecl × GoType)) :
    ∀ (i : Nat) (T0 : FieldTable) (v : Value) (T : FieldTable) (s : Value) (e : Option Error),
      fieldsLoop env inner decls i T0 v = .done (T, s) e →
      (∀ x ∈ T0, x.1 ≠ "-") → ∀ x ∈ T, x.1 ≠ "-" := by
  induction decls with
  | nil =>
    intro i T0 v T s e h hp
    simp only [fieldsLoop, Outcome.done.injEq, Prod.mk.injEq] at h
    rw [← h.1.1]; exact hp
  | cons hd rest ih =>
    intro i T0 v T s e h hp
    obtain ⟨field, ft0⟩ := hd
    rw [fieldsLoop_cons] at h
    cases hrole : fieldRole env field ft0 with
    | skipped => simp only [hrole] at h; exact ih _ _ _ _ _ _ h hp
    | entered =>
      simp only [hrole] at h
      refine ih _ _ _ _ _ _ h (fun x hx => ?_)
      rcases tableSet_mem hx with h' | h'
      · exact hp x h'
      · rw [h']; exact fieldRole_entered hrole
    | unfolded =>
      simp only [hrole] at h
      split at h
      · rename_i innerT fv1 e1 hinner
        refine ih _ _ _ _ _ _ h (fun x hx => ?_)
        rcases mergeInner_mem i innerT T0 x hx with h' | ⟨y, hy, hxy⟩
        · exact hp x h'
        · rw [hxy]; exact hin _ _ _ _ _ hinner y hy
      · simp at h
      · simp at h

/-- No entry of the table that `fieldsInStruct` returns has the name "-". -/
theorem fieldsInStruct_names (env : Env) :
    ∀ (gas : Nat) (t : GoType) (v : Value) (T : FieldTable) (s : Value) (e : Option Error),
      fieldsInStruct env gas t v = .done (T, s) e → ∀ x ∈ T, x.1 ≠ "-" := by
  intro gas
  induction gas with
  | zero => intro t v T s e h; simp [fieldsInStruct] at h
  | succ gas ih =>
    intro t v T s e h
    simp only [fieldsInStruct] at h
    split_ifs at h with hptr hstruct
    · split at h
      · rename_i pointee
        cases hrec : fieldsInStruct env gas (resolve env t.elem) pointee with
        | done r e' =>
          rw [hrec] at h
          simp only [Outcome.mapResult, Outcome.done.injEq, Prod.mk.injEq] at h
          obtain ⟨⟨h1, _⟩, _⟩ := h
          rw [← h1]
          exact ih _ _ r.1 r.2 e' hrec
        | panic m => rw [hrec] at h; simp [Outcome.mapResult] at h
        | outOfGas => rw [hrec] at h; simp [Outcome.mapResult] at h
      · simp at h
    · exact fieldsLoop_names env _ ih t.fields 0 [] v T s e h
        (fun x hx => absurd hx (List.not_mem_nil x))

theorem tableGet_none_of_forall {T : FieldTable} {X : String} (h : ∀ x ∈ T, x.1 ≠ X) :
    tableGet T X = none := by
  cases hg : tableGet T X with
  | none => rfl
  | some r => exact absurd rfl (h _ (mem_of_tableGet hg))

/-! ### C13 -/

/-- C13: a field whose wire name is "-" is passed over by `fieldsInStruct`. No entry of the
table is the field or lies in it (an embedded struct is not unfolded), and no entry has the
name "-"; and for every item, the key "-" and the names of the promoted fields included, when
the decodes of the planned fields return, `UnmarshalItem` returns with the field at its zero
value and with an error that is nil exactly when the decodes of the planned fields, none of
which is this field, return nil. -/
theorem UnmarshalItem_skips_sentinel (env : Env)
    (hperm : ∀ T, (env.rangeFields T).Perm T)
    (gas : Nat) (item : Item) (t : GoType) (prior : Value)
    (hk : (resolve env t).kind = .Struct)
    (hhook : hookOf (fun m => m.unmarshalDynamoDBItem) true (resolve env t) = none)
    (fields : FieldTable) (s0 : Value) (ferr : Option Error)
    (hfields : fieldsInStruct env gas (resolve env t) (zero (resolve env t))
      = .done (fields, s0) ferr)
    (hret : ∀ x ∈ fields, ∀ av, item.get x.1 = some av →
      ∃ v e, fieldDecode (unmarshalReflect env gas) s0 av x.2 = .done v e)
    (k : Nat) (f : FieldDecl) (ft : GoType)
    (hdecl : (resolve env t).fields[k]? = some (f, ft)) (hname : fieldInfo f = "-") :
    (∀ x ∈ fields, ∀ p, x.2.path ≠ k :: p) ∧
    tableGet fields "-" = none ∧
    ∃ s err, UnmarshalItem env (gas + 1) item (.ptr t) (.ptr (some prior))
        = .done (.ptr (some s)) err ∧
      getAt s [k] = zero ft ∧
      (err = none ↔ ∀ x ∈ fields, ∀ av, item.get x.1 = some av →
        (fieldDecode (unmarshalReflect env gas) s0 av x.2).returnsNil = true) := by
  have hrole : fieldRole env f ft = .skipped := fieldRole_skipped_of hname
  have hnu : fieldRole env f ft ≠ .unfolded := by rw [hrole]; decide
  have hnone : ∀ x ∈ fields, ∀ p, x.2.path ≠ k :: p := by
    intro x hx p hp
    have := (entries_at_field env gas _ fields s0 ferr hk hfields k f ft hdecl hnu x hx p hp).1
    rw [hrole] at this
    cases this
  refine ⟨hnone, tableGet_none_of_forall (fieldsInStruct_names env gas _ _ fields s0 ferr hfields),
    ?_⟩
  obtain ⟨s, err, hcall, herr, _, hframe⟩ := unmarshalItem_struct_run env hperm gas item t prior
    hk hhook fields s0 ferr hfields hret
  obtain ⟨_, _, _, hkept⟩ := fieldsInStruct_zero_kept env gas _ fields s0 ferr hk hfields
  refine ⟨s, err, hcall, ?_, herr⟩
  rw [hframe [k], (hkept k f ft hdecl hnu).1]
  intro x hx _
  obtain ⟨k', f', ft', _, hcase⟩ := fieldsInStruct_origin env gas _ fields s0 ferr hk hfields x hx
  have hpath : ∃ k1 p, x.2.path = k1 :: p := by
    rcases hcase with ⟨_, hx'⟩ | ⟨_, _, _, _, _, _, y, _, hxy⟩
    · exact ⟨k', [], by rw [hx']; rfl⟩
    · exact ⟨k', y.2.path, by rw [hxy]⟩
  obtain ⟨k1, p, hp⟩ := hpath
  rw [hp]
  exact incomparable_of_head_ne p [] (fun hkk => hnone x hx p (by rw [hp, hkk]))

/-- An instance: an embedded struct with the directive "-" next to a field `Other`, and an
item that has the key "-" and the name of the promoted field. -/
theorem UnmarshalItem_skips_sentinel_witness :
    UnmarshalItem Env.sample 2
        [("-", .S "x"), ("Embedded", .BOOL true), ("Other", .BOOL true)]
        (.ptr (.struct [(⟨"ExportedEmbedded", "-", true, true⟩,
            .struct [(⟨"Embedded", "", false, true⟩, .bool)]),
          (⟨"Other", "", false, true⟩, .bool)]))
        (.ptr (some (.struct [.struct [.bool true], .bool false])))
      = .done (.ptr (some (.struct [.struct [.bool false], .bool true]))) none ∧
    getAt (.struct [.struct [.bool false], .bool true]) [0]
      = zero (.struct [(⟨"Embedded", "", false, true⟩, .bool)]) ∧
    tableGet [("Other", (⟨[1], .bool, false, false⟩ : FieldRef))] "-" = none := by
  obtain ⟨_, h2, s, err, h3, h4, _⟩ := UnmarshalItem_skips_sentinel Env.sample
    (fun T => List.Perm.refl T) 1
    [("-", .S "x"), ("Embedded", .BOOL true), ("Other", .BOOL true)]
    (.struct [(⟨"ExportedEmbedded", "-", true, true⟩,
        .struct [(⟨"Embedded", "", false, true⟩, .bool)]),
      (⟨"Other", "", false, true⟩, .bool)])
    (.struct [.struct [.bool true], .bool false]) rfl rfl
    [("Other", ⟨[1], .bool, false, false⟩)]
    (.struct [.struct [.bool false], .bool false]) none rfl
    (by
      intro x hx av hav
      simp only [List.mem_singleton] at hx
      subst hx
      have h0 : Item.get [("-", .S "x"), ("Embedded", .BOOL true), ("Other", .BOOL true)]
          "Other" = some (.BOOL true) := rfl
      have h1 := h0.symm.trans hav
      cases h1
      exact ⟨_, _, rfl⟩)
    0 ⟨"ExportedEmbedded", "-", true, true⟩ (.struct [(⟨"Embedded", "", false, true⟩, .bool)])
    rfl rfl
  have hval : UnmarshalItem Env.sample 2
      [("-", .S "x"), ("Embedded", .BOOL true), ("Other", .BOOL true)]
      (.ptr (.struct [(⟨"ExportedEmbedded", "-", true, true⟩,
          .struct [(⟨"Embedded", "", false, true⟩, .bool)]),
        (⟨"Other", "", false, true⟩, .bool)]))
      (.ptr (some (.struct [.struct [.bool true], .bool false])))
      = .done (.ptr (some (.struct [.struct [.bool false], .bool true]))) none := rfl
  rw [hval] at h3
  simp only [Outcome.done.injEq, Value.ptr.injEq, Option.some.injEq] at h3
  obtain ⟨hs, _⟩ := h3
  subst hs
  exact ⟨hval, h4, h2⟩

theorem entry_path_cons (env : Env) (gas : Nat) (t : GoType)
    (T : FieldTable) (s : Value) (e : Option Error) (hk : t.kind = .Struct)
    (h : fieldsInStruct env gas t (zero t) = .done (T, s) e) :
    ∀ x ∈ T, ∃ k p, x.2.path = k :: p := by
  intro x hx
  obtain ⟨k, f, ft, _, hcase⟩ := fieldsInStruct_origin env gas t T s e hk h x hx
  rcases hcase with ⟨_, hx'⟩ | ⟨_, _, _, _, _, _, y, _, hxy⟩
  · exact ⟨k, [], by rw [hx']; rfl⟩
  · exact ⟨k, y.2.path, by rw [hxy]⟩

/-! ### C14 -/

/-- C14: a field that is not exported (and is not an embedded struct value, whose exported
fields are promoted) is ignored. Every entry of the table at such a field is read-only: its
decode returns nil and changes nothing, whatever the wire value; and for every item, when the
decodes of the planned fields return, `UnmarshalItem` returns with the field at its zero
value. -/
theorem UnmarshalItem_unexported_field_ignored (env : Env)
    (hperm : ∀ T, (env.rangeFields T).Perm T)
    (gas : Nat) (item : Item) (t : GoType) (prior : Value)
    (hk : (resolve env t).kind = .Struct)
    (hhook : hookOf (fun m => m.unmarshalDynamoDBItem) true (resolve env t) = none)
    (fields : FieldTable) (s0 : Value) (ferr : Option Error)
    (hfields : fieldsInStruct env gas (resolve env t) (zero (resolve env t))
      = .done (fields, s0) ferr)
    (hret : ∀ x ∈ fields, ∀ av, item.get x.1 = some av →
      ∃ v e, fieldDecode (unmarshalReflect env gas) s0 av x.2 = .done v e)
    (k : Nat) (f : FieldDecl) (ft : GoType)
    (hdecl : (resolve env t).fields[k]? = some (f, ft)) (hexp : f.exported = false)
    (hnot : ¬ (f.anonymous = true ∧ (resolve env ft).kind = .Struct)) :
    (∀ x ∈ fields, ∀ p, x.2.path = k :: p →
      ∀ (g : Nat) (s1 : Value) (av : AttributeValue),
        fieldDecode (unmarshalReflect env (g + 1)) s1 av x.2
          = .done (getAt s1 x.2.path) none) ∧
    ∃ s err, UnmarshalItem env (gas + 1) item (.ptr t) (.ptr (some prior))
        = .done (.ptr (some s)) err ∧
      getAt s [k] = zero ft := by
  have hnu : fieldRole env f ft ≠ .unfolded := by
    intro hu
    obtain ⟨_, hanon, hkind⟩ := fieldRole_unfolded hu
    rcases hkind with hs | ⟨_, _, hex⟩
    · exact hnot ⟨hanon, hs⟩
    · rw [hexp] at hex; cases hex
  have hentry : ∀ x ∈ fields, ∀ p, x.2.path = k :: p →
      x = (fieldInfo f, directRef env k f ft) :=
    fun x hx p hp =>
      (entries_at_field env gas _ fields s0 ferr hk hfields k f ft hdecl hnu x hx p hp).2
  have hro : ∀ x ∈ fields, ∀ p, x.2.path = k :: p →
      ∀ (g : Nat) (s1 : Value) (av : AttributeValue),
        fieldDecode (unmarshalReflect env (g + 1)) s1 av x.2
          = .done (getAt s1 x.2.path) none := by
    intro x hx p hp g s1 av
    rw [hentry x hx p hp]
    simp only [fieldDecode]
    apply unmarshalReflect_readonly
    cases ha : f.anonymous <;> simp [directRef, hexp, ha]
  refine ⟨hro, ?_⟩
  obtain ⟨s, err, hcall, _, hval, hframe⟩ := unmarshalItem_struct_run env hperm gas item t prior
    hk hhook fields s0 ferr hfields hret
  obtain ⟨_, _, _, hkept⟩ := fieldsInStruct_zero_kept env gas _ fields s0 ferr hk hfields
  obtain ⟨hzero, hvalid⟩ := hkept k f ft hdecl hnu
  refine ⟨s, err, hcall, ?_⟩
  by_cases hpres : ∃ x ∈ fields, (∃ p, x.2.path = k :: p) ∧ ∃ av, item.get x.1 = some av
  · obtain ⟨x, hx, ⟨p, hp⟩, av, hav⟩ := hpres
    have hpath : x.2.path = [k] := by rw [hentry x hx p hp]; rfl
    obtain ⟨v, e, hdec⟩ := hret x hx av hav
    have hv : getAt s x.2.path = v := hval x hx av v e hav hdec (by rw [hpath]; exact hvalid)
    cases gas with
    | zero => simp [fieldDecode, unmarshalReflect] at hdec
    | succ g =>
      rw [hro x hx p hp g s0 av] at hdec
      simp only [Outcome.done.injEq] at hdec
      rw [← hpath, hv, ← hdec.1, hpath, hzero]
  · rw [hframe [k], hzero]
    intro x hx hne
    obtain ⟨k1, p, hp⟩ := entry_path_cons env gas _ fields s0 ferr hk hfields x hx
    rw [hp]
    apply incomparable_of_head_ne
    intro hkk
    apply hpres
    refine ⟨x, hx, ⟨p, by rw [hp, hkk]⟩, ?_⟩
    cases hg : item.get x.1 with
    | none => exact absurd hg hne
    | some av => exact ⟨av, rfl⟩

/-- An instance, after the test "unexported fields": the field `a` gets a String, which is
not its variant, next to an exported field. -/
theorem UnmarshalItem_unexported_field_ignored_witness :
    UnmarshalItem Env.sample 2 [("a", .S "x"), ("B", .S "ok")]
        (.ptr (.struct [(⟨"a", "", false, false⟩, .bool), (⟨"B", "", false, true⟩, .string)]))
        (.ptr (some (.struct [.bool true, .string "old"])))
      = .done (.ptr (some (.struct [.bool false, .string "ok"]))) none ∧
    getAt (.struct [.bool false, .string "ok"]) [0] = zero .bool := by
  obtain ⟨_, s, err, h3, h4⟩ := UnmarshalItem_unexported_field_ignored Env.sample
    (fun T => List.Perm.refl T) 1 [("a", .S "x"), ("B", .S "ok")]
    (.struct [(⟨"a", "", false, false⟩, .bool), (⟨"B", "", false, true⟩, .string)])
    (.struct [.bool true, .string "old"]) rfl rfl
    [("a", ⟨[0], .bool, true, false⟩), ("B", ⟨[1], .string, false, false⟩)]
    (.struct [.bool false, .string ""]) none rfl
    (by
      intro x hx av hav
      simp only [List.mem_cons, List.mem_singleton, List.not_mem_nil, or_false] at hx
      rcases hx with rfl | rfl
      · have h0 : Item.get [("a", .S "x"), ("B", .S "ok")] "a" = some (.S "x") := rfl
        have h1 := h0.symm.trans hav
        cases h1
        exact ⟨_, _, rfl⟩
      · have h0 : Item.get [("a", .S "x"), ("B", .S "ok")] "B" = some (.S "ok") := rfl
        have h1 := h0.symm.trans hav
        cases h1
        exact ⟨_, _, rfl⟩)
    0 ⟨"a", "", false, false⟩ .bool rfl rfl (by decide)
  have hval : UnmarshalItem Env.sample 2 [("a", .S "x"), ("B", .S "ok")]
      (.ptr (.struct [(⟨"a", "", false, false⟩, .bool), (⟨"B", "", false, true⟩, .string)]))
      (.ptr (some (.struct [.bool true, .string "old"])))
      = .done (.ptr (some (.struct [.bool false, .string "ok"]))) none := rfl
  rw [hval] at h3
  simp only [Outcome.done.injEq, Value.ptr.injEq, Option.some.injEq] at h3
  obtain ⟨hs, _⟩ := h3
  subst hs
  exact ⟨hval, h4⟩

/-! ### Fields that a wire name does not designate -/

/-- When the table designates, for the wire name of an entered field of an embedded struct,
another place than this field, no entry of the table touches the field. -/
theorem promoted_shadowed (env : Env) (gas : Nat) (t : GoType)
    (T : FieldTable) (s : Value) (e : Option Error) (hk : t.kind = .Struct)
    (h : fieldsInStruct env gas t (zero t) = .done (T, s) e)
    (k : Nat) (f : FieldDecl) (ft : GoType) (hdecl : t.fields[k]? = some (f, ft))
    (hrole : fieldRole env f ft = .unfolded)
    (hval : (resolve env ft).kind ≠ .Ptr → resolve env ft = ft)
    (j : Nat) (fj : FieldDecl) (tj : GoType)
    (hj : (embeddedStruct env ft).fields[j]? = some (fj, tj))
    (hrj : fieldRole env fj tj = .entered)
    (r : FieldRef) (hr : tableGet T (fieldInfo fj) = some r) (hne : r.path ≠ [k, j]) :
    ∀ x ∈ T, incomparable x.2.path [k, j] := by
  intro x hx
  by_contra hcomp
  have hx' := entries_at_promoted env gas t T s e hk h k f ft hdecl hrole hval j fj tj hj hrj
    x hx hcomp
  have hget := tableGet_of_mem (fieldsInStruct_nodup env gas t _ T s e h) hx
  rw [hx'] at hget
  simp only at hget
  rw [hr] at hget
  simp only [Option.some.injEq] at hget
  apply hne
  rw [hget]

/-- An entered field of an embedded struct is zero, and is storage, in the struct that
`fieldsInStruct` leaves. -/
theorem promoted_zero (env : Env) (gas : Nat) (t : GoType)
    (T : FieldTable) (s : Value) (e : Option Error) (hk : t.kind = .Struct)
    (h : fieldsInStruct env gas t (zero t) = .done (T, s) e)
    (k : Nat) (f : FieldDecl) (ft : GoType) (hdecl : t.fields[k]? = some (f, ft))
    (hrole : fieldRole env f ft = .unfolded)
    (hval : (resolve env ft).kind ≠ .Ptr → resolve env ft = ft)
    (j : Nat) (fj : FieldDecl) (tj : GoType)
    (hj : (embeddedStruct env ft).fields[j]? = some (fj, tj))
    (hrj : fieldRole env fj tj ≠ .unfolded) :
    getAt s [k, j] = zero tj ∧ validPath s [k, j] = true := by
  obtain ⟨g1, innerT, sE, eE, hE, hget, hvalid, _, _⟩ :=
    fieldsInStruct_embedded env gas t T s e hk h k f ft hdecl hrole hval
  obtain ⟨_, _, _, hkept⟩ :=
    fieldsInStruct_zero_kept env g1 _ innerT sE eE (embeddedStruct_kind hrole) hE
  rw [hget j [], hvalid j []]
  exact hkept j fj tj hj hrj

/-- When the table designates, for the wire name of an entered field, another place than this
field, no entry of the table touches the field. -/
theorem direct_shadowed (env : Env) (gas : Nat) (t : GoType)
    (T : FieldTable) (s : Value) (e : Option Error) (hk : t.kind = .Struct)
    (h : fieldsInStruct env gas t (zero t) = .done (T, s) e)
    (k : Nat) (f : FieldDecl) (ft : GoType) (hdecl : t.fields[k]? = some (f, ft))
    (hrole : fieldRole env f ft ≠ .unfolded)
    (hsh : ∀ r, tableGet T (fieldInfo f) = some r → r.path ≠ [k]) :
    ∀ x ∈ T, incomparable x.2.path [k] := by
  intro x hx
  by_contra hcomp
  obtain ⟨k1, p, hp⟩ := entry_path_cons env gas t T s e hk h x hx
  have hkk : k1 = k := by rw [hp] at hcomp; exact not_incomparable_singleton hcomp
  subst hkk
  obtain ⟨_, hx'⟩ := entries_at_field env gas t T s e hk h k1 f ft hdecl hrole x hx p hp
  have hget := tableGet_of_mem (fieldsInStruct_nodup env gas t _ T s e h) hx
  rw [hx'] at hget
  exact hsh _ hget rfl

/-- The decode of a read-only entry of the table, when it returns, leaves what was there. -/
theorem fieldDecode_readonly (env : Env) (gas : Nat) (s0 : Value) (av : AttributeValue)
    (r : FieldRef) (hro : (r.flagStickyRO || r.flagEmbedRO) = true) (v : Value)
    (e : Option Error) (h : fieldDecode (unmarshalReflect env gas) s0 av r = .done v e) :
    v = getAt s0 r.path ∧ e = none := by
  cases gas with
  | zero => simp [fieldDecode, unmarshalReflect] at h
  | succ g =>
    simp only [fieldDecode] at h
    rw [unmarshalReflect_readonly env g av _ hro] at h
    simp only [Outcome.done.injEq] at h
    exact ⟨h.1.symm, h.2.symm⟩

/-! ### C15 -/

/-- C15, as stated, fails: `fieldsInStruct` enters the unexported field `hidden`, renamed to
"Embedded", into the table, so the promoted exported field `Embedded` is not entered and the
key "Embedded" sets nothing; without the field `hidden` the promoted field is set. -/
theorem unexported_field_shadows_promoted :
    fieldsInStruct Env.sample 2
        (.struct [(⟨"hidden", "Embedded", false, false⟩, .bool),
          (⟨"ExportedEmbedded", "", true, true⟩,
            .struct [(⟨"Embedded", "", false, true⟩, .bool)])])
        (.struct [.bool false, .struct [.bool false]])
      = .done ([("Embedded", ⟨[0], .bool, true, false⟩)],
          .struct [.bool false, .struct [.bool false]]) none ∧
    UnmarshalItem Env.sample 3 [("Embedded", .BOOL true)]
        (.ptr (.struct [(⟨"hidden", "Embedded", false, false⟩, .bool),
          (⟨"ExportedEmbedded", "", true, true⟩,
            .struct [(⟨"Embedded", "", false, true⟩, .bool)])]))
        (.ptr (some (.struct [.bool false, .struct [.bool false]])))
      = .done (.ptr (some (.struct [.bool false, .struct [.bool false]]))) none ∧
    UnmarshalItem Env.sample 3 [("Embedded", .BOOL true)]
        (.ptr (.struct [(⟨"ExportedEmbedded", "", true, true⟩,
            .struct [(⟨"Embedded", "", false, true⟩, .bool)])]))
        (.ptr (some (.struct [.struct [.bool false]])))
      = .done (.ptr (some (.struct [.struct [.bool true]]))) none :=
  ⟨rfl, rfl, rfl⟩

/-- C15 (amended): the table of `fieldsInStruct` does hold fields that are not exported. A
field that is not exported and is entered into the table, after which no field of its wire
name is entered, is what its wire name designates, as a read-only entry; a field of the same
wire name that an embedded struct would promote is not entered, and for every item, when the
decodes of the planned fields return, `UnmarshalItem` returns with both fields at their zero
values. -/
theorem fieldsInStruct_enters_unexported (env : Env)
    (hperm : ∀ T, (env.rangeFields T).Perm T)
    (gas : Nat) (item : Item) (t : GoType) (prior : Value)
    (hk : (resolve env t).kind = .Struct)
    (hhook : hookOf (fun m => m.unmarshalDynamoDBItem) true (resolve env t) = none)
    (fields : FieldTable) (s0 : Value) (ferr : Option Error)
    (hfields : fieldsInStruct env gas (resolve env t) (zero (resolve env t))
      = .done (fields, s0) ferr)
    (hret : ∀ x ∈ fields, ∀ av, item.get x.1 = some av →
      ∃ v e, fieldDecode (unmarshalReflect env gas) s0 av x.2 = .done v e)
    (d : Nat) (fd : FieldDecl) (td : GoType)
    (hd : (resolve env t).fields[d]? = some (fd, td))
    (hrole : fieldRole env fd td = .entered) (hexp : fd.exported = false)
    (hlast : ∀ (j : Nat) (f1 : FieldDecl) (ft1 : GoType), d < j →
      (resolve env t).fields[j]? = some (f1, ft1) → fieldRole env f1 ft1 = .entered →
      fieldInfo f1 ≠ fieldInfo fd)
    (e : Nat) (fe : FieldDecl) (te : GoType)
    (he : (resolve env t).fields[e]? = some (fe, te))
    (hre : fieldRole env fe te = .unfolded)
    (hval : (resolve env te).kind ≠ .Ptr → resolve env te = te)
    (j : Nat) (fj : FieldDecl) (tj : GoType)
    (hj : (embeddedStruct env te).fields[j]? = some (fj, tj))
    (hrj : fieldRole env fj tj = .entered) (hname : fieldInfo fj = fieldInfo fd) :
    tableGet fields (fieldInfo fd) = some (directRef env d fd td) ∧
    ((directRef env d fd td).flagStickyRO || (directRef env d fd td).flagEmbedRO) = true ∧
    ∃ s err, UnmarshalItem env (gas + 1) item (.ptr t) (.ptr (some prior))
        = .done (.ptr (some s)) err ∧
      getAt s [d] = zero td ∧ getAt s [e, j] = zero tj := by
  have hlook := fieldsInStruct_lookup_direct env gas _ _ fields s0 ferr hk hfields d fd td hd
    hrole hlast
  have hro : ((directRef env d fd td).flagStickyRO || (directRef env d fd td).flagEmbedRO)
      = true := by
    cases ha : fd.anonymous <;> simp [directRef, hexp, ha]
  have hnu : fieldRole env fd td ≠ .unfolded := by rw [hrole]; decide
  have hnuj : fieldRole env fj tj ≠ .unfolded := by rw [hrj]; decide
  refine ⟨hlook, hro, ?_⟩
  obtain ⟨s, err, hcall, _, hvalue, hframe⟩ := unmarshalItem_struct_run env hperm gas item t
    prior hk hhook fields s0 ferr hfields hret
  obtain ⟨_, _, _, hkept⟩ := fieldsInStruct_zero_kept env gas _ fields s0 ferr hk hfields
  obtain ⟨hzero, hvalid⟩ := hkept d fd td hd hnu
  refine ⟨s, err, hcall, ?_, ?_⟩
  · cases hg : item.get (fieldInfo fd) with
    | some av =>
      have hmem := mem_of_tableGet hlook
      obtain ⟨v, e1, hdec⟩ := hret _ hmem av hg
      have hv := hvalue _ hmem av v e1 hg hdec hvalid
      rw [(fieldDecode_readonly env gas s0 av _ hro v e1 hdec).1] at hv
      exact hv.trans hzero
    | none =>
      rw [hframe [d], hzero]
      intro x hx hne
      by_contra hcomp
      obtain ⟨k1, p, hp⟩ := entry_path_cons env gas _ fields s0 ferr hk hfields x hx
      have hkk : k1 = d := by rw [hp] at hcomp; exact not_incomparable_singleton hcomp
      subst hkk
      obtain ⟨_, hx'⟩ := entries_at_field env gas _ fields s0 ferr hk hfields k1 fd td hd hnu
        x hx p hp
      apply hne
      rw [hx']
      exact hg
  · rw [hframe [e, j]]
    · exact (promoted_zero env gas _ fields s0 ferr hk hfields e fe te he hre hval j fj tj hj
        hnuj).1
    · intro x hx _
      refine promoted_shadowed env gas _ fields s0 ferr hk hfields e fe te he hre hval j fj tj hj
        hrj (directRef env d fd td) (by rw [hname]; exact hlook) ?_ x hx
      simp [directRef]

/-- An instance: the unexported field `hidden`, renamed to "Embedded", before the embedded
struct `ExportedEmbedded` of the tests. -/
theorem fieldsInStruct_enters_unexported_witness :
    tableGet [("Embedded", (⟨[0], .bool, true, false⟩ : FieldRef))] "Embedded"
      = some ⟨[0], .bool, true, false⟩ ∧
    UnmarshalItem Env.sample 3 [("Embedded", .BOOL true)]
        (.ptr (.struct [(⟨"hidden", "Embedded", false, false⟩, .bool),
          (⟨"ExportedEmbedded", "", true, true⟩,
            .struct [(⟨"Embedded", "", false, true⟩, .bool)])]))
        (.ptr (some (.struct [.bool true, .struct [.bool true]])))
      = .done (.ptr (some (.struct [.bool false, .struct [.bool false]]))) none ∧
    getAt (.struct [.bool false, .struct [.bool false]]) [1, 0] = zero .bool := by
  obtain ⟨h1, _, s, err, h3, _, h5⟩ := fieldsInStruct_enters_unexported Env.sample
    (fun T => List.Perm.refl T) 2 [("Embedded", .BOOL true)]
    (.struct [(⟨"hidden", "Embedded", false, false⟩, .bool),
      (⟨"ExportedEmbedded", "", true, true⟩, .struct [(⟨"Embedded", "", false, true⟩, .bool)])])
    (.struct [.bool true, .struct [.bool true]]) rfl rfl
    [("Embedded", ⟨[0], .bool, true, false⟩)]
    (.struct [.bool false, .struct [.bool false]]) none rfl
    (by
      intro x hx av hav
      simp only [List.mem_singleton] at hx
      subst hx
      have h0 : Item.get [("Embedded", .BOOL true)] "Embedded" = some (.BOOL true) := rfl
      have h1 := h0.symm.trans hav
      cases h1
      exact ⟨_, _, rfl⟩)
    0 ⟨"hidden", "Embedded", false, false⟩ .bool rfl rfl rfl
    (by
      intro j f1 ft1 hj hdecl hr
      match j, hj, hdecl with
      | 1, _, hdecl =>
        simp only [GoType.fields, List.getElem?_cons_succ, List.getElem?_cons_zero,
          Option.some.injEq, Prod.mk.injEq] at hdecl
        obtain ⟨rfl, rfl⟩ := hdecl
        simp [fieldRole, fieldInfo, resolve, GoType.kind] at hr
      | j + 2, _, hdecl => simp [GoType.fields] at hdecl)
    1 ⟨"ExportedEmbedded", "", true, true⟩ (.struct [(⟨"Embedded", "", false, true⟩, .bool)])
    rfl rfl (fun _ => rfl)
    0 ⟨"Embedded", "", false, true⟩ .bool rfl rfl rfl
  have hval : UnmarshalItem Env.sample 3 [("Embedded", .BOOL true)]
      (.ptr (.struct [(⟨"hidden", "Embedded", false, false⟩, .bool),
        (⟨"ExportedEmbedded", "", true, true⟩,
          .struct [(⟨"Embedded", "", false, true⟩, .bool)])]))
      (.ptr (some (.struct [.bool true, .struct [.bool true]])))
      = .done (.ptr (some (.struct [.bool false, .struct [.bool false]]))) none := rfl
  rw [hval] at h3
  simp only [Outcome.done.injEq, Value.ptr.injEq, Option.some.injEq] at h3
  obtain ⟨hs, _⟩ := h3
  subst hs
  exact ⟨h1, hval, h5⟩

/-- A field that is not unfolded and whose entry, if it has one, is read-only, is zero in the
struct that the loop of `unmarshalItem` leaves. -/
theorem readonly_field_kept (env : Env) (gas : Nat) (item : Item) (t : GoType)
    (fields : FieldTable) (s0 : Value) (ferr : Option Error) (hk : t.kind = .Struct)
    (hfields : fieldsInStruct env gas t (zero t) = .done (fields, s0) ferr)
    (hret : ∀ x ∈ fields, ∀ av, item.get x.1 = some av →
      ∃ v e, fieldDecode (unmarshalReflect env gas) s0 av x.2 = .done v e)
    (k : Nat) (f : FieldDecl) (ft : GoType) (hdecl : t.fields[k]? = some (f, ft))
    (hnu : fieldRole env f ft ≠ .unfolded)
    (hro : ((directRef env k f ft).flagStickyRO || (directRef env k f ft).flagEmbedRO) = true)
    (s : Value)
    (hvalue : ∀ b ∈ fields, ∀ av v e, item.get b.1 = some av →
      fieldDecode (unmarshalReflect env gas) s0 av b.2 = .done v e →
      validPath s0 b.2.path = true → getAt s b.2.path = v)
    (hframe : ∀ q, (∀ x ∈ fields, item.get x.1 ≠ none → incomparable x.2.path q) →
      getAt s q = getAt s0 q) :
    getAt s [k] = zero ft := by
  obtain ⟨_, _, _, hkept⟩ := fieldsInStruct_zero_kept env gas _ fields s0 ferr hk hfields
  obtain ⟨hzero, hvalid⟩ := hkept k f ft hdecl hnu
  have hentry : ∀ x ∈ fields, ∀ p, x.2.path = k :: p →
      x = (fieldInfo f, directRef env k f ft) :=
    fun x hx p hp =>
      (entries_at_field env gas _ fields s0 ferr hk hfields k f ft hdecl hnu x hx p hp).2
  by_cases hpres : ∃ x ∈ fields, (∃ p, x.2.path = k :: p) ∧ ∃ av, item.get x.1 = some av
  · obtain ⟨x, hx, ⟨p, hp⟩, av, hav⟩ := hpres
    have hxe := hentry x hx p hp
    have hpath : x.2.path = [k] := by rw [hxe]; rfl
    obtain ⟨v, e, hdec⟩ := hret x hx av hav
    have hv : getAt s x.2.path = v := hvalue x hx av v e hav hdec (by rw [hpath]; exact hvalid)
    have hv2 := (fieldDecode_readonly env gas s0 av x.2 (by rw [hxe]; exact hro) v e hdec).1
    rw [← hpath, hv, hv2, hpath, hzero]
  · rw [hframe [k], hzero]
    intro x hx hne
    obtain ⟨k1, p, hp⟩ := entry_path_cons env gas _ fields s0 ferr hk hfields x hx
    rw [hp]
    apply incomparable_of_head_ne
    intro hkk
    apply hpres
    refine ⟨x, hx, ⟨p, by rw [hp, hkk]⟩, ?_⟩
    cases hg : item.get x.1 with
    | none => exact absurd hg hne
    | some av => exact ⟨av, rfl⟩

theorem resolve_of_kind_ptr (env : Env) {t : GoType} (h : t.kind = .Ptr) : resolve env t = t := by
  cases t <;> first | rfl | simp [GoType.kind, OtherKind.kind] at h

/-! ### C11 -/

/-- C11, as stated, fails for an embedded pointer that is not exported, which is not unfolded:
in the test "embedded unexported pointer" the key "Embedded" sets nothing and the pointer
stays nil, while the exported embedded pointer is allocated and its field is set. -/
theorem unexported_embedded_pointer_is_not_set :
    UnmarshalItem Env.sample 3 [("Embedded", .BOOL true)]
        (.ptr (.struct [(⟨"embedded", "", true, false⟩,
          .ptr (.struct [(⟨"Embedded", "", false, true⟩, .bool)]))]))
        (.ptr (some (.struct [.ptr none])))
      = .done (.ptr (some (.struct [.ptr none]))) none ∧
    UnmarshalItem Env.sample 4 [("Embedded", .BOOL true)]
        (.ptr (.struct [(⟨"ExportedEmbedded", "", true, true⟩,
          .ptr (.struct [(⟨"Embedded", "", false, true⟩, .bool)]))]))
        (.ptr (some (.struct [.ptr none])))
      = .done (.ptr (some (.struct [.ptr (some (.struct [.bool true]))]))) none :=
  ⟨rfl, rfl⟩

/-- C11 (amended): let the item have the wire name `X`, and let the decodes of the planned
fields return. (1) For an exported field that is entered under `X`, the last one so entered,
`UnmarshalItem` returns and the field holds what the decode of the value of `X` into its zero
value gives, while every field that an unfolded embedded struct (by value, exported or not, or
by an exported pointer, declared before or after) would promote under `X` stays zero. (2) When
no entered field has the wire name `X`, the first unfolded embedded struct that has an exported
field entered under `X` gets it decoded. (3) An embedded pointer that is not exported is not
unfolded: it stays nil. -/
theorem UnmarshalItem_promotion (env : Env)
    (hperm : ∀ T, (env.rangeFields T).Perm T)
    (gas : Nat) (item : Item) (t : GoType) (prior : Value)
    (hk : (resolve env t).kind = .Struct)
    (hhook : hookOf (fun m => m.unmarshalDynamoDBItem) true (resolve env t) = none)
    (fields : FieldTable) (s0 : Value) (ferr : Option Error)
    (hfields : fieldsInStruct env gas (resolve env t) (zero (resolve env t))
      = .done (fields, s0) ferr)
    (hret : ∀ x ∈ fields, ∀ av, item.get x.1 = some av →
      ∃ v e, fieldDecode (unmarshalReflect env gas) s0 av x.2 = .done v e)
    (X : String) (av : AttributeValue) (hX : item.get X = some av) :
    (∀ (d : Nat) (fd : FieldDecl) (td : GoType),
      (resolve env t).fields[d]? = some (fd, td) → fieldRole env fd td = .entered →
      fd.exported = true → fieldInfo fd = X →
      (∀ (j : Nat) (f1 : FieldDecl) (ft1 : GoType), d < j →
        (resolve env t).fields[j]? = some (f1, ft1) → fieldRole env f1 ft1 = .entered →
        fieldInfo f1 ≠ X) →
      ∃ s err v ed, UnmarshalItem env (gas + 1) item (.ptr t) (.ptr (some prior))
          = .done (.ptr (some s)) err ∧
        unmarshalReflect env gas av ⟨resolve env td, zero td, true, false, false⟩
          = .done v ed ∧
        getAt s [d] = v ∧
        ∀ (e : Nat) (fe : FieldDecl) (te : GoType) (j : Nat) (fj : FieldDecl) (tj : GoType),
          (resolve env t).fields[e]? = some (fe, te) → fieldRole env fe te = .unfolded →
          ((resolve env te).kind ≠ .Ptr → resolve env te = te) →
          (embeddedStruct env te).fields[j]? = some (fj, tj) →
          fieldRole env fj tj = .entered → fieldInfo fj = X →
          getAt s [e, j] = zero tj) ∧
    (∀ (e : Nat) (fe : FieldDecl) (te : GoType) (j : Nat) (fj : FieldDecl) (tj : GoType),
      (resolve env t).fields[e]? = some (fe, te) → fieldRole env fe te = .unfolded →
      ((resolve env te).kind ≠ .Ptr → resolve env te = te) →
      (∀ (j1 : Nat) (f1 : FieldDecl) (ft1 : GoType),
        (resolve env t).fields[j1]? = some (f1, ft1) → fieldRole env f1 ft1 = .entered →
        fieldInfo f1 ≠ X) →
      (∀ (j1 : Nat) (f1 : FieldDecl) (ft1 : GoType), j1 < e →
        (resolve env t).fields[j1]? = some (f1, ft1) → fieldRole env f1 ft1 ≠ .unfolded) →
      (embeddedStruct env te).fields[j]? = some (fj, tj) →
      fieldRole env fj tj = .entered → fj.exported = true → fieldInfo fj = X →
      (∀ (j1 : Nat) (f1 : FieldDecl) (ft1 : GoType), j < j1 →
        (embeddedStruct env te).fields[j1]? = some (f1, ft1) →
        fieldRole env f1 ft1 = .entered → fieldInfo f1 ≠ X) →
      ∃ s err v ed, UnmarshalItem env (gas + 1) item (.ptr t) (.ptr (some prior))
          = .done (.ptr (some s)) err ∧
        unmarshalReflect env gas av ⟨resolve env tj, zero tj, true, false, false⟩
          = .done v ed ∧
        getAt s [e, j] = v) ∧
    (∀ (e : Nat) (fe : FieldDecl) (te : GoType),
      (resolve env t).fields[e]? = some (fe, te) → fe.anonymous = true →
      fe.exported = false → te.kind = .Ptr →
      ∃ s err, UnmarshalItem env (gas + 1) item (.ptr t) (.ptr (some prior))
          = .done (.ptr (some s)) err ∧
        getAt s [e] = .ptr none) := by
  obtain ⟨s, err, hcall, _, hvalue, hframe⟩ := unmarshalItem_struct_run env hperm gas item t
    prior hk hhook fields s0 ferr hfields hret
  obtain ⟨_, _, _, hkept⟩ := fieldsInStruct_zero_kept env gas _ fields s0 ferr hk hfields
  refine ⟨?_, ?_, ?_⟩
  · intro d fd td hd hrole hexp hname hlast
    subst hname
    have hlook := fieldsInStruct_lookup_direct env gas _ _ fields s0 ferr hk hfields d fd td hd
      hrole hlast
    have hnu : fieldRole env fd td ≠ .unfolded := by rw [hrole]; decide
    obtain ⟨hzero, hvalid⟩ := hkept d fd td hd hnu
    have hmem := mem_of_tableGet hlook
    obtain ⟨v, ed, hdec⟩ := hret _ hmem av hX
    have hv := hvalue _ hmem av v ed hX hdec hvalid
    refine ⟨s, err, v, ed, hcall, ?_, hv, ?_⟩
    · simp only [fieldDecode, directRef, hexp, hzero] at hdec
      simpa using hdec
    · intro e fe te j fj tj he hre hval hj hrj hnamej
      have hnuj : fieldRole env fj tj ≠ .unfolded := by rw [hrj]; decide
      rw [hframe [e, j]]
      · exact (promoted_zero env gas _ fields s0 ferr hk hfields e fe te he hre hval j fj tj hj
          hnuj).1
      · intro x hx _
        refine promoted_shadowed env gas _ fields s0 ferr hk hfields e fe te he hre hval j fj tj
          hj hrj (directRef env d fd td) (by rw [hnamej]; exact hlook) ?_ x hx
        simp [directRef]
  · intro e fe te j fj tj he hre hval hno hfirst hj hrj hexp hname hlast
    subst hname
    obtain ⟨g1, innerT, sE, eE, hE, _, _, _, hlookup⟩ :=
      fieldsInStruct_embedded env gas _ fields s0 ferr hk hfields e fe te he hre hval
    have hinner := fieldsInStruct_lookup_direct env g1 _ _ innerT sE eE
      (embeddedStruct_kind hre) hE j fj tj hj hrj hlast
    have hlook := hlookup _ _ hinner hno hfirst
    have hnuj : fieldRole env fj tj ≠ .unfolded := by rw [hrj]; decide
    obtain ⟨hzero, hvalid⟩ := promoted_zero env gas _ fields s0 ferr hk hfields e fe te he hre
      hval j fj tj hj hnuj
    have hmem := mem_of_tableGet hlook
    obtain ⟨v, ed, hdec⟩ := hret _ hmem av hX
    have hv := hvalue _ hmem av v ed hX hdec (by simpa [directRef] using hvalid)
    refine ⟨s, err, v, ed, hcall, ?_, by simpa [directRef] using hv⟩
    simp only [fieldDecode, directRef, hexp, hzero] at hdec
    simpa using hdec
  · intro e fe te he hanon hexp hptr
    have hres : resolve env te = te := resolve_of_kind_ptr env hptr
    have hnu : fieldRole env fe te ≠ .unfolded := by
      intro hu
      obtain ⟨_, _, hkind⟩ := fieldRole_unfolded hu
      rw [hres] at hkind
      rcases hkind with hs | ⟨_, _, hex⟩
      · rw [hptr] at hs; cases hs
      · rw [hexp] at hex; cases hex
    refine ⟨s, err, hcall, ?_⟩
    rw [readonly_field_kept env gas item _ fields s0 ferr hk hfields hret e fe te he hnu
      (by simp [directRef, hexp, hanon]) s hvalue hframe]
    exact zero_of_kind_ptr te hptr

/-- An instance, after the test "exported pointer embedded struct clobber" with the embedded
pointer declared first: the key "Embedded" sets the field `Embedded` of the struct, and the
field `Embedded` of the allocated `ExportedEmbedded` stays false. -/
theorem UnmarshalItem_promotion_witness :
    UnmarshalItem Env.sample 4 [("Embedded", .S "OK")]
        (.ptr (.struct [(⟨"ExportedEmbedded", "", true, true⟩,
            .ptr (.struct [(⟨"Embedded", "", false, true⟩, .bool)])),
          (⟨"Embedded", "", false, true⟩, .string)]))
        (.ptr (some (.struct [.ptr none, .string "old"])))
      = .done (.ptr (some (.struct [.ptr (some (.struct [.bool false])), .string "OK"]))) none ∧
    getAt (.struct [.ptr (some (.struct [.bool false])), .string "OK"]) [1] = .string "OK" ∧
    getAt (.struct [.ptr (some (.struct [.bool false])), .string "OK"]) [0, 0] = zero .bool := by
  obtain ⟨s, err, v, ed, hcall, hdec, hv, hz⟩ := (UnmarshalItem_promotion Env.sample
    (fun T => List.Perm.refl T) 3 [("Embedded", .S "OK")]
    (.struct [(⟨"ExportedEmbedded", "", true, true⟩,
        .ptr (.struct [(⟨"Embedded", "", false, true⟩, .bool)])),
      (⟨"Embedded", "", false, true⟩, .string)])
    (.struct [.ptr none, .string "old"]) rfl rfl
    [("Embedded", ⟨[1], .string, false, false⟩)]
    (.struct [.ptr (some (.struct [.bool false])), .string ""]) none rfl
    (by
      intro x hx av hav
      simp only [List.mem_singleton] at hx
      subst hx
      have h0 : Item.get [("Embedded", .S "OK")] "Embedded" = some (.S "OK") := rfl
      have h1 := h0.symm.trans hav
      cases h1
      exact ⟨_, _, rfl⟩)
    "Embedded" (.S "OK") rfl).1 1 ⟨"Embedded", "", false, true⟩ .string rfl rfl rfl rfl
    (by
      intro j f1 ft1 hj hdecl
      match j, hj, hdecl with
      | j + 2, _, hdecl => simp [GoType.fields] at hdecl)
  have hval : UnmarshalItem Env.sample 4 [("Embedded", .S "OK")]
      (.ptr (.struct [(⟨"ExportedEmbedded", "", true, true⟩,
          .ptr (.struct [(⟨"Embedded", "", false, true⟩, .bool)])),
        (⟨"Embedded", "", false, true⟩, .string)]))
      (.ptr (some (.struct [.ptr none, .string "old"])))
      = .done (.ptr (some (.struct [.ptr (some (.struct [.bool false])), .string "OK"]))) none :=
    rfl
  have hz0 := hz 0 ⟨"ExportedEmbedded", "", true, true⟩
    (.ptr (.struct [(⟨"Embedded", "", false, true⟩, .bool)])) 0
    ⟨"Embedded", "", false, true⟩ .bool rfl rfl (fun h => absurd rfl h) rfl rfl rfl
  have hd0 : unmarshalReflect Env.sample 3 (.S "OK") ⟨resolve Env.sample .string,
      zero .string, true, false, false⟩ = .done (.string "OK") none := rfl
  rw [hd0] at hdec
  simp only [Outcome.done.injEq] at hdec
  rw [hval] at hcall
  simp only [Outcome.done.injEq, Value.ptr.injEq, Option.some.injEq] at hcall
  obtain ⟨hs, _⟩ := hcall
  subst hs
  rw [← hdec.1] at hv
  exact ⟨hval, hv, hz0⟩

/-! ### C12 -/

/-- C12, as stated, fails: of two directly declared fields that a directive renames to the
same wire name "X", the table designates the later one (`fields[name] = fv` overwrites), which
is the one decoded; the earlier one stays zero. -/
theorem later_direct_field_wins :
    fieldsInStruct Env.sample 1
        (.struct [(⟨"A", "X", false, true⟩, .string), (⟨"B", "X", false, true⟩, .string)])
        (.struct [.string "", .string ""])
      = .done ([("X", ⟨[1], .string, false, false⟩)], .struct [.string "", .string ""]) none ∧
    UnmarshalItem Env.sample 2 [("X", .S "v")]
        (.ptr (.struct [(⟨"A", "X", false, true⟩, .string),
          (⟨"B", "X", false, true⟩, .string)]))
        (.ptr (some (.struct [.string "", .string ""])))
      = .done (.ptr (some (.struct [.string "", .string "v"]))) none :=
  ⟨rfl, rfl⟩

/-- C12 (amended): let the item have the wire name `X`, and let the decodes of the planned
fields return. (1) Of two entered fields of wire name `X`, the table designates the later one
(the last one so entered, taken to be exported): `UnmarshalItem` decodes the value of `X`
into it and leaves the earlier one zero. (2) When no entered field has the wire name `X`, of
two unfolded embedded structs that each have a field entered under `X`, the table designates
the field of the earlier one (the first unfolded field, its field taken to be exported):
`UnmarshalItem` decodes the value of `X` into it and leaves the field of the later one zero. -/
theorem fieldsInStruct_duplicate_names (env : Env)
    (hperm : ∀ T, (env.rangeFields T).Perm T)
    (gas : Nat) (item : Item) (t : GoType) (prior : Value)
    (hk : (resolve env t).kind = .Struct)
    (hhook : hookOf (fun m => m.unmarshalDynamoDBItem) true (resolve env t) = none)
    (fields : FieldTable) (s0 : Value) (ferr : Option Error)
    (hfields : fieldsInStruct env gas (resolve env t) (zero (resolve env t))
      = .done (fields, s0) ferr)
    (hret : ∀ x ∈ fields, ∀ av, item.get x.1 = some av →
      ∃ v e, fieldDecode (unmarshalReflect env gas) s0 av x.2 = .done v e)
    (X : String) (av : AttributeValue) (hX : item.get X = some av) :
    (∀ (d1 : Nat) (f1 : FieldDecl) (t1 : GoType) (d2 : Nat) (f2 : FieldDecl) (t2 : GoType),
      d1 < d2 →
      (resolve env t).fields[d1]? = some (f1, t1) → fieldRole env f1 t1 = .entered →
      fieldInfo f1 = X →
      (resolve env t).fields[d2]? = some (f2, t2) → fieldRole env f2 t2 = .entered →
      f2.exported = true → fieldInfo f2 = X →
      (∀ (j : Nat) (f3 : FieldDecl) (t3 : GoType), d2 < j →
        (resolve env t).fields[j]? = some (f3, t3) → fieldRole env f3 t3 = .entered →
        fieldInfo f3 ≠ X) →
      tableGet fields X = some (directRef env d2 f2 t2) ∧
      ∃ s err v ed, UnmarshalItem env (gas + 1) item (.ptr t) (.ptr (some prior))
          = .done (.ptr (some s)) err ∧
        unmarshalReflect env gas av ⟨resolve env t2, zero t2, true, false, false⟩
          = .done v ed ∧
        getAt s [d2] = v ∧ getAt s [d1] = zero t1) ∧
    (∀ (e1 : Nat) (fe1 : FieldDecl) (te1 : GoType) (j1 : Nat) (fj1 : FieldDecl) (tj1 : GoType)
      (e2 : Nat) (fe2 : FieldDecl) (te2 : GoType) (j2 : Nat) (fj2 : FieldDecl) (tj2 : GoType),
      e1 < e2 →
      (∀ (j : Nat) (f3 : FieldDecl) (t3 : GoType),
        (resolve env t).fields[j]? = some (f3, t3) → fieldRole env f3 t3 = .entered →
        fieldInfo f3 ≠ X) →
      (∀ (j : Nat) (f3 : FieldDecl) (t3 : GoType), j < e1 →
        (resolve env t).fields[j]? = some (f3, t3) → fieldRole env f3 t3 ≠ .unfolded) →
      (resolve env t).fields[e1]? = some (fe1, te1) → fieldRole env fe1 te1 = .unfolded →
      ((resolve env te1).kind ≠ .Ptr → resolve env te1 = te1) →
      (embeddedStruct env te1).fields[j1]? = some (fj1, tj1) →
      fieldRole env fj1 tj1 = .entered → fj1.exported = true → fieldInfo fj1 = X →
      (∀ (j : Nat) (f3 : FieldDecl) (t3 : GoType), j1 < j →
        (embeddedStruct env te1).fields[j]? = some (f3, t3) →
        fieldRole env f3 t3 = .entered → fieldInfo f3 ≠ X) →
      (resolve env t).fields[e2]? = some (fe2, te2) → fieldRole env fe2 te2 = .unfolded →
      ((resolve env te2).kind ≠ .Ptr → resolve env te2 = te2) →
      (embeddedStruct env te2).fields[j2]? = some (fj2, tj2) →
      fieldRole env fj2 tj2 = .entered → fieldInfo fj2 = X →
      tableGet fields X = some { directRef env j1 fj1 tj1 with path := [e1, j1] } ∧
      ∃ s err v ed, UnmarshalItem env (gas + 1) item (.ptr t) (.ptr (some prior))
          = .done (.ptr (some s)) err ∧
        unmarshalReflect env gas av ⟨resolve env tj1, zero tj1, true, false, false⟩
          = .done v ed ∧
        getAt s [e1, j1] = v ∧ getAt s [e2, j2] = zero tj2) := by
  obtain ⟨s, err, hcall, _, hvalue, hframe⟩ := unmarshalItem_struct_run env hperm gas item t
    prior hk hhook fields s0 ferr hfields hret
  obtain ⟨_, _, _, hkept⟩ := fieldsInStruct_zero_kept env gas _ fields s0 ferr hk hfields
  refine ⟨?_, ?_⟩
  · intro d1 f1 t1 d2 f2 t2 hlt hd1 hr1 hn1 hd2 hr2 hexp hn2 hlast
    subst hn2
    have hlook := fieldsInStruct_lookup_direct env gas _ _ fields s0 ferr hk hfields d2 f2 t2 hd2
      hr2 hlast
    have hnu1 : fieldRole env f1 t1 ≠ .unfolded := by rw [hr1]; decide
    have hnu2 : fieldRole env f2 t2 ≠ .unfolded := by rw [hr2]; decide
    obtain ⟨hzero, hvalid⟩ := hkept d2 f2 t2 hd2 hnu2
    have hmem := mem_of_tableGet hlook
    obtain ⟨v, ed, hdec⟩ := hret _ hmem av hX
    have hv := hvalue _ hmem av v ed hX hdec hvalid
    refine ⟨hlook, s, err, v, ed, hcall, ?_, hv, ?_⟩
    · simp only [fieldDecode, directRef, hexp, hzero] at hdec
      simpa using hdec
    · rw [hframe [d1], (hkept d1 f1 t1 hd1 hnu1).1]
      intro x hx _
      refine direct_shadowed env gas _ fields s0 ferr hk hfields d1 f1 t1 hd1 hnu1 ?_ x hx
      intro r hr
      rw [hn1, hlook] at hr
      simp only [Option.some.injEq] at hr
      rw [← hr]
      simp only [directRef, ne_eq, List.cons.injEq, and_true]
      omega
  · intro e1 fe1 te1 j1 fj1 tj1 e2 fe2 te2 j2 fj2 tj2 hlt hno hfirst he1 hre1 hval1 hj1 hrj1
      hexp hn1 hlast he2 hre2 hval2 hj2 hrj2 hn2
    subst hn1
    obtain ⟨g1, innerT, sE, eE, hE, _, _, _, hlookup⟩ :=
      fieldsInStruct_embedded env gas _ fields s0 ferr hk hfields e1 fe1 te1 he1 hre1 hval1
    have hinner := fieldsInStruct_lookup_direct env g1 _ _ innerT sE eE
      (embeddedStruct_kind hre1) hE j1 fj1 tj1 hj1 hrj1 hlast
    have hlook := hlookup _ _ hinner hno hfirst
    have hnuj1 : fieldRole env fj1 tj1 ≠ .unfolded := by rw [hrj1]; decide
    have hnuj2 : fieldRole env fj2 tj2 ≠ .unfolded := by rw [hrj2]; decide
    obtain ⟨hzero, hvalid⟩ := promoted_zero env gas _ fields s0 ferr hk hfields e1 fe1 te1 he1
      hre1 hval1 j1 fj1 tj1 hj1 hnuj1
    have hmem := mem_of_tableGet hlook
    obtain ⟨v, ed, hdec⟩ := hret _ hmem av hX
    have hv := hvalue _ hmem av v ed hX hdec (by simpa [directRef] using hvalid)
    refine ⟨by simpa [directRef] using hlook, s, err, v, ed, hcall, ?_,
      by simpa [directRef] using hv, ?_⟩
    · simp only [fieldDecode, directRef, hexp, hzero] at hdec
      simpa using hdec
    · rw [hframe [e2, j2]]
      · exact (promoted_zero env gas _ fields s0 ferr hk hfields e2 fe2 te2 he2 hre2 hval2 j2 fj2
          tj2 hj2 hnuj2).1
      · intro x hx _
        refine promoted_shadowed env gas _ fields s0 ferr hk hfields e2 fe2 te2 he2 hre2 hval2 j2
          fj2 tj2 hj2 hrj2 _ (by rw [hn2]; exact hlook) ?_ x hx
        simp only [directRef, ne_eq, List.cons.injEq, and_true, not_and]
        intro h; omega

/-- An instance: the fields `A` and `B`, both renamed to "X". -/
theorem fieldsInStruct_duplicate_names_witness :
    tableGet [("X", (⟨[1], .string, false, false⟩ : FieldRef))] "X"
      = some ⟨[1], .string, false, false⟩ ∧
    UnmarshalItem Env.sample 2 [("X", .S "v")]
        (.ptr (.struct [(⟨"A", "X", false, true⟩, .string),
          (⟨"B", "X", false, true⟩, .string)]))
        (.ptr (some (.struct [.string "p", .string "q"])))
      = .done (.ptr (some (.struct [.string "", .string "v"]))) none ∧
    getAt (.struct [.string "", .string "v"]) [1] = .string "v" ∧
    getAt (.struct [.string "", .string "v"]) [0] = zero .string := by
  obtain ⟨hlook, s, err, v, ed, hcall, hdec, hv, hz⟩ := (fieldsInStruct_duplicate_names
    Env.sample (fun T => List.Perm.refl T) 1 [("X", .S "v")]
    (.struct [(⟨"A", "X", false, true⟩, .string), (⟨"B", "X", false, true⟩, .string)])
    (.struct [.string "p", .string "q"]) rfl rfl
    [("X", ⟨[1], .string, false, false⟩)]
    (.struct [.string "", .string ""]) none rfl
    (by
      intro x hx av hav
      simp only [List.mem_singleton] at hx
      subst hx
      have h0 : Item.get [("X", .S "v")] "X" = some (.S "v") := rfl
      have h1 := h0.symm.trans hav
      cases h1
      exact ⟨_, _, rfl⟩)
    "X" (.S "v") rfl).1 0 ⟨"A", "X", false, true⟩ .string 1 ⟨"B", "X", false, true⟩ .string
    (by decide) rfl rfl rfl rfl rfl rfl rfl
    (by
      intro j f1 ft1 hj hdecl
      match j, hj, hdecl with
      | j + 2, _, hdecl => simp [GoType.fields] at hdecl)
  have hval : UnmarshalItem Env.sample 2 [("X", .S "v")]
      (.ptr (.struct [(⟨"A", "X", false, true⟩, .string),
        (⟨"B", "X", false, true⟩, .string)]))
      (.ptr (some (.struct [.string "p", .string "q"])))
      = .done (.ptr (some (.struct [.string "", .string "v"]))) none := rfl
  have hd0 : unmarshalReflect Env.sample 1 (.S "v") ⟨resolve Env.sample .string,
      zero .string, true, false, false⟩ = .done (.string "v") none := rfl
  rw [hd0] at hdec
  simp only [Outcome.done.injEq] at hdec
  rw [hval] at hcall
  simp only [Outcome.done.injEq, Value.ptr.injEq, Option.some.injEq] at hcall
  obtain ⟨hs, _⟩ := hcall
  subst hs
  rw [← hdec.1] at hv
  exact ⟨hlook, hval, hv, hz⟩

/-! ### Sequences -/

theorem tryInterface_none_of_kind (env : Env) (av : AttributeValue) (rv : RV)
    (hset : rv.canSet = true) (hns : rv.typ.kind ≠ .Struct)
    (hu : implementsUnmarshaler rv.typ = false)
    (ht : implementsTextUnmarshaler rv.typ = true → ∀ s, av ≠ .S s) :
    tryInterface env av rv = none := by
  apply tryInterface_none env _ rv (canSet_flags hset).1
  · intro h; exact absurd (kind_of_isTime h) hns
  · intro k h; exact absurd (kind_of_avMember h) hns
  · exact hu
  · exact ht

theorem decodeElems_forall2 (dec : AttributeValue → RV → Outcome Value) (elemType : GoType)
    {list : List AttributeValue} {vs : List Value}
    (h : List.Forall₂ (fun av v => dec av (RV.fresh elemType) = .done v none) list vs) :
    decodeElems dec elemType list = .done vs none := by
  induction h with
  | nil => rfl
  | cons h1 _ ih => simp only [decodeElems, h1, ih]

theorem unmarshalReflect_null_fresh (env : Env) (gas : Nat) (b : Bool) (t : GoType)
    (hk : t.kind = .Ptr) (hu : implementsUnmarshaler t = false) :
    unmarshalReflect env (gas + 1) (.NULL b) (RV.fresh t) = .done (.ptr none) none := by
  have hset : (RV.fresh t).canSet = true := rfl
  rw [unmarshalReflect_eq_shapeDirected]
  · simp only [shapeDirected, hset, AttributeValue.member, not_true_eq_false, if_false, if_true]
    rw [show (RV.fresh t).typ = t from rfl, zero_of_kind_ptr t hk]
  · apply tryInterface_none_of_kind env _ _ hset
    · rw [show (RV.fresh t).typ = t from rfl, hk]; simp
    · exact hu
    · intro _ s; simp

theorem forall2_replicate {α β : Type} (R : α → β → Prop) (a : α) (b : β) (h : R a b) :
    ∀ n : Nat, List.Forall₂ R (List.replicate n a) (List.replicate n b)
  | 0 => List.Forall₂.nil
  | n + 1 => List.Forall₂.cons h (forall2_replicate R a b h n)

theorem unmarshalReflect_slice_list (env : Env) (gas : Nat) (rv : RV)
    (hset : rv.canSet = true) (hkind : rv.typ.kind = .Slice)
    (hu : implementsUnmarshaler rv.typ = false)
    (list : List AttributeValue) (vs : List Value)
    (h : List.Forall₂ (fun av v =>
      unmarshalReflect env gas av (RV.fresh (resolve env rv.typ.elem)) = .done v none) list vs) :
    unmarshalReflect env (gas + 2) (.L list) rv = .done (.slice (some vs)) none := by
  rw [unmarshalReflect_eq_shapeDirected]
  · simp only [shapeDirected, hset, hkind, AttributeValue.member, not_true_eq_false, if_false,
      unmarshalSlice, sliceBody, decodeElems_forall2 _ _ h]
    simp
  · apply tryInterface_none_of_kind env _ _ hset
    · rw [hkind]; simp
    · exact hu
    · intro _ s; simp

/-! ### C16 -/

/-- C16: for a settable slice destination without a full-value hook and a List whose elements
each decode, with nil error, into a fresh zero element, `unmarshalReflect` returns nil and the
destination becomes the non-nil slice of exactly the decoded elements, in order; an empty List
gives an empty slice that is not nil, and Null elements give nil pointers when the elements are
pointers. -/
theorem unmarshalReflect_list_into_slice (env : Env) (gas : Nat) (rv : RV)
    (hset : rv.canSet = true) (hkind : rv.typ.kind = .Slice)
    (hu : implementsUnmarshaler rv.typ = false) :
    (∀ (list : List AttributeValue) (vs : List Value),
      List.Forall₂ (fun av v =>
        unmarshalReflect env gas av (RV.fresh (resolve env rv.typ.elem)) = .done v none)
        list vs →
      unmarshalReflect env (gas + 2) (.L list) rv = .done (.slice (some vs)) none ∧
      vs.length = list.length) ∧
    unmarshalReflect env (gas + 2) (.L []) rv = .done (.slice (some [])) none ∧
    ((resolve env rv.typ.elem).kind = .Ptr →
      implementsUnmarshaler (resolve env rv.typ.elem) = false →
      ∀ (b : Bool) (n : Nat),
        unmarshalReflect env (gas + 3) (.L (List.replicate n (.NULL b))) rv =
          .done (.slice (some (List.replicate n (.ptr none)))) none) := by
  refine ⟨fun list vs h => ⟨unmarshalReflect_slice_list env gas rv hset hkind hu list vs h,
    h.length_eq.symm⟩,
    unmarshalReflect_slice_list env gas rv hset hkind hu [] [] List.Forall₂.nil, ?_⟩
  intro hk hue b n
  exact unmarshalReflect_slice_list env (gas + 1) rv hset hkind hu _ _
    (forall2_replicate (fun av v =>
      unmarshalReflect env (gas + 1) av (RV.fresh (resolve env rv.typ.elem)) = .done v none)
      (.NULL b) (.ptr none) (unmarshalReflect_null_fresh env gas b _ hk hue) n)

/-- An instance, the test "slice with nil": the List of Null, 0, Null, 1337, Null into a
`[]*int64`. -/
theorem unmarshalReflect_list_into_slice_witness :
    RV.canSet ⟨.slice (.ptr (.int .s64)), .slice none, true, false, false⟩ = true ∧
    unmarshalReflect Env.sample 4
        (.L [.NULL true, .N "0", .NULL true, .N "1337", .NULL true])
        ⟨.slice (.ptr (.int .s64)), .slice none, true, false, false⟩
      = .done (.slice (some [.ptr none, .ptr (some (.int 0)), .ptr none,
          .ptr (some (.int 1337)), .ptr none])) none :=
  ⟨rfl, ((unmarshalReflect_list_into_slice Env.sample 2
    ⟨.slice (.ptr (.int .s64)), .slice none, true, false, false⟩ rfl rfl rfl).1
    [.NULL true, .N "0", .NULL true, .N "1337", .NULL true]
    [.ptr none, .ptr (some (.int 0)), .ptr none, .ptr (some (.int 1337)), .ptr none]
    (.cons rfl (.cons rfl (.cons rfl (.cons rfl (.cons rfl .nil)))))).1⟩

/-! ### C17 -/

/-- C17: for a settable array destination of length `k` without a full-value hook, a List or
a Binary of more than `k` elements gives an error and leaves the destination as it was; a List
of `m ≤ k` elements that all decode gives the decoded elements at the positions `0..m-1` and
the zero value of the element type at `m..k-1`, whatever the array held before, and so does a
Binary of `m ≤ k` bytes for an array of `uint8`. -/
theorem unmarshalReflect_array_capacity (env : Env) (gas : Nat) (rv : RV)
    (hset : rv.canSet = true) (hkind : rv.typ.kind = .Array)
    (hu : implementsUnmarshaler rv.typ = false) :
    (∀ x : Bytes, rv.typ.len < x.length →
      unmarshalReflect env (gas + 1) (.B x) rv =
        .done rv.val (some (.tooSmall (avTypeName (.B x)) rv.typ.len x.length))) ∧
    (∀ x : List AttributeValue, rv.typ.len < x.length →
      unmarshalReflect env (gas + 1) (.L x) rv =
        .done rv.val (some (.tooSmall (avTypeName (.L x)) rv.typ.len x.length))) ∧
    (∀ (x : List AttributeValue) (vs : List Value), x.length ≤ rv.typ.len →
      List.Forall₂ (fun av v =>
        unmarshalReflect env gas av (RV.fresh (resolve env rv.typ.elem)) = .done v none) x vs →
      unmarshalReflect env (gas + 1) (.L x) rv =
        .done (.array (vs ++ List.replicate (rv.typ.len - x.length)
          (zero (resolve env rv.typ.elem)))) none) ∧
    (∀ x : Bytes, x.length ≤ rv.typ.len → (resolve env rv.typ.elem).isUint8 = true →
      unmarshalReflect env (gas + 1) (.B x) rv =
        .done (.array (x.map Value.uint ++
          List.replicate (rv.typ.len - x.length) (Value.uint 0))) none) := by
  have hshape : ∀ av : AttributeValue, (∀ s, av ≠ .S s) →
      unmarshalReflect env (gas + 1) av rv =
        shapeDirected env (unmarshalReflect env gas) (unmarshalSlice env gas)
          (unmarshalItem env gas) av rv := by
    intro av hav
    apply unmarshalReflect_eq_shapeDirected
    apply tryInterface_none_of_kind env _ _ hset
    · rw [hkind]; simp
    · exact hu
    · intro _; exact hav
  refine ⟨?_, ?_, ?_, ?_⟩
  · intro x hx
    rw [hshape _ (by intro s; simp)]
    simp [shapeDirected, hset, hkind, AttributeValue.member, hx]
  · intro x hx
    rw [hshape _ (by intro s; simp)]
    simp [shapeDirected, hset, hkind, AttributeValue.member, hx]
  · intro x vs hx h
    rw [hshape _ (by intro s; simp)]
    have hlen : vs.length = x.length := h.length_eq.symm
    simp [shapeDirected, hset, hkind, AttributeValue.member, Nat.not_lt.mpr hx,
      decodeElems_forall2 _ _ h, hlen]
  · intro x hx h8
    rw [hshape _ (by intro s; simp)]
    simp [shapeDirected, hset, hkind, AttributeValue.member, Nat.not_lt.mpr hx, h8]

/-- An instance, after the tests "array" and "byte array": three elements into a `[2]string`
are rejected, one element into a `[3]string` that held other strings leaves two empty strings,
and two bytes into a `[4]byte` leave two zero bytes. -/
theorem unmarshalReflect_array_capacity_witness :
    RV.canSet ⟨.array 3 .string, .array [.string "x", .string "y", .string "z"], true, false,
      false⟩ = true ∧
    unmarshalReflect Env.sample 2 (.L [.S "a", .S "b", .S "c"])
        ⟨.array 2 .string, .array [.string "x", .string "y"], true, false, false⟩
      = .done (.array [.string "x", .string "y"]) (some (.tooSmall "list" 2 3)) ∧
    unmarshalReflect Env.sample 2 (.L [.S "a"])
        ⟨.array 3 .string, .array [.string "x", .string "y", .string "z"], true, false, false⟩
      = .done (.array [.string "a", .string "", .string ""]) none ∧
    unmarshalReflect Env.sample 2 (.B [116, 101])
        ⟨.array 4 (.uint .s8), .array [.uint 9, .uint 9, .uint 9, .uint 9], true, false, false⟩
      = .done (.array [.uint 116, .uint 101, .uint 0, .uint 0]) none :=
  ⟨rfl,
   (unmarshalReflect_array_capacity Env.sample 1
    ⟨.array 2 .string, .array [.string "x", .string "y"], true, false, false⟩ rfl rfl rfl).2.1
      [.S "a", .S "b", .S "c"] (by decide),
   (unmarshalReflect_array_capacity Env.sample 1
    ⟨.array 3 .string, .array [.string "x", .string "y", .string "z"], true, false, false⟩
      rfl rfl rfl).2.2.1 [.S "a"] [.string "a"] (by decide) (.cons rfl .nil),
   (unmarshalReflect_array_capacity Env.sample 1
    ⟨.array 4 (.uint .s8), .array [.uint 9, .uint 9, .uint 9, .uint 9], true, false, false⟩
      rfl rfl rfl).2.2.2 [116, 101] (by decide) rfl⟩

/-! ### C18 -/

/-- C18, as stated, fails: a StringSet of one member is not accepted by a `[1]string`, while
the slice `[]string` accepts it. -/
theorem string_set_into_array_is_rejected :
    unmarshalReflect Env.sample 2 (.SS ["a"]) (RV.fresh (.array 1 .string))
      = .done (.array [.string ""])
          (some (.cannotUnmarshalToType (.array 1 .string) (.array [.string ""]))) ∧
    unmarshalReflect Env.sample 3 (.SS ["a"]) (RV.fresh (.slice .string))
      = .done (.slice (some [.string "a"])) none :=
  ⟨rfl, rfl⟩

/-- C18 (amended): arrays accept only Binary and List. For a settable array destination
without a full-value hook, every StringSet, NumberSet and BinarySet, whatever its size and the
element type of the array, gives the error "cannot unmarshal to type" and leaves the
destination as it was. -/
theorem unmarshalReflect_array_rejects_sets (env : Env) (gas : Nat) (rv : RV)
    (hset : rv.canSet = true) (hkind : rv.typ.kind = .Array)
    (hu : implementsUnmarshaler rv.typ = false) (av : AttributeValue)
    (hav : av.member = some .SS ∨ av.member = some .NS ∨ av.member = some .BS) :
    unmarshalReflect env (gas + 1) av rv =
      .done rv.val (some (.cannotUnmarshalToType rv.typ rv.val)) := by
  rw [unmarshalReflect_eq_shapeDirected]
  · rcases hav with h | h | h <;> cases av <;> simp [AttributeValue.member] at h <;>
      simp [shapeDirected, hset, hkind, AttributeValue.member, cannotUnmarshalToType]
  · apply tryInterface_none_of_kind env _ _ hset
    · rw [hkind]; simp
    · exact hu
    · intro _ s hs; subst hs; simp [AttributeValue.member] at hav

/-- An instance: a NumberSet into a `[2]int`. -/
theorem unmarshalReflect_array_rejects_sets_witness :
    RV.canSet (RV.fresh (.array 2 (.int .platform))) = true ∧
    unmarshalReflect Env.sample 1 (.NS ["1", "2"]) (RV.fresh (.array 2 (.int .platform)))
      = .done (.array [.int 0, .int 0])
          (some (.cannotUnmarshalToType (.array 2 (.int .platform)) (.array [.int 0, .int 0]))) :=
  ⟨rfl, unmarshalReflect_array_rejects_sets Env.sample 0 (RV.fresh (.array 2 (.int .platform)))
    rfl rfl rfl (.NS ["1", "2"]) (Or.inr (Or.inl rfl))⟩

/-! ### C19 -/

/-- C19 (the code departs from it): for a map whose element type is a defined boolean type
(`type Flag bool`), the switch on `Kind() == reflect.Bool` chooses `reflect.ValueOf(true)`, of
type `bool`, and `SetMapIndex` panics on the first member of a StringSet because a `bool` is
not assignable to the defined type; with the element type `bool` itself the same StringSet is
decoded. -/
theorem unmarshalReflect_string_set_defined_bool (env : Env) (gas : Nat) (name : String)
    (s : String) (rest : List String) :
    unmarshalReflect env (gas + 1) (.SS (s :: rest))
        (RV.fresh (.map .string (.named name Methods.none .bool)))
      = .panic "reflect.Value.SetMapIndex: value of type bool is not assignable" ∧
    unmarshalReflect env (gas + 1) (.SS [s]) (RV.fresh (.map .string .bool))
      = .done (.map (some [(.string s, .bool true)])) none :=
  ⟨rfl, rfl⟩

/-! ### C20 -/

theorem resolve_of_kind_map (env : Env) {t : GoType} (h : t.kind = .Map) : resolve env t = t := by
  cases t <;> first | rfl | simp [GoType.kind, OtherKind.kind] at h

/-- C20 (the code departs from it): the map case of `unmarshalReflect` does not check the key
type, while the map case of `unmarshalItem` does. For a settable map destination whose key
type is not of kind string and has no text hook, `unmarshalReflect` returns nil for the empty
Map, and panics in `kv.SetString` on the first entry of a Map whose value decodes;
`UnmarshalItem` returns the error "map key must be a string" for every item. -/
theorem unmarshalReflect_map_key_unchecked (env : Env) (gas : Nat) (t : GoType) (m : Value)
    (hkind : t.kind = .Map)
    (hu : implementsUnmarshaler t = false)
    (hitem : hookOf (fun m => m.unmarshalDynamoDBItem) true t = none)
    (hkey : (resolve env t.key).kind ≠ .String)
    (hkt : implementsTextUnmarshaler (resolve env t.key) = false) :
    unmarshalReflect env (gas + 1) (.M []) ⟨t, m, true, false, false⟩
      = .done (.map (some m.entries)) none ∧
    (∀ (k : String) (v : AttributeValue) (rest : List (String × AttributeValue)) (inner : Value),
      unmarshalReflect env gas v (RV.fresh (resolve env t.elem)) = .done inner none →
      unmarshalReflect env (gas + 1) (.M ((k, v) :: rest)) ⟨t, m, true, false, false⟩
        = .panic "reflect: call of reflect.Value.SetString on non-string Value") ∧
    (∀ item : Item, UnmarshalItem env (gas + 1) item (.ptr t) (.ptr (some m))
        = .done (.ptr (some m)) (some (.mapKeyMustBeString t))) := by
  have hset : (RV.mk t m true false false).canSet = true := rfl
  have hshape : ∀ x, unmarshalReflect env (gas + 1) (.M x) ⟨t, m, true, false, false⟩ =
        shapeDirected env (unmarshalReflect env gas) (unmarshalSlice env gas)
          (unmarshalItem env gas) (.M x) ⟨t, m, true, false, false⟩ := by
    intro x
    apply unmarshalReflect_eq_shapeDirected
    apply tryInterface_none_of_kind env _ _ hset
    · simp [hkind]
    · exact hu
    · intro _ s; simp
  have hhook : hookOf (fun m => m.unmarshalText) true (resolve env t.key) = none := by
    simp only [implementsTextUnmarshaler] at hkt
    cases h : hookOf (fun m => m.unmarshalText) true (resolve env t.key) with
    | none => rfl
    | some p => simp [h] at hkt
  refine ⟨?_, ?_, ?_⟩
  · rw [hshape]
    simp [shapeDirected, hset, hkind, AttributeValue.member, mapLoopM, Outcome.mapResult]
  · intro k v rest inner hv
    rw [hshape]
    simp [shapeDirected, hset, hkind, AttributeValue.member, mapLoopM, hv, setKey, hhook, hkey,
      Outcome.mapResult]
  · intro item
    have hnim : t.isItemMap = false := by
      cases t <;> try rfl
      rename_i a b
      cases a <;> try rfl
      cases b <;> try rfl
      exact absurd rfl hkey
    simp [UnmarshalItem, unmarshalItem, itemBody, GoType.kind, GoType.elem, hnim,
      GoType.isAwsEncoder, ifaceOf, RV.valueOf, resolve_of_kind_map env hkind, hitem, hkind, hkey]

/-- An instance: a `map[int]string`. -/
theorem unmarshalReflect_map_key_unchecked_witness :
    unmarshalReflect Env.sample 1 (.M []) ⟨.map (.int .platform) .string, .map none, true, false,
        false⟩ = .done (.map (some [])) none ∧
    unmarshalReflect Env.sample 2 (.M [("1", .S "a")])
        ⟨.map (.int .platform) .string, .map none, true, false, false⟩
      = .panic "reflect: call of reflect.Value.SetString on non-string Value" ∧
    UnmarshalItem Env.sample 1 [("1", .S "a")] (.ptr (.map (.int .platform) .string))
        (.ptr (some (.map none)))
      = .done (.ptr (some (.map none)))
          (some (.mapKeyMustBeString (.map (.int .platform) .string))) :=
  ⟨(unmarshalReflect_map_key_unchecked Env.sample 0 (.map (.int .platform) .string) (.map none)
      rfl rfl rfl (by decide) rfl).1,
   (unmarshalReflect_map_key_unchecked Env.sample 1 (.map (.int .platform) .string) (.map none)
      rfl rfl rfl (by decide) rfl).2.1 "1" (.S "a") [] (.string "a") rfl,
   (unmarshalReflect_map_key_unchecked Env.sample 0 (.map (.int .platform) .string) (.map none)
      rfl rfl rfl (by decide) rfl).2.2 [("1", .S "a")]⟩

/-! ### Elements that fail -/

theorem decodeElems_error (dec : AttributeValue → RV → Outcome Value) (elemType : GoType)
    {pre : List AttributeValue} {vs : List Value} (bad : AttributeValue)
    (post : List AttributeValue) (v : Value) (e : Error)
    (hpre : List.Forall₂ (fun av v => dec av (RV.fresh elemType) = .done v none) pre vs)
    (hbad : dec bad (RV.fresh elemType) = .done v (some e)) :
    decodeElems dec elemType (pre ++ bad :: post) = .done vs (some e) := by
  induction hpre with
  | nil => simp only [List.nil_append, decodeElems, hbad]
  | cons h1 _ ih =>
    rw [List.cons_append]
    simp only [decodeElems, h1, ih]

theorem unmarshalReflect_slice_eq (env : Env) (gas : Nat) (av : AttributeValue) (rv : RV)
    (hset : rv.canSet = true) (hkind : rv.typ.kind = .Slice)
    (hu : implementsUnmarshaler rv.typ = false)
    (ht : implementsTextUnmarshaler rv.typ = true → ∀ s, av ≠ .S s)
    (hnull : av.member ≠ some .NULL) :
    unmarshalReflect env (gas + 2) av rv = sliceBody env (unmarshalReflect env gas) av rv := by
  rw [unmarshalReflect_eq_shapeDirected]
  · simp only [shapeDirected, hset, hkind, hnull, not_true_eq_false, if_false, unmarshalSlice]
  · apply tryInterface_none_of_kind env _ _ hset
    · rw [hkind]; simp
    · exact hu
    · exact ht

/-! ### C21 -/

/-- C21 as stated fails: a `[]byte` does not require Binary, a List of Numbers is decoded into
it element by element; and Binary into a `[]int` does not return an error, `SetBytes`
panics. -/
theorem list_into_byte_slice_is_accepted :
    unmarshalReflect Env.sample 3 (.L [.N "1", .N "2"]) (RV.fresh (.slice (.uint .s8)))
      = .done (.slice (some [.uint 1, .uint 2])) none ∧
    unmarshalReflect Env.sample 2 (.B [1]) (RV.fresh (.slice (.int .platform)))
      = .panic "reflect.Value.SetBytes of non-byte slice" :=
  ⟨rfl, rfl⟩

/-- C21 (amended): for a settable slice destination without a full-value hook whose elements
are of kind `uint8`, decoding Binary returns nil and stores exactly the bytes of the source, in
order; such a slice does not require Binary: a List whose elements each decode into a fresh
zero element is stored element by element, as for every slice; and Bool, Number, String (when
the slice has no text hook) and Map are rejected with the error "cannot unmarshal ... data into
slice" and leave the destination as it was. -/
theorem unmarshalReflect_binary_into_slice (env : Env) (gas : Nat) (rv : RV)
    (hset : rv.canSet = true) (hkind : rv.typ.kind = .Slice)
    (hu : implementsUnmarshaler rv.typ = false)
    (hbyte : (resolve env rv.typ.elem).kind = .Uint8) :
    (∀ x : Bytes, unmarshalReflect env (gas + 2) (.B x) rv = .done (bytesValue x) none) ∧
    (∀ (list : List AttributeValue) (vs : List Value),
      List.Forall₂ (fun av v =>
        unmarshalReflect env gas av (RV.fresh (resolve env rv.typ.elem)) = .done v none)
        list vs →
      unmarshalReflect env (gas + 2) (.L list) rv = .done (.slice (some vs)) none) ∧
    (∀ av : AttributeValue,
      av.member = some .BOOL ∨ av.member = some .N ∨ av.member = some .M ∨
        (av.member = some .S ∧ implementsTextUnmarshaler rv.typ = false) →
      unmarshalReflect env (gas + 2) av rv =
        .done rv.val (some (.cannotUnmarshal (avTypeName av) "slice"))) := by
  refine ⟨?_, ?_, ?_⟩
  · intro x
    rw [unmarshalReflect_slice_eq env gas _ rv hset hkind hu (by intro _ s; simp)
      (by simp [AttributeValue.member])]
    simp [sliceBody, hbyte]
  · intro list vs h
    exact unmarshalReflect_slice_list env gas rv hset hkind hu list vs h
  · intro av hav
    rw [unmarshalReflect_slice_eq env gas _ rv hset hkind hu
      (by
        intro ht s hs
        subst hs
        rcases hav with h | h | h | h
        · simp [AttributeValue.member] at h
        · simp [AttributeValue.member] at h
        · simp [AttributeValue.member] at h
        · rw [ht] at h; exact absurd h.2 (by simp))
      (by rcases hav with h | h | h | h <;> simp [h])]
    rcases hav with h | h | h | h <;> cases av <;> simp [AttributeValue.member] at h <;>
      simp [sliceBody]

/-- An instance, after the test "[]byte": the bytes of "hello" into a `[]byte` that held
something else, and a String into it. -/
theorem unmarshalReflect_binary_into_slice_witness :
    unmarshalReflect Env.sample 2 (.B [104, 101, 108, 108, 111])
        ⟨.slice (.uint .s8), .slice (some [.uint 7]), true, false, false⟩
      = .done (.slice (some [.uint 104, .uint 101, .uint 108, .uint 108, .uint 111])) none ∧
    unmarshalReflect Env.sample 2 (.S "hello")
        ⟨.slice (.uint .s8), .slice (some [.uint 7]), true, false, false⟩
      = .done (.slice (some [.uint 7])) (some (.cannotUnmarshal "string" "slice")) :=
  ⟨(unmarshalReflect_binary_into_slice Env.sample 0
      ⟨.slice (.uint .s8), .slice (some [.uint 7]), true, false, false⟩ rfl rfl rfl rfl).1
      [104, 101, 108, 108, 111],
   (unmarshalReflect_binary_into_slice Env.sample 0
      ⟨.slice (.uint .s8), .slice (some [.uint 7]), true, false, false⟩ rfl rfl rfl rfl).2.2
      (.S "hello") (Or.inr (Or.inr (Or.inr ⟨rfl, rfl⟩)))⟩

theorem unmarshalReflect_int_number (env : Env) (gas : Nat) (m : String) (t : GoType)
    (hk : t.kind = .Int ∨ t.kind = .Int64 ∨ t.kind = .Int32 ∨ t.kind = .Int16 ∨ t.kind = .Int8)
    (hu : implementsUnmarshaler t = false) :
    unmarshalReflect env (gas + 1) (.N m) (RV.fresh t) =
      match parseInt m 64 with
      | (_, some e) => .done (zero t) (some (.num e))
      | (n, none) => .done (.int (wrapInt t.kind.bits n)) none := by
  have hset : (RV.fresh t).canSet = true := rfl
  have htyp : (RV.fresh t).typ = t := rfl
  have hns : t.kind ≠ .Struct := by
    rcases hk with h | h | h | h | h <;> simp [h]
  rw [unmarshalReflect_eq_shapeDirected]
  · simp only [shapeDirected, hset, AttributeValue.member, htyp]
    rcases hk with h | h | h | h | h <;> simp [h] <;> rfl
  · apply tryInterface_none_of_kind env _ _ hset (by rw [htyp]; exact hns) (by rw [htyp]; exact hu)
    intro _ s; simp

theorem decodeElems_int_error (env : Env) (gas : Nat) (t : GoType)
    (hk : t.kind = .Int ∨ t.kind = .Int64 ∨ t.kind = .Int32 ∨ t.kind = .Int16 ∨ t.kind = .Int8)
    (hu : implementsUnmarshaler t = false) :
    ∀ members : List String, (∃ m ∈ members, (parseInt m 64).2 ≠ none) →
      ∃ vs e, decodeElems (unmarshalReflect env (gas + 1)) t (members.map AttributeValue.N)
        = .done vs (some e) := by
  intro members
  induction members with
  | nil => rintro ⟨m, hm, _⟩; simp at hm
  | cons hd rest ih =>
    rintro ⟨m, hm, hbad⟩
    simp only [List.map_cons, decodeElems, unmarshalReflect_int_number env gas hd t hk hu]
    cases hp : parseInt hd 64 with
    | mk n oe =>
      cases oe with
      | some e => exact ⟨[], _, rfl⟩
      | none =>
        have hrest : ∃ m ∈ rest, (parseInt m 64).2 ≠ none := by
          simp only [List.mem_cons] at hm
          rcases hm with rfl | hm
          · rw [hp] at hbad; exact absurd rfl hbad
          · exact ⟨m, hm, hbad⟩
        obtain ⟨vs, e, hdec⟩ := ih hrest
        simp only [hdec]
        exact ⟨_, _, rfl⟩

/-! ### C24 -/

/-- C24 (the code departs from it): the NumberSet case of `unmarshalSlice` answers the error
of a member with `return nil`. For a settable slice destination without a full-value hook, a
NumberSet in which a member fails to decode after members that decode gives a nil error and
leaves the destination as it was; so does, for elements of a signed integer kind, every
NumberSet with a member that `ParseInt` rejects. -/
theorem unmarshalReflect_number_set_error_dropped (env : Env) (gas : Nat) (rv : RV)
    (hset : rv.canSet = true) (hkind : rv.typ.kind = .Slice)
    (hu : implementsUnmarshaler rv.typ = false) :
    (∀ (pre : List String) (bad : String) (post : List String) (vs : List Value) (v : Value)
      (e : Error),
      List.Forall₂ (fun n v =>
        unmarshalReflect env gas (.N n) (RV.fresh (resolve env rv.typ.elem)) = .done v none)
        pre vs →
      unmarshalReflect env gas (.N bad) (RV.fresh (resolve env rv.typ.elem))
        = .done v (some e) →
      unmarshalReflect env (gas + 2) (.NS (pre ++ bad :: post)) rv = .done rv.val none) ∧
    (((resolve env rv.typ.elem).kind = .Int ∨ (resolve env rv.typ.elem).kind = .Int64 ∨
        (resolve env rv.typ.elem).kind = .Int32 ∨ (resolve env rv.typ.elem).kind = .Int16 ∨
        (resolve env rv.typ.elem).kind = .Int8) →
      implementsUnmarshaler (resolve env rv.typ.elem) = false →
      ∀ members : List String, (∃ m ∈ members, (parseInt m 64).2 ≠ none) →
        unmarshalReflect env (gas + 3) (.NS members) rv = .done rv.val none) := by
  refine ⟨?_, ?_⟩
  · intro pre bad post vs v e hpre hbad
    rw [unmarshalReflect_slice_eq env gas _ rv hset hkind hu (by intro _ s; simp)
      (by simp [AttributeValue.member])]
    have hpre' : List.Forall₂ (fun av v =>
        unmarshalReflect env gas av (RV.fresh (resolve env rv.typ.elem)) = .done v none)
        (pre.map AttributeValue.N) vs := by
      rw [List.forall₂_map_left_iff]; exact hpre
    have := decodeElems_error (unmarshalReflect env gas) (resolve env rv.typ.elem) (.N bad)
      (post.map AttributeValue.N) v e hpre' hbad
    simp only [sliceBody, List.map_append, List.map_cons, this]
  · intro hk hue members hbad
    rw [unmarshalReflect_slice_eq env (gas + 1) _ rv hset hkind hu (by intro _ s; simp)
      (by simp [AttributeValue.member])]
    obtain ⟨vs, e, hdec⟩ := decodeElems_int_error env gas _ hk hue members hbad
    simp only [sliceBody, hdec]

/-- An instance: the NumberSet of "1", "x" and "3" into a `[]int` that held 7. -/
theorem unmarshalReflect_number_set_error_dropped_witness :
    (∃ m ∈ ["1", "x", "3"], (parseInt m 64).2 ≠ none) ∧
    unmarshalReflect Env.sample 3 (.NS ["1", "x", "3"])
        ⟨.slice (.int .platform), .slice (some [.int 7]), true, false, false⟩
      = .done (.slice (some [.int 7])) none :=
  ⟨⟨"x", by simp, by decide⟩,
   (unmarshalReflect_number_set_error_dropped Env.sample 0
      ⟨.slice (.int .platform), .slice (some [.int 7]), true, false, false⟩ rfl rfl rfl).2
      (Or.inl rfl) rfl ["1", "x", "3"] ⟨"x", by simp, by decide⟩⟩

/-! ### C25 -/

/-- C25 (the code departs from it): the List case of the array case of `unmarshalReflect`
answers the error of an element with `return nil`. For a settable array destination of length
`k` without a full-value hook, a List of at most `k` elements in which an element fails to
decode after elements that decode gives a nil error and leaves the destination as it was. -/
theorem unmarshalReflect_array_element_error_dropped (env : Env) (gas : Nat) (rv : RV)
    (hset : rv.canSet = true) (hkind : rv.typ.kind = .Array)
    (hu : implementsUnmarshaler rv.typ = false)
    (pre : List AttributeValue) (bad : AttributeValue) (post : List AttributeValue)
    (vs : List Value) (v : Value) (e : Error)
    (hlen : (pre ++ bad :: post).length ≤ rv.typ.len)
    (hpre : List.Forall₂ (fun av v =>
      unmarshalReflect env gas av (RV.fresh (resolve env rv.typ.elem)) = .done v none) pre vs)
    (hbad : unmarshalReflect env gas bad (RV.fresh (resolve env rv.typ.elem))
      = .done v (some e)) :
    unmarshalReflect env (gas + 1) (.L (pre ++ bad :: post)) rv = .done rv.val none := by
  rw [unmarshalReflect_eq_shapeDirected]
  · have := decodeElems_error (unmarshalReflect env gas) (resolve env rv.typ.elem) bad post v e
      hpre hbad
    simp only [shapeDirected, hset, hkind, AttributeValue.member, not_true_eq_false, if_false,
      Nat.not_lt.mpr hlen, this]
    simp
  · apply tryInterface_none_of_kind env _ _ hset
    · rw [hkind]; simp
    · exact hu
    · intro _ s; simp

/-- An instance: the List of 1 and the String "x" into a `[3]int` that held 7, 8, 9. -/
theorem unmarshalReflect_array_element_error_dropped_witness :
    unmarshalReflect Env.sample 1 (.S "x") (RV.fresh (.int .platform))
      = .done (.int 0) (some (.cannotUnmarshal "string" "int")) ∧
    unmarshalReflect Env.sample 2 (.L [.N "1", .S "x"])
        ⟨.array 3 (.int .platform), .array [.int 7, .int 8, .int 9], true, false, false⟩
      = .done (.array [.int 7, .int 8, .int 9]) none :=
  ⟨rfl, unmarshalReflect_array_element_error_dropped Env.sample 1
    ⟨.array 3 (.int .platform), .array [.int 7, .int 8, .int 9], true, false, false⟩ rfl rfl rfl
    [.N "1"] (.S "x") [] [.int 1] (.int 0) (.cannotUnmarshal "string" "int") (by decide)
    (.cons rfl .nil) rfl⟩

/-! ### C28 -/

/-- C28: for a settable destination whose kind is none of pointer, bool, the signed and
unsigned integers, the floats, string, struct, map, slice and array, and whose type, if of kind
interface, has methods, and for a wire value that is not Null and that no hook takes,
`unmarshalReflect` returns the error "cannot unmarshal to type" and leaves the destination as
it was. -/
theorem unmarshalReflect_unsupported_kind (env : Env) (gas : Nat) (av : AttributeValue) (rv : RV)
    (hset : rv.canSet = true)
    (hkind : rv.typ.kind ≠ .Ptr ∧ rv.typ.kind ≠ .Bool ∧
      rv.typ.kind ≠ .Int ∧ rv.typ.kind ≠ .Int64 ∧ rv.typ.kind ≠ .Int32 ∧
      rv.typ.kind ≠ .Int16 ∧ rv.typ.kind ≠ .Int8 ∧
      rv.typ.kind ≠ .Uint ∧ rv.typ.kind ≠ .Uint64 ∧ rv.typ.kind ≠ .Uint32 ∧
      rv.typ.kind ≠ .Uint16 ∧ rv.typ.kind ≠ .Uint8 ∧
      rv.typ.kind ≠ .Float64 ∧ rv.typ.kind ≠ .Float32 ∧ rv.typ.kind ≠ .String ∧
      rv.typ.kind ≠ .Struct ∧ rv.typ.kind ≠ .Map ∧ rv.typ.kind ≠ .Slice ∧
      rv.typ.kind ≠ .Array)
    (hiface : rv.typ.kind = .Interface → rv.typ.numMethod ≠ 0)
    (hnull : av.member ≠ some .NULL)
    (hu : implementsUnmarshaler rv.typ = false)
    (ht : implementsTextUnmarshaler rv.typ = true → ∀ s, av ≠ .S s) :
    unmarshalReflect env (gas + 1) av rv =
      .done rv.val (some (.cannotUnmarshalToType rv.typ rv.val)) := by
  obtain ⟨h1, h2, h3, h4, h5, h6, h7, h8, h9, h10, h11, h12, h13, h14, h15, h16, h17, h18,
    h19⟩ := hkind
  rw [unmarshalReflect_eq_shapeDirected]
  · simp only [shapeDirected, hset, hnull, not_true_eq_false, if_false]
    cases hk : rv.typ.kind <;>
      first
      | exact absurd hk (by assumption)
      | simp [cannotUnmarshalToType, hiface hk]
      | simp [cannotUnmarshalToType]
  · exact tryInterface_none_of_kind env _ _ hset h16 hu ht

/-- An instance: a Bool into a destination of type `types.AttributeValue`, an interface with a
method, and into a channel. -/
theorem unmarshalReflect_unsupported_kind_witness :
    unmarshalReflect Env.sample 1 (.BOOL true) (RV.fresh .attributeValue)
      = .done (.iface none) (some (.cannotUnmarshalToType .attributeValue (.iface none))) ∧
    unmarshalReflect Env.sample 1 (.BOOL true) (RV.fresh (.other .chan))
      = .done .invalid (some (.cannotUnmarshalToType (.other .chan) .invalid)) :=
  ⟨unmarshalReflect_unsupported_kind Env.sample 0 (.BOOL true) (RV.fresh .attributeValue) rfl
      (by decide) (by decide) (by simp [AttributeValue.member]) rfl (by intro _ s; simp),
   unmarshalReflect_unsupported_kind Env.sample 0 (.BOOL true) (RV.fresh (.other .chan)) rfl
      (by decide) (by decide) (by simp [AttributeValue.member]) rfl (by intro _ s; simp)⟩

/-! ### C23 -/

theorem unmarshalAppend_ok (env : Env) (gas : Nat) (outType : GoType)
    (hptr : outType.kind = .Ptr) (hslice : (resolve env outType.elem).kind = .Slice)
    (item : Item) (elems : Option (List Value)) (x : Value)
    (h : UnmarshalItem env gas item (.ptr (resolve env (resolve env outType.elem).elem))
        (.ptr (some (zero (resolve env (resolve env outType.elem).elem))))
      = .done (.ptr (some x)) none) :
    unmarshalAppend env gas item outType (.ptr (some (.slice elems)))
      = .done (.ptr (some (.slice (some (elems.getD [] ++ [x]))))) none := by
  have haws : outType.isAwsEncoder = false := by
    cases outType <;> first | rfl | simp [GoType.kind] at hptr
  simp only [UnmarshalItem] at h
  simp [unmarshalAppend, haws, hptr, hslice, h]

theorem appendLoop_ok (env : Env) (gas : Nat) (outType : GoType)
    (hptr : outType.kind = .Ptr) (hslice : (resolve env outType.elem).kind = .Slice)
    {items : List Item} {xs : List Value}
    (h : List.Forall₂ (fun item x =>
      UnmarshalItem env gas item (.ptr (resolve env (resolve env outType.elem).elem))
          (.ptr (some (zero (resolve env (resolve env outType.elem).elem))))
        = .done (.ptr (some x)) none) items xs) :
    ∀ elems : List Value,
      appendLoop env gas outType items (.ptr (some (.slice (some elems))))
        = .done (.ptr (some (.slice (some (elems ++ xs))))) none := by
  induction h with
  | nil => intro elems; simp [appendLoop]
  | @cons item x rest xs1 h1 _ ih =>
    intro elems
    simp only [appendLoop, unmarshalAppend_ok env gas outType hptr hslice item (some elems) x h1,
      Option.getD_some]
    rw [ih]
    simp

/-- C23: for a pointer to a slice and an item for which `UnmarshalItem` into a pointer to a
fresh zero element returns nil, `UnmarshalAppend` returns nil and the slice is the one before
with one more element at the end, which is that decoded element (a nil slice counts as empty);
hence calls for `k` such items, starting from an empty slice, give the slice of the `k` decoded
elements in order. -/
theorem UnmarshalAppend_accumulates (env : Env) (gas : Nat) (outType : GoType)
    (hptr : outType.kind = .Ptr) (hslice : (resolve env outType.elem).kind = .Slice) :
    (∀ (item : Item) (elems : Option (List Value)) (x : Value),
      UnmarshalItem env gas item (.ptr (resolve env (resolve env outType.elem).elem))
          (.ptr (some (zero (resolve env (resolve env outType.elem).elem))))
        = .done (.ptr (some x)) none →
      UnmarshalAppend env gas item outType (.ptr (some (.slice elems)))
        = .done (.ptr (some (.slice (some (elems.getD [] ++ [x]))))) none ∧
      (elems.getD [] ++ [x]).length = (elems.getD []).length + 1 ∧
      (∀ i, i < (elems.getD []).length → (elems.getD [] ++ [x])[i]? = (elems.getD [])[i]?) ∧
      (elems.getD [] ++ [x])[(elems.getD []).length]? = some x) ∧
    (∀ (items : List Item) (xs : List Value),
      List.Forall₂ (fun item x =>
        UnmarshalItem env gas item (.ptr (resolve env (resolve env outType.elem).elem))
            (.ptr (some (zero (resolve env (resolve env outType.elem).elem))))
          = .done (.ptr (some x)) none) items xs →
      appendLoop env gas outType items (.ptr (some (.slice (some []))))
        = .done (.ptr (some (.slice (some xs)))) none ∧
      xs.length = items.length) := by
  refine ⟨?_, ?_⟩
  · intro item elems x h
    refine ⟨?_, by simp, ?_, by simp⟩
    · exact unmarshalAppend_ok env gas outType hptr hslice item elems x h
    · intro i hi
      rw [List.getElem?_append_left hi]
  · intro items xs h
    refine ⟨?_, h.length_eq.symm⟩
    simpa using appendLoop_ok env gas outType hptr hslice h []

/-- An instance, after `TestUnmarshalAppend`: two calls with an item for a struct with the
fields `User` (renamed to "UserID") and `Page`, into a nil slice and then into its result. -/
theorem UnmarshalAppend_accumulates_witness :
    UnmarshalAppend Env.sample 3 [("UserID", .N "12345"), ("Page", .N "5")]
        (.ptr (.slice (.struct [(⟨"User", "UserID", false, true⟩, .int .platform),
          (⟨"Page", "", false, true⟩, .int .platform)])))
        (.ptr (some (.slice none)))
      = .done (.ptr (some (.slice (some [.struct [.int 12345, .int 5]])))) none ∧
    UnmarshalAppend Env.sample 3 [("UserID", .N "12345"), ("Page", .N "5")]
        (.ptr (.slice (.struct [(⟨"User", "UserID", false, true⟩, .int .platform),
          (⟨"Page", "", false, true⟩, .int .platform)])))
        (.ptr (some (.slice (some [.struct [.int 12345, .int 5]]))))
      = .done (.ptr (some (.slice (some [.struct [.int 12345, .int 5],
          .struct [.int 12345, .int 5]])))) none :=
  ⟨((UnmarshalAppend_accumulates Env.sample 3
      (.ptr (.slice (.struct [(⟨"User", "UserID", false, true⟩, .int .platform),
        (⟨"Page", "", false, true⟩, .int .platform)]))) rfl rfl).1
      [("UserID", .N "12345"), ("Page", .N "5")] none (.struct [.int 12345, .int 5]) rfl).1,
   ((UnmarshalAppend_accumulates Env.sample 3
      (.ptr (.slice (.struct [(⟨"User", "UserID", false, true⟩, .int .platform),
        (⟨"Page", "", false, true⟩, .int .platform)]))) rfl rfl).1
      [("UserID", .N "12345"), ("Page", .N "5")] (some [.struct [.int 12345, .int 5]])
      (.struct [.int 12345, .int 5]) rfl).1⟩

theorem av2ifaceFloats_error (env : Env) :
    ∀ v : List String, (∃ e, av2ifaceFloats env v = .error e) ↔
      v.any (fun s => (env.parseFloat s).2.isSome) = true := by
  intro v
  induction v with
  | nil => simp [av2ifaceFloats]
  | cons n rest ih =>
    simp only [av2ifaceFloats, List.any_cons, Bool.or_eq_true]
    cases hp : env.parseFloat n with
    | mk f oe =>
      cases oe with
      | some e => simp
      | none =>
        simp only [Option.isSome_none, Bool.false_eq_true, false_or]
        rw [← ih]
        cases av2ifaceFloats env rest <;> simp

mutual
theorem av2iface_error (env : Env) :
    ∀ av : AttributeValue, (∃ e, av2iface env av = .error e) ↔ projectionFails env av = true
  | .B _ => by simp [av2iface, projectionFails]
  | .BOOL _ => by simp [av2iface, projectionFails]
  | .BS _ => by simp [av2iface, projectionFails]
  | .NULL _ => by simp [av2iface, projectionFails]
  | .S _ => by simp [av2iface, projectionFails]
  | .SS _ => by simp [av2iface, projectionFails]
  | .Unknown _ => by simp [av2iface, projectionFails]
  | .nil => by simp [av2iface, projectionFails]
  | .N s => by
    simp only [av2iface, projectionFails]
    cases hp : env.parseFloat s with
    | mk f oe => cases oe <;> simp
  | .NS v => by
    simp only [av2iface, projectionFails]
    rw [← av2ifaceFloats_error]
    cases av2ifaceFloats env v <;> simp
  | .L v => by
    simp only [av2iface, projectionFails]
    rw [← av2ifaceList_error env v]
    cases av2ifaceList env v <;> simp
  | .M v => by
    simp only [av2iface, projectionFails]
    rw [← av2ifaceMap_error env v]
    cases av2ifaceMap env v <;> simp
theorem av2ifaceList_error (env : Env) :
    ∀ v : List AttributeValue, (∃ e, av2ifaceList env v = .error e) ↔
      projectionFailsList env v = true
  | [] => by simp [av2ifaceList, projectionFailsList]
  | x :: rest => by
    simp only [av2ifaceList, projectionFailsList, Bool.or_eq_true]
    rw [← av2iface_error env x, ← av2ifaceList_error env rest]
    cases av2iface env x <;> cases av2ifaceList env rest <;> simp
theorem av2ifaceMap_error (env : Env) :
    ∀ v : List (String × AttributeValue), (∃ e, av2ifaceMap env v = .error e) ↔
      projectionFailsEntries env v = true
  | [] => by simp [av2ifaceMap, projectionFailsEntries]
  | (k, x) :: rest => by
    simp only [av2ifaceMap, projectionFailsEntries, Bool.or_eq_true]
    rw [← av2iface_error env x, ← av2ifaceMap_error env rest]
    cases av2iface env x <;> cases av2ifaceMap env rest <;> simp
end

theorem av2ifaceList_ok (env : Env) :
    ∀ (v : List AttributeValue) (list : List Value), av2ifaceList env v = .ok list →
      List.Forall₂ (fun x y => ∃ p, av2iface env x = .ok p ∧ y = Value.iface p) v list := by
  intro v
  induction v with
  | nil =>
    intro list h
    simp only [av2ifaceList, Except.ok.injEq] at h
    subst h; exact .nil
  | cons x rest ih =>
    intro list h
    simp only [av2ifaceList] at h
    cases hx : av2iface env x with
    | error e => rw [hx] at h; simp at h
    | ok p =>
      cases hr : av2ifaceList env rest with
      | error e => rw [hx, hr] at h; simp at h
      | ok l =>
        rw [hx, hr] at h
        simp only [Except.ok.injEq] at h
        subst h
        exact .cons ⟨p, hx, rfl⟩ (ih l hr)

theorem av2ifaceMap_ok (env : Env) :
    ∀ (v : List (String × AttributeValue)) (m : List (Value × Value)),
      av2ifaceMap env v = .ok m →
      List.Forall₂ (fun x y => ∃ p, av2iface env x.2 = .ok p ∧
        y = (Value.string x.1, Value.iface p)) v m := by
  intro v
  induction v with
  | nil =>
    intro m h
    simp only [av2ifaceMap, Except.ok.injEq] at h
    subst h; exact .nil
  | cons hd rest ih =>
    intro m h
    obtain ⟨k, x⟩ := hd
    simp only [av2ifaceMap] at h
    cases hx : av2iface env x with
    | error e => rw [hx] at h; simp at h
    | ok p =>
      cases hr : av2ifaceMap env rest with
      | error e => rw [hx, hr] at h; simp at h
      | ok l =>
        rw [hx, hr] at h
        simp only [Except.ok.injEq] at h
        subst h
        exact .cons ⟨p, hx, rfl⟩ (ih l hr)


/-! ### C22 -/

/-- C22: the open-value projection `av2iface`. Binary gives the bytes, Bool the bool, String
the string, a Number that parses the parsed float, Null the nil interface, a StringSet the
slice of its members in order; a List that is projected gives a slice of the same length whose
elements are the projections of its elements, in order, and a Map that is projected gives a map
with the same keys whose values are the projections of its values. The projection returns an
error exactly when a Number or a member of a NumberSet, at any depth, does not parse, or a
value at some depth is none of the ten variants; otherwise it returns a value. A settable
destination of kind interface without methods gets the projection, or is left alone with the
error. -/
theorem av2iface_projection (env : Env) :
    (∀ v, av2iface env (.B v) = .ok (some (bytesValue v))) ∧
    (∀ b, av2iface env (.BOOL b) = .ok (some (.bool b))) ∧
    (∀ s, av2iface env (.S s) = .ok (some (.string s))) ∧
    (∀ s f, env.parseFloat s = (f, none) → av2iface env (.N s) = .ok (some (.float f))) ∧
    (∀ b, av2iface env (.NULL b) = .ok none) ∧
    (∀ v, av2iface env (.SS v) = .ok (some (.slice (some (v.map Value.string))))) ∧
    (∀ v r, av2iface env (.L v) = .ok r →
      ∃ list, r = some (.slice (some list)) ∧ list.length = v.length ∧
        List.Forall₂ (fun x y => ∃ p, av2iface env x = .ok p ∧ y = Value.iface p) v list) ∧
    (∀ v r, av2iface env (.M v) = .ok r →
      ∃ m, r = some (.map (some m)) ∧
        m.map Prod.fst = v.map (fun x => Value.string x.1) ∧
        List.Forall₂ (fun x y => ∃ p, av2iface env x.2 = .ok p ∧
          y = (Value.string x.1, Value.iface p)) v m) ∧
    (∀ av, (∃ e, av2iface env av = .error e) ↔ projectionFails env av = true) ∧
    (∀ av, projectionFails env av = false → ∃ r, av2iface env av = .ok r) ∧
    (∀ (gas : Nat) (av : AttributeValue) (rv : RV), rv.canSet = true →
      rv.typ.kind = .Interface → rv.typ.numMethod = 0 →
      implementsUnmarshaler rv.typ = false →
      (implementsTextUnmarshaler rv.typ = true → ∀ s, av ≠ .S s) →
      av.member ≠ some .NULL →
      unmarshalReflect env (gas + 1) av rv =
        match av2iface env av with
        | .error e => .done rv.val (some e)
        | .ok iface => .done (.iface iface) none) := by
  refine ⟨fun _ => rfl, fun _ => rfl, fun _ => rfl, ?_, fun _ => rfl, fun _ => rfl, ?_, ?_,
    av2iface_error env, ?_, ?_⟩
  · intro s f h
    simp [av2iface, h]
  · intro v r h
    simp only [av2iface] at h
    cases hl : av2ifaceList env v with
    | error e => rw [hl] at h; simp at h
    | ok list =>
      rw [hl] at h
      simp only [Except.ok.injEq] at h
      have hf := av2ifaceList_ok env v list hl
      exact ⟨list, h.symm, hf.length_eq.symm, hf⟩
  · intro v r h
    simp only [av2iface] at h
    cases hl : av2ifaceMap env v with
    | error e => rw [hl] at h; simp at h
    | ok m =>
      rw [hl] at h
      simp only [Except.ok.injEq] at h
      have hf := av2ifaceMap_ok env v m hl
      refine ⟨m, h.symm, ?_, hf⟩
      clear hl h
      induction hf with
      | nil => rfl
      | cons h1 _ ih =>
        obtain ⟨p, _, hy⟩ := h1
        simp [hy, ih]
  · intro av h
    cases hr : av2iface env av with
    | ok r => exact ⟨r, rfl⟩
    | error e =>
      have := (av2iface_error env av).mp ⟨e, hr⟩
      rw [h] at this
      cases this
  · intro gas av rv hset hkind hnum hu ht hnull
    rw [unmarshalReflect_eq_shapeDirected]
    · simp only [shapeDirected, hset, hnull, hkind, hnum, not_true_eq_false, if_false, if_true]
    · apply tryInterface_none_of_kind env _ _ hset
      · rw [hkind]; simp
      · exact hu
      · exact ht

/-- An instance: a Map with a List is projected with its keys and elements, and a Number
inside a List, which the sample `ParseFloat` rejects, makes the projection fail. -/
theorem av2iface_projection_witness :
    av2iface Env.sample (.M [("a", .L [.S "x", .NULL true]), ("b", .BOOL true)])
      = .ok (some (.map (some [(.string "a",
          .iface (some (.slice (some [.iface (some (.string "x")), .iface none])))),
          (.string "b", .iface (some (.bool true)))]))) ∧
    projectionFails Env.sample (.L [.S "x", .M [("n", .N "1")]]) = true ∧
    (∃ e, av2iface Env.sample (.L [.S "x", .M [("n", .N "1")]]) = .error e) :=
  ⟨rfl, rfl,
   ((av2iface_projection Env.sample).2.2.2.2.2.2.2.2.1 (.L [.S "x", .M [("n", .N "1")]])).mpr
     rfl⟩

/-! ### C27 -/

theorem fieldsInStruct_selfEmbedding (env : Env) (hT : env.types "T" = some selfEmbedding) :
    ∀ (gas : Nat) (v : Value), fieldsInStruct env gas selfEmbedding v = .outOfGas := by
  intro gas
  induction gas using Nat.strong_induction_on with
  | _ gas ih =>
    intro v
    cases gas with
    | zero => rfl
    | succ g =>
      have hres : resolve env (.ref "T") = selfEmbedding := by simp [resolve, hT]
      have hrole : fieldRole env ⟨"T", "", true, true⟩ (.ptr (.ref "T")) = .unfolded := by
        simp [fieldRole, fieldInfo, resolve, hT, GoType.kind, GoType.elem, selfEmbedding]
      have hinner : fieldsInStruct env g (.ptr (.ref "T"))
          (.ptr (some (zero selfEmbedding))) = .outOfGas := by
        cases g with
        | zero => rfl
        | succ g1 =>
          simp only [fieldsInStruct, GoType.kind, if_true, GoType.elem, hres]
          rw [ih g1 (by omega)]
          rfl
      simp only [fieldsInStruct, selfEmbedding, GoType.kind, GoType.fields]
      rw [if_neg (by decide), if_pos trivial, fieldsLoop_cons, hrole]
      simp only [embeddedValue, resolve, GoType.kind, if_true, GoType.elem, hT, Option.getD_some]
      rw [hinner]

/-- C27 (the code departs from it): for the type `type T struct { *T }`, whose embedded
pointer is exported, `fieldsInStruct` allocates the pointer and calls itself on the new struct,
which is of the same type: no budget of calls is enough, for `fieldsInStruct` on a `T` and for
`UnmarshalItem` into a `*T`, whatever the item. -/
theorem UnmarshalItem_self_embedding_diverges (env : Env)
    (hT : env.types "T" = some selfEmbedding) :
    (∀ (gas : Nat) (v : Value), fieldsInStruct env gas selfEmbedding v = .outOfGas) ∧
    (∀ (gas : Nat) (item : Item) (prior : Value),
      UnmarshalItem env gas item (.ptr (.ref "T")) (.ptr (some prior)) = .outOfGas) := by
  refine ⟨fieldsInStruct_selfEmbedding env hT, ?_⟩
  intro gas item prior
  have hres : resolve env (.ref "T") = selfEmbedding := by simp [resolve, hT]
  cases gas with
  | zero => rfl
  | succ g =>
    simp only [UnmarshalItem]
    rw [unmarshalItem_struct_eq env g item (.ref "T") prior (by rw [hres]; rfl)
      (by rw [hres]; rfl)]
    simp only [itemStruct, hres, fieldsInStruct_selfEmbedding env hT, Outcome.mapResult]

/-- An instance: the sample environment with the declaration of `T`, and a budget of a
thousand calls. -/
theorem UnmarshalItem_self_embedding_diverges_witness :
    Env.withSelfEmbedding.types "T" = some selfEmbedding ∧
    UnmarshalItem Env.withSelfEmbedding 1000 [] (.ptr (.ref "T"))
      (.ptr (some (.struct [.ptr none]))) = .outOfGas :=
  ⟨rfl, (UnmarshalItem_self_embedding_diverges Env.withSelfEmbedding rfl).2 1000 []
    (.struct [.ptr none])⟩

/-! ### The error that the loop over the table surfaces -/

theorem surfacedError_congr (dec : AttributeValue → RV → Outcome Value) (item : Item)
    (s s1 : Value) (L : FieldTable) :
    ∀ err, (∀ x ∈ L, getAt s1 x.2.path = getAt s x.2.path) →
      surfacedError dec item s1 L err = surfacedError dec item s L err := by
  induction L with
  | nil => intro err _; rfl
  | cons hd rest ih =>
    intro err h
    obtain ⟨name, fv⟩ := hd
    have hrest : ∀ x ∈ rest, getAt s1 x.2.path = getAt s x.2.path :=
      fun x hx => h x (List.mem_cons_of_mem _ hx)
    simp only [surfacedError]
    cases item.get name with
    | none => exact ih err hrest
    | some av =>
      simp only
      rw [fieldDecode_congr dec s s1 av fv (h (name, fv) (List.mem_cons_self _ _))]
      cases fieldDecode dec s av fv with
      | done v e => cases e <;> exact ih _ hrest
      | panic m => exact ih _ hrest
      | outOfGas => exact ih _ hrest

/-- The loop of `unmarshalItem` over a table with pairwise incomparable paths, when the decode
of every field that the item has returns, returns the error of the last failing field. -/
theorem itemFieldsLoop_error (dec : AttributeValue → RV → Outcome Value) (item : Item)
    (L : FieldTable) :
    ∀ (s : Value) (err : Option Error),
      L.Pairwise (fun a b => incomparable a.2.path b.2.path) →
      (∀ x ∈ L, ∀ av, item.get x.1 = some av → ∃ v e, fieldDecode dec s av x.2 = .done v e) →
      ∃ s1, itemFieldsLoop dec item L s err = .done s1 (surfacedError dec item s L err) := by
  induction L with
  | nil => intro s err _ _; exact ⟨s, rfl⟩
  | cons hd rest ih =>
    intro s err hp hret
    obtain ⟨name, fv⟩ := hd
    rw [List.pairwise_cons] at hp
    cases hget : item.get name with
    | none =>
      obtain ⟨s1, h1⟩ := ih s err hp.2
        (fun x hx av hav => hret x (List.mem_cons_of_mem _ hx) av hav)
      exact ⟨s1, by simp only [itemFieldsLoop, surfacedError, hget]; exact h1⟩
    | some av =>
      obtain ⟨v, e, hdec⟩ := hret (name, fv) (List.mem_cons_self _ _) av hget
      have hframe : ∀ y ∈ rest, getAt (setAt s fv.path v) y.2.path = getAt s y.2.path :=
        fun y hy => getAt_setAt_of_incomparable _ _ _ _ (hp.1 y hy)
      have hret1 : ∀ x ∈ rest, ∀ av', item.get x.1 = some av' →
          ∃ v' e', fieldDecode dec (setAt s fv.path v) av' x.2 = .done v' e' := by
        intro x hx av' hav'
        rw [fieldDecode_congr dec _ _ av' x.2 (hframe x hx)]
        exact hret x (List.mem_cons_of_mem _ hx) av' hav'
      obtain ⟨s1, h1⟩ := ih (setAt s fv.path v)
        (match e with | none => err | some ie => some ie) hp.2 hret1
      rw [surfacedError_congr dec item s _ rest _ hframe] at h1
      have hdec' : dec av ⟨fv.typ, getAt s fv.path, true, fv.flagStickyRO, fv.flagEmbedRO⟩
          = .done v e := hdec
      refine ⟨s1, ?_⟩
      simp only [itemFieldsLoop, surfacedError, hget, hdec, hdec']
      cases e <;> exact h1

theorem surfacedError_mem (dec : AttributeValue → RV → Outcome Value) (item : Item)
    (s : Value) (L : FieldTable) :
    ∀ err, surfacedError dec item s L err = err ∨
      ∃ x ∈ L, ∃ av v e, item.get x.1 = some av ∧
        fieldDecode dec s av x.2 = .done v (some e) ∧
        surfacedError dec item s L err = some e := by
  induction L with
  | nil => intro err; exact Or.inl rfl
  | cons hd rest ih =>
    intro err
    obtain ⟨name, fv⟩ := hd
    have hlift : ∀ err1, (∃ x ∈ rest, ∃ av v e, item.get x.1 = some av ∧
        fieldDecode dec s av x.2 = .done v (some e) ∧
        surfacedError dec item s rest err1 = some e) →
        ∃ x ∈ (name, fv) :: rest, ∃ av v e, item.get x.1 = some av ∧
          fieldDecode dec s av x.2 = .done v (some e) ∧
          surfacedError dec item s rest err1 = some e := by
      rintro err1 ⟨x, hx, rest'⟩
      exact ⟨x, List.mem_cons_of_mem _ hx, rest'⟩
    simp only [surfacedError]
    cases hget : item.get name with
    | none =>
      rcases ih err with h | h
      · exact Or.inl h
      · exact Or.inr (hlift err h)
    | some av =>
      simp only
      cases hdec : fieldDecode dec s av fv with
      | done v e =>
        cases e with
        | none =>
          rcases ih err with h | h
          · exact Or.inl h
          · exact Or.inr (hlift err h)
        | some e =>
          right
          rcases ih (some e) with h | h
          · exact ⟨(name, fv), List.mem_cons_self _ _, av, v, e, hget, hdec, h⟩
          · exact hlift _ h
      | panic m =>
        rcases ih err with h | h
        · exact Or.inl h
        · exact Or.inr (hlift err h)
      | outOfGas =>
        rcases ih err with h | h
        · exact Or.inl h
        · exact Or.inr (hlift err h)

theorem surfacedError_of_some (dec : AttributeValue → RV → Outcome Value) (item : Item)
    (s : Value) (L : FieldTable) :
    ∀ e, surfacedError dec item s L (some e) ≠ none := by
  induction L with
  | nil => intro e; simp [surfacedError]
  | cons hd rest ih =>
    intro e
    obtain ⟨name, fv⟩ := hd
    simp only [surfacedError]
    cases item.get name with
    | none => exact ih e
    | some av =>
      simp only
      cases fieldDecode dec s av fv with
      | done v e1 => cases e1 <;> exact ih _
      | panic m => exact ih e
      | outOfGas => exact ih e

theorem surfacedError_ne_none (dec : AttributeValue → RV → Outcome Value) (item : Item)
    (s : Value) (L : FieldTable) :
    ∀ err, (∃ x ∈ L, ∃ av v e, item.get x.1 = some av ∧
        fieldDecode dec s av x.2 = .done v (some e)) →
      surfacedError dec item s L err ≠ none := by
  induction L with
  | nil => rintro err ⟨x, hx, _⟩; simp at hx
  | cons hd rest ih =>
    rintro err ⟨x, hx, av, v, e, hav, hdec⟩
    obtain ⟨name, fv⟩ := hd
    rcases List.mem_cons.mp hx with rfl | hx'
    · simp only [surfacedError, hav, hdec]
      exact surfacedError_of_some dec item s rest e
    · have hrest : ∃ x ∈ rest, ∃ av v e, item.get x.1 = some av ∧
          fieldDecode dec s av x.2 = .done v (some e) := ⟨x, hx', av, v, e, hav, hdec⟩
      simp only [surfacedError]
      cases item.get name with
      | none => exact ih err hrest
      | some av1 =>
        simp only
        cases fieldDecode dec s av1 fv with
        | done v1 e1 => cases e1 <;> exact ih _ hrest
        | panic m => exact ih err hrest
        | outOfGas => exact ih err hrest

/-! ### C26 -/

/-- C26 as stated fails: for the struct with the fields `A` and `B`, both of type `int`, and
the item that gives a String to `A` and a Bool to `B`, the error that `UnmarshalItem` returns
is the error of `B` when `range` enumerates the table in the order of insertion, and the error
of `A` when it enumerates it backwards. -/
theorem surfaced_error_depends_on_order :
    UnmarshalItem Env.sample 2 [("A", .S "x"), ("B", .BOOL true)]
        (.ptr (.struct [(⟨"A", "", false, true⟩, .int .platform),
          (⟨"B", "", false, true⟩, .int .platform)]))
        (.ptr (some (.struct [.int 0, .int 0])))
      = .done (.ptr (some (.struct [.int 0, .int 0])))
          (some (.cannotUnmarshal "boolean" "int")) ∧
    UnmarshalItem Env.sampleReversed 2 [("A", .S "x"), ("B", .BOOL true)]
        (.ptr (.struct [(⟨"A", "", false, true⟩, .int .platform),
          (⟨"B", "", false, true⟩, .int .platform)]))
        (.ptr (some (.struct [.int 0, .int 0])))
      = .done (.ptr (some (.struct [.int 0, .int 0])))
          (some (.cannotUnmarshal "string" "int")) :=
  ⟨rfl, rfl⟩

/-- C26 (amended): the error that the struct case of `UnmarshalItem` returns is the error of
the failing field that `range` reaches last, in whatever order it enumerates the table of
fields. When the table is built and the decodes of the planned fields return, the call returns
this error; it is nil or the error of one of the failing planned fields; and when all failing
planned fields give the same error (so when one field only fails), it is that error, in every
order. -/
theorem UnmarshalItem_surfaced_error (env : Env)
    (hperm : ∀ T, (env.rangeFields T).Perm T)
    (gas : Nat) (item : Item) (t : GoType) (prior : Value)
    (hk : (resolve env t).kind = .Struct)
    (hhook : hookOf (fun m => m.unmarshalDynamoDBItem) true (resolve env t) = none)
    (fields : FieldTable) (s0 : Value) (ferr : Option Error)
    (hfields : fieldsInStruct env gas (resolve env t) (zero (resolve env t))
      = .done (fields, s0) ferr)
    (hret : ∀ x ∈ fields, ∀ av, item.get x.1 = some av →
      ∃ v e, fieldDecode (unmarshalReflect env gas) s0 av x.2 = .done v e) :
    (∃ s, UnmarshalItem env (gas + 1) item (.ptr t) (.ptr (some prior))
        = .done (.ptr (some s))
            (surfacedError (unmarshalReflect env gas) item s0 (env.rangeFields fields) none)) ∧
    (surfacedError (unmarshalReflect env gas) item s0 (env.rangeFields fields) none = none ∨
      ∃ x ∈ fields, ∃ av v e, item.get x.1 = some av ∧
        fieldDecode (unmarshalReflect env gas) s0 av x.2 = .done v (some e) ∧
        surfacedError (unmarshalReflect env gas) item s0 (env.rangeFields fields) none
          = some e) ∧
    (∀ e, (∀ x ∈ fields, ∀ av v e1, item.get x.1 = some av →
        fieldDecode (unmarshalReflect env gas) s0 av x.2 = .done v (some e1) → e1 = e) →
      (∃ x ∈ fields, ∃ av v e1, item.get x.1 = some av ∧
        fieldDecode (unmarshalReflect env gas) s0 av x.2 = .done v (some e1)) →
      surfacedError (unmarshalReflect env gas) item s0 (env.rangeFields fields) none
        = some e) := by
  have hmem : ∀ x, x ∈ env.rangeFields fields ↔ x ∈ fields := fun x => (hperm fields).mem_iff
  have hpw : (env.rangeFields fields).Pairwise (fun a b => incomparable a.2.path b.2.path) :=
    ((hperm fields).pairwise_iff (fun h => incomparable_symm h)).mpr
      (fieldsInStruct_pairwise env gas _ _ fields s0 ferr hfields)
  obtain ⟨s, hloop⟩ := itemFieldsLoop_error (unmarshalReflect env gas) item
    (env.rangeFields fields) s0 none hpw (fun x hx av hav => hret x ((hmem x).mp hx) av hav)
  have hone : surfacedError (unmarshalReflect env gas) item s0 (env.rangeFields fields) none
        = none ∨
      ∃ x ∈ fields, ∃ av v e, item.get x.1 = some av ∧
        fieldDecode (unmarshalReflect env gas) s0 av x.2 = .done v (some e) ∧
        surfacedError (unmarshalReflect env gas) item s0 (env.rangeFields fields) none
          = some e := by
    rcases surfacedError_mem (unmarshalReflect env gas) item s0 (env.rangeFields fields) none
      with h | ⟨x, hx, rest⟩
    · exact Or.inl h
    · exact Or.inr ⟨x, (hmem x).mp hx, rest⟩
  refine ⟨⟨s, ?_⟩, hone, ?_⟩
  · simp only [UnmarshalItem]
    rw [unmarshalItem_struct_eq env gas item t prior hk hhook]
    simp only [itemStruct, hfields, hloop, Outcome.mapResult]
  · rintro e hsame ⟨x, hx, av, v, e1, hav, hdec⟩
    rcases hone with h | ⟨y, hy, av', v', e', hav', hdec', h⟩
    · exact absurd h (surfacedError_ne_none _ item s0 _ none
        ⟨x, (hmem x).mpr hx, av, v, e1, hav, hdec⟩)
    · rw [h, hsame y hy av' v' e' hav' hdec']

/-- An instance: the struct and the item above, with `range` running backwards. -/
theorem UnmarshalItem_surfaced_error_witness :
    ∃ s, UnmarshalItem Env.sampleReversed 2 [("A", .S "x"), ("B", .BOOL true)]
        (.ptr (.struct [(⟨"A", "", false, true⟩, .int .platform),
          (⟨"B", "", false, true⟩, .int .platform)]))
        (.ptr (some (.struct [.int 7, .int 8])))
      = .done (.ptr (some s)) (some (.cannotUnmarshal "string" "int")) :=
  (UnmarshalItem_surfaced_error Env.sampleReversed (fun T => List.reverse_perm T) 1
    [("A", .S "x"), ("B", .BOOL true)]
    (.struct [(⟨"A", "", false, true⟩, .int .platform),
      (⟨"B", "", false, true⟩, .int .platform)])
    (.struct [.int 7, .int 8]) rfl rfl
    [("A", ⟨[0], .int .platform, false, false⟩), ("B", ⟨[1], .int .platform, false, false⟩)]
    (.struct [.int 0, .int 0]) none rfl
    (by
      intro x hx av hav
      simp only [List.mem_cons, List.mem_singleton, List.not_mem_nil, or_false] at hx
      rcases hx with rfl | rfl
      · have h0 : Item.get [("A", .S "x"), ("B", .BOOL true)] "A" = some (.S "x") := rfl
        have h1 := h0.symm.trans hav
        cases h1
        exact ⟨_, _, rfl⟩
      · have h0 : Item.get [("A", .S "x"), ("B", .BOOL true)] "B" = some (.BOOL true) := rfl
        have h1 := h0.symm.trans hav
        cases h1
        exact ⟨_, _, rfl⟩)).1

/-! ### C30 -/

/-- C30: an embedded pointer to a struct that is not exported is passed over by
`fieldsInStruct`. No entry of the table is the field or lies in it, so none of the fields it
would promote is decoded; and for every item, the names of these fields included, when the
decodes of the planned fields return, `UnmarshalItem` returns with the pointer nil and with an
error that is nil exactly when the decodes of the planned fields, none of which has to do with
this field, return nil. -/
theorem UnmarshalItem_unexported_embedded_pointer (env : Env)
    (hperm : ∀ T, (env.rangeFields T).Perm T)
    (gas : Nat) (item : Item) (t : GoType) (prior : Value)
    (hk : (resolve env t).kind = .Struct)
    (hhook : hookOf (fun m => m.unmarshalDynamoDBItem) true (resolve env t) = none)
    (fields : FieldTable) (s0 : Value) (ferr : Option Error)
    (hfields : fieldsInStruct env gas (resolve env t) (zero (resolve env t))
      = .done (fields, s0) ferr)
    (hret : ∀ x ∈ fields, ∀ av, item.get x.1 = some av →
      ∃ v e, fieldDecode (unmarshalReflect env gas) s0 av x.2 = .done v e)
    (e : Nat) (fe : FieldDecl) (te : GoType)
    (hdecl : (resolve env t).fields[e]? = some (fe, te))
    (hanon : fe.anonymous = true) (hexp : fe.exported = false)
    (hptr : te.kind = .Ptr) (hstruct : (resolve env te.elem).kind = .Struct) :
    (∀ x ∈ fields, ∀ p, x.2.path ≠ e :: p) ∧
    ∃ s err, UnmarshalItem env (gas + 1) item (.ptr t) (.ptr (some prior))
        = .done (.ptr (some s)) err ∧
      getAt s [e] = .ptr none ∧
      (err = none ↔ ∀ x ∈ fields, ∀ av, item.get x.1 = some av →
        (fieldDecode (unmarshalReflect env gas) s0 av x.2).returnsNil = true) := by
  have hres : resolve env te = te := resolve_of_kind_ptr env hptr
  have hrole : fieldRole env fe te = .skipped := by
    simp only [fieldRole, hres, hptr, hstruct, hanon, hexp]
    split_ifs <;> simp_all
  have hnu : fieldRole env fe te ≠ .unfolded := by rw [hrole]; decide
  have hnone : ∀ x ∈ fields, ∀ p, x.2.path ≠ e :: p := by
    intro x hx p hp
    have := (entries_at_field env gas _ fields s0 ferr hk hfields e fe te hdecl hnu x hx p hp).1
    rw [hrole] at this
    cases this
  refine ⟨hnone, ?_⟩
  obtain ⟨s, err, hcall, herr, _, hframe⟩ := unmarshalItem_struct_run env hperm gas item t prior
    hk hhook fields s0 ferr hfields hret
  obtain ⟨_, _, _, hkept⟩ := fieldsInStruct_zero_kept env gas _ fields s0 ferr hk hfields
  refine ⟨s, err, hcall, ?_, herr⟩
  rw [hframe [e], (hkept e fe te hdecl hnu).1, zero_of_kind_ptr te hptr]
  intro x hx _
  obtain ⟨k1, p, hp⟩ := entry_path_cons env gas _ fields s0 ferr hk hfields x hx
  rw [hp]
  exact incomparable_of_head_ne p [] (fun hkk => hnone x hx p (by rw [hp, hkk]))

/-- An instance, the test "embedded unexported pointer": the key "Embedded" names the field
that `*embedded` would promote. -/
theorem UnmarshalItem_unexported_embedded_pointer_witness :
    UnmarshalItem Env.sample 2 [("Embedded", .BOOL true)]
        (.ptr (.struct [(⟨"embedded", "", true, false⟩,
          .ptr (.struct [(⟨"Embedded", "", false, true⟩, .bool)]))]))
        (.ptr (some (.struct [.ptr (some (.struct [.bool true]))])))
      = .done (.ptr (some (.struct [.ptr none]))) none ∧
    getAt (.struct [.ptr none]) [0] = .ptr none := by
  obtain ⟨_, s, err, h3, h4, _⟩ := UnmarshalItem_unexported_embedded_pointer Env.sample
    (fun T => List.Perm.refl T) 1 [("Embedded", .BOOL true)]
    (.struct [(⟨"embedded", "", true, false⟩,
      .ptr (.struct [(⟨"Embedded", "", false, true⟩, .bool)]))])
    (.struct [.ptr (some (.struct [.bool true]))]) rfl rfl
    [] (.struct [.ptr none]) none rfl
    (by intro x hx; simp at hx)
    0 ⟨"embedded", "", true, false⟩ (.ptr (.struct [(⟨"Embedded", "", false, true⟩, .bool)]))
    rfl rfl rfl rfl rfl
  have hval : UnmarshalItem Env.sample 2 [("Embedded", .BOOL true)]
      (.ptr (.struct [(⟨"embedded", "", true, false⟩,
        .ptr (.struct [(⟨"Embedded", "", false, true⟩, .bool)]))]))
      (.ptr (some (.struct [.ptr (some (.struct [.bool true]))])))
      = .done (.ptr (some (.struct [.ptr none]))) none := rfl
  rw [hval] at h3
  simp only [Outcome.done.injEq, Value.ptr.injEq, Option.some.injEq] at h3
  obtain ⟨hs, _⟩ := h3
  subst hs
  exact ⟨hval, h4⟩

/-! ### Embedded pointers that are allocated -/

theorem setAt_keeps_allocated (n e : Nat) (gs : List Value) (p : List Nat) (x : Value)
    (hp : ∃ k r, p = k :: r ∧ (k = e → ∃ j q, r = j :: q))
    (h : ∃ fs, gs.getD e .invalid = .ptr (some (.struct fs)) ∧ fs.length = n) :
    ∃ gs1, setAt (.struct gs) p x = .struct gs1 ∧
      ∃ fs, gs1.getD e .invalid = .ptr (some (.struct fs)) ∧ fs.length = n := by
  obtain ⟨k, r, rfl, hk⟩ := hp
  obtain ⟨fs, hfs, hlen⟩ := h
  refine ⟨gs.set k (setAt (gs.getD k .invalid) r x), by simp [setAt], ?_⟩
  by_cases hke : k = e
  · subst hke
    obtain ⟨j, q, rfl⟩ := hk rfl
    have hlt : k < gs.length := by
      by_contra hge
      rw [List.getD_eq_default _ _ (by omega)] at hfs
      cases hfs
    rw [getD_set_self _ _ _ hlt, hfs]
    exact ⟨fs.set j (setAt (fs.getD j .invalid) q x), by simp [setAt], by simp [hlen]⟩
  · rw [getD_set_ne _ _ hke]
    exact ⟨fs, hfs, hlen⟩

/-- The loop of `unmarshalItem` leaves an allocated embedded pointer allocated: it writes
through it, not to it. -/
theorem itemFieldsLoop_allocated (dec : AttributeValue → RV → Outcome Value) (item : Item)
    (n e : Nat) (L : FieldTable) :
    ∀ (gs : List Value) (err : Option Error) (s1 : Value) (err1 : Option Error),
      itemFieldsLoop dec item L (.struct gs) err = .done s1 err1 →
      (∀ x ∈ L, ∃ k r, x.2.path = k :: r ∧ (k = e → ∃ j q, r = j :: q)) →
      (∃ fs, gs.getD e .invalid = .ptr (some (.struct fs)) ∧ fs.length = n) →
      ∃ gs1, s1 = .struct gs1 ∧
        ∃ fs, gs1.getD e .invalid = .ptr (some (.struct fs)) ∧ fs.length = n := by
  induction L with
  | nil =>
    intro gs err s1 err1 h _ hal
    simp only [itemFieldsLoop, Outcome.done.injEq] at h
    exact ⟨gs, h.1.symm, hal⟩
  | cons hd rest ih =>
    intro gs err s1 err1 h hform hal
    obtain ⟨name, fv⟩ := hd
    have hrest : ∀ x ∈ rest, ∃ k r, x.2.path = k :: r ∧ (k = e → ∃ j q, r = j :: q) :=
      fun x hx => hform x (List.mem_cons_of_mem _ hx)
    have hstep : ∀ v, ∃ gs1, setAt (.struct gs) fv.path v = .struct gs1 ∧
        ∃ fs, gs1.getD e .invalid = .ptr (some (.struct fs)) ∧ fs.length = n :=
      fun v => setAt_keeps_allocated n e gs fv.path v
        (hform (name, fv) (List.mem_cons_self _ _)) hal
    simp only [itemFieldsLoop] at h
    split at h
    · split at h
      · rename_i v _
        obtain ⟨gs1, hgs1, hal1⟩ := hstep v
        rw [hgs1] at h
        exact ih gs1 _ s1 err1 h hrest hal1
      · rename_i v _ _
        obtain ⟨gs1, hgs1, hal1⟩ := hstep v
        rw [hgs1] at h
        exact ih gs1 _ s1 err1 h hrest hal1
      · simp at h
      · simp at h
    · exact ih gs err s1 err1 h hrest hal

/-- An unfolded embedded pointer is allocated in the struct that `fieldsInStruct` leaves, and
the entries of the table under it lie inside the struct it points to. -/
theorem fieldsInStruct_allocated (env : Env) (gas : Nat) (t : GoType)
    (T : FieldTable) (s : Value) (e : Option Error) (hk : t.kind = .Struct)
    (h : fieldsInStruct env gas t (zero t) = .done (T, s) e)
    (k : Nat) (f : FieldDecl) (ft : GoType) (hdecl : t.fields[k]? = some (f, ft))
    (hrole : fieldRole env f ft = .unfolded) (hptr : (resolve env ft).kind = .Ptr) :
    (∃ gs fs, s = .struct gs ∧ gs.getD k .invalid = .ptr (some (.struct fs)) ∧
      fs.length = (embeddedStruct env ft).fields.length) ∧
    (∀ x ∈ T, ∃ k1 r, x.2.path = k1 :: r ∧ (k1 = k → ∃ j q, r = j :: q)) := by
  have hval : (resolve env ft).kind ≠ .Ptr → resolve env ft = ft := fun hne => absurd hptr hne
  constructor
  · obtain ⟨g, _, hloop⟩ := fieldsInStruct_struct_loop env gas t _ T s e hk h
    rw [zero_of_kind_struct t hk] at hloop
    have hlt : k < t.fields.length := lt_length_of_getElem_some hdecl
    obtain ⟨fs1, hs, hlen, _, hfield⟩ := fieldsLoop_values env _ _ _ _ _ _ _ _ hloop
    obtain ⟨innerT, e1, hcall⟩ := (hfield k f ft hdecl).2 hrole
      (by rw [length_zeroFields]; omega)
    simp only [Nat.zero_add, embeddedValue, hptr, if_true] at hcall
    obtain ⟨g1, sE, _, hcallE, hfv⟩ := fieldsInStruct_ptr env g _ _ innerT _ e1 hptr hcall
    have hEk := embeddedStruct_kind hrole
    simp only [embeddedStruct, hptr, if_true] at hEk ⊢
    obtain ⟨fsE, hsE, hlenE, _⟩ := fieldsInStruct_zero_kept env g1 _ innerT sE e1 hEk hcallE
    exact ⟨fs1, fsE, hs, by rw [hfv, hsE], hlenE⟩
  · intro x hx
    obtain ⟨k1, r, hp⟩ := entry_path_cons env gas t T s e hk h x hx
    refine ⟨k1, r, hp, ?_⟩
    intro hkk
    subst hkk
    obtain ⟨g1, innerT, sE, eE, hE, _, _, hunder, _⟩ :=
      fieldsInStruct_embedded env gas t T s e hk h k1 f ft hdecl hrole hval
    obtain ⟨y, hy, hxy⟩ := hunder x hx r hp
    obtain ⟨j, q, hyp⟩ := entry_path_cons env g1 _ innerT sE eE (embeddedStruct_kind hrole) hE
      y hy
    refine ⟨j, q, ?_⟩
    rw [hxy] at hp
    simp only [List.cons.injEq, true_and] at hp
    rw [← hp, hyp]

theorem unmarshalItem_struct_loop (env : Env) (gas : Nat) (item : Item) (t : GoType)
    (prior : Value) (hk : (resolve env t).kind = .Struct)
    (hhook : hookOf (fun m => m.unmarshalDynamoDBItem) true (resolve env t) = none)
    (fields : FieldTable) (s0 : Value) (ferr : Option Error)
    (hfields : fieldsInStruct env gas (resolve env t) (zero (resolve env t))
      = .done (fields, s0) ferr) :
    UnmarshalItem env (gas + 1) item (.ptr t) (.ptr (some prior)) =
      (itemFieldsLoop (unmarshalReflect env gas) item (env.rangeFields fields) s0
        none).mapResult (fun v => Value.ptr (some v)) := by
  simp only [UnmarshalItem]
  rw [unmarshalItem_struct_eq env gas item t prior hk hhook]
  simp only [itemStruct, hfields]

/-! ### C29 -/

/-- C29: an exported embedded pointer to a struct (whose directive is not "-") is allocated.
For every item, when the table is built and the decodes of the planned fields return,
`UnmarshalItem` returns with the pointer pointing to a struct of the embedded type; an entered
field of that struct is zero unless its wire name designates it in the table and the item has
that name (it does not when the item lacks the name, or when a direct field has taken it), in
which case it holds what the decode of the value left. -/
theorem UnmarshalItem_exported_embedded_pointer (env : Env)
    (hperm : ∀ T, (env.rangeFields T).Perm T)
    (gas : Nat) (item : Item) (t : GoType) (prior : Value)
    (hk : (resolve env t).kind = .Struct)
    (hhook : hookOf (fun m => m.unmarshalDynamoDBItem) true (resolve env t) = none)
    (fields : FieldTable) (s0 : Value) (ferr : Option Error)
    (hfields : fieldsInStruct env gas (resolve env t) (zero (resolve env t))
      = .done (fields, s0) ferr)
    (hret : ∀ x ∈ fields, ∀ av, item.get x.1 = some av →
      ∃ v e, fieldDecode (unmarshalReflect env gas) s0 av x.2 = .done v e)
    (e : Nat) (fe : FieldDecl) (te : GoType)
    (hdecl : (resolve env t).fields[e]? = some (fe, te))
    (hanon : fe.anonymous = true) (hexp : fe.exported = true)
    (hptr : te.kind = .Ptr) (hstruct : (resolve env te.elem).kind = .Struct)
    (hname : fieldInfo fe ≠ "-") :
    ∃ s err, UnmarshalItem env (gas + 1) item (.ptr t) (.ptr (some prior))
        = .done (.ptr (some s)) err ∧
      (∃ fs, getAt s [e] = .ptr (some (.struct fs)) ∧
        fs.length = (resolve env te.elem).fields.length) ∧
      (∀ (j : Nat) (fj : FieldDecl) (tj : GoType),
        (resolve env te.elem).fields[j]? = some (fj, tj) → fieldRole env fj tj = .entered →
        (¬ (tableGet fields (fieldInfo fj)
              = some { directRef env j fj tj with path := [e, j] } ∧
            item.get (fieldInfo fj) ≠ none) →
          getAt s [e, j] = zero tj) ∧
        (∀ av, tableGet fields (fieldInfo fj)
              = some { directRef env j fj tj with path := [e, j] } →
          item.get (fieldInfo fj) = some av →
          ∃ v ed, fieldDecode (unmarshalReflect env gas) s0 av
              { directRef env j fj tj with path := [e, j] } = .done v ed ∧
            getAt s [e, j] = v)) := by
  have hres : resolve env te = te := resolve_of_kind_ptr env hptr
  have hrole : fieldRole env fe te = .unfolded := by
    simp [fieldRole, hres, hptr, hstruct, hanon, hexp, hname]
  have hrptr : (resolve env te).kind = .Ptr := by rw [hres]; exact hptr
  have hval : (resolve env te).kind ≠ .Ptr → resolve env te = te := fun _ => hres
  have hE : embeddedStruct env te = resolve env te.elem := by
    simp [embeddedStruct, hres, hptr]
  obtain ⟨s, err, hcall, _, hvalue, hframe⟩ := unmarshalItem_struct_run env hperm gas item t
    prior hk hhook fields s0 ferr hfields hret
  obtain ⟨⟨gs, fs, hs0, hgs, hlen⟩, hform⟩ := fieldsInStruct_allocated env gas _ fields s0 ferr
    hk hfields e fe te hdecl hrole hrptr
  refine ⟨s, err, hcall, ?_, ?_⟩
  · have hloop := unmarshalItem_struct_loop env gas item t prior hk hhook fields s0 ferr hfields
    rw [hcall] at hloop
    cases hl : itemFieldsLoop (unmarshalReflect env gas) item (env.rangeFields fields) s0 none
      with
    | done s1 err1 =>
      rw [hl] at hloop
      simp only [Outcome.mapResult, Outcome.done.injEq, Value.ptr.injEq,
        Option.some.injEq] at hloop
      rw [hs0] at hl
      obtain ⟨gs1, hs1, fs1, hgs1, hlen1⟩ := itemFieldsLoop_allocated _ item
        (embeddedStruct env te).fields.length e (env.rangeFields fields) gs none s1 err1 hl
        (fun x hx => hform x ((hperm fields).mem_iff.mp hx)) ⟨fs, hgs, hlen⟩
      refine ⟨fs1, ?_, by rw [hlen1, hE]⟩
      rw [hloop.1, hs1, getAt_struct_field, hgs1]
    | panic m => rw [hl] at hloop; simp [Outcome.mapResult] at hloop
    | outOfGas => rw [hl] at hloop; simp [Outcome.mapResult] at hloop
  · intro j fj tj hj hrj
    rw [← hE] at hj
    have hnuj : fieldRole env fj tj ≠ .unfolded := by rw [hrj]; decide
    obtain ⟨hzero, hvalid⟩ := promoted_zero env gas _ fields s0 ferr hk hfields e fe te hdecl
      hrole hval j fj tj hj hnuj
    refine ⟨?_, ?_⟩
    · intro habs
      rw [hframe [e, j], hzero]
      intro x hx hne
      by_contra hcomp
      have hx' := entries_at_promoted env gas _ fields s0 ferr hk hfields e fe te hdecl hrole
        hval j fj tj hj hrj x hx hcomp
      have hget := tableGet_of_mem (fieldsInStruct_nodup env gas _ _ fields s0 ferr hfields) hx
      rw [hx'] at hget hne
      exact habs ⟨hget, hne⟩
    · intro av hlook hav
      have hmem := mem_of_tableGet hlook
      obtain ⟨v, ed, hdec⟩ := hret _ hmem av hav
      exact ⟨v, ed, hdec, hvalue _ hmem av v ed hav hdec hvalid⟩

/-- An instance, the test "exported pointer embedded struct clobber": the key "Embedded" is
taken by the field of the struct, and the allocated `ExportedEmbedded` is zero. -/
theorem UnmarshalItem_exported_embedded_pointer_witness :
    UnmarshalItem Env.sample 4 [("Embedded", .S "OK")]
        (.ptr (.struct [(⟨"Embedded", "", false, true⟩, .string),
          (⟨"ExportedEmbedded", "", true, true⟩,
            .ptr (.struct [(⟨"Embedded", "", false, true⟩, .bool)]))]))
        (.ptr (some (.struct [.string "", .ptr none])))
      = .done (.ptr (some (.struct [.string "OK", .ptr (some (.struct [.bool false]))]))) none ∧
    (∃ fs, getAt (.struct [.string "OK", .ptr (some (.struct [.bool false]))]) [1]
      = .ptr (some (.struct fs)) ∧ fs.length = 1) ∧
    getAt (.struct [.string "OK", .ptr (some (.struct [.bool false]))]) [1, 0] = zero .bool := by
  obtain ⟨s, err, h3, h4, h5⟩ := UnmarshalItem_exported_embedded_pointer Env.sample
    (fun T => List.Perm.refl T) 3 [("Embedded", .S "OK")]
    (.struct [(⟨"Embedded", "", false, true⟩, .string),
      (⟨"ExportedEmbedded", "", true, true⟩,
        .ptr (.struct [(⟨"Embedded", "", false, true⟩, .bool)]))])
    (.struct [.string "", .ptr none]) rfl rfl
    [("Embedded", ⟨[0], .string, false, false⟩)]
    (.struct [.string "", .ptr (some (.struct [.bool false]))]) none rfl
    (by
      intro x hx av hav
      simp only [List.mem_singleton] at hx
      subst hx
      have h0 : Item.get [("Embedded", .S "OK")] "Embedded" = some (.S "OK") := rfl
      have h1 := h0.symm.trans hav
      cases h1
      exact ⟨_, _, rfl⟩)
    1 ⟨"ExportedEmbedded", "", true, true⟩
    (.ptr (.struct [(⟨"Embedded", "", false, true⟩, .bool)])) rfl rfl rfl rfl rfl (by decide)
  have hval : UnmarshalItem Env.sample 4 [("Embedded", .S "OK")]
      (.ptr (.struct [(⟨"Embedded", "", false, true⟩, .string),
        (⟨"ExportedEmbedded", "", true, true⟩,
          .ptr (.struct [(⟨"Embedded", "", false, true⟩, .bool)]))]))
      (.ptr (some (.struct [.string "", .ptr none])))
      = .done (.ptr (some (.struct [.string "OK", .ptr (some (.struct [.bool false]))]))) none :=
    rfl
  have h6 := (h5 0 ⟨"Embedded", "", false, true⟩ .bool rfl rfl).1
    (by
      rintro ⟨hl, _⟩
      have : tableGet [("Embedded", (⟨[0], .string, false, false⟩ : FieldRef))] "Embedded"
          = some ⟨[0], .string, false, false⟩ := rfl
      have h7 := this.symm.trans hl
      simp [directRef] at h7)
  rw [hval] at h3
  simp only [Outcome.done.injEq, Value.ptr.injEq, Option.some.injEq] at h3
  obtain ⟨hs, _⟩ := h3
  subst hs
  exact ⟨hval, h4, h6⟩

/-! ### C31 -/

/-- C31: for a settable destination of pointer kind without hooks, nil or not, and a wire
value that is not Null and that decodes, with nil error, into a fresh zero value of the pointee
type, `unmarshalReflect` returns nil and the destination is a new pointer to what that decode
gave, whatever the destination pointed to before. -/
theorem unmarshalReflect_pointer_fresh (env : Env) (gas : Nat) (av : AttributeValue) (rv : RV)
    (hset : rv.canSet = true) (hkind : rv.typ.kind = .Ptr)
    (hu : implementsUnmarshaler rv.typ = false)
    (ht : implementsTextUnmarshaler rv.typ = false)
    (hnull : av.member ≠ some .NULL) (v : Value)
    (hdec : unmarshalReflect env gas av (RV.fresh (resolve env rv.typ.elem)) = .done v none) :
    unmarshalReflect env (gas + 1) av rv = .done (.ptr (some v)) none ∧
    ∀ old : Value,
      unmarshalReflect env (gas + 1) av ⟨rv.typ, old, rv.flagAddr, rv.flagStickyRO,
        rv.flagEmbedRO⟩ = .done (.ptr (some v)) none := by
  have hmain : ∀ old : Value,
      unmarshalReflect env (gas + 1) av ⟨rv.typ, old, rv.flagAddr, rv.flagStickyRO,
        rv.flagEmbedRO⟩ = .done (.ptr (some v)) none := by
    intro old
    have hset1 : (RV.mk rv.typ old rv.flagAddr rv.flagStickyRO rv.flagEmbedRO).canSet = true :=
      hset
    rw [unmarshalReflect_eq_shapeDirected]
    · simp only [shapeDirected, hset1, hnull, hkind, not_true_eq_false, if_false]
      cases av <;> first
        | exact absurd rfl hnull
        | simp [hdec, Outcome.mapResult]
    · apply tryInterface_none_of_kind env _ _ hset1
      · simp [hkind]
      · exact hu
      · intro h; simp [ht] at h
  exact ⟨hmain rv.val, hmain⟩

/-- An instance, after the test "pointer (int)": the Number "0" into a `*int` that pointed to
7 makes it point to a new 0, and so it does into a nil `*int`. -/
theorem unmarshalReflect_pointer_fresh_witness :
    unmarshalReflect Env.sample 2 (.N "0")
        ⟨.ptr (.int .platform), .ptr (some (.int 7)), true, false, false⟩
      = .done (.ptr (some (.int 0))) none ∧
    unmarshalReflect Env.sample 2 (.N "0")
        ⟨.ptr (.int .platform), .ptr none, true, false, false⟩
      = .done (.ptr (some (.int 0))) none :=
  ⟨(unmarshalReflect_pointer_fresh Env.sample 1 (.N "0")
      ⟨.ptr (.int .platform), .ptr (some (.int 7)), true, false, false⟩ rfl rfl rfl rfl
      (by simp [AttributeValue.member]) (.int 0) rfl).1,
   (unmarshalReflect_pointer_fresh Env.sample 1 (.N "0")
      ⟨.ptr (.int .platform), .ptr (some (.int 7)), true, false, false⟩ rfl rfl rfl rfl
      (by simp [AttributeValue.member]) (.int 0) rfl).2 (.ptr none)⟩

/-! ### C32 -/

/-- C32: `unmarshalSlice` is all-or-nothing for a List, a StringSet and a BinarySet. When the
decodes of the elements return and one of them fails, the call returns the error of the first
element that fails and the destination is as it was: no decoded prefix is stored. The same
holds for `unmarshalReflect` on a settable slice destination without a full-value hook. -/
theorem unmarshalSlice_all_or_nothing (env : Env) (gas : Nat) (av : AttributeValue) (rv : RV)
    (elems pre post : List AttributeValue) (bad : AttributeValue) (vs : List Value)
    (v : Value) (e : Error)
    (hav : av = .L elems ∨ (∃ ss, av = .SS ss ∧ elems = ss.map AttributeValue.S) ∨
      (∃ bs, av = .BS bs ∧ elems = bs.map AttributeValue.B))
    (hsplit : elems = pre ++ bad :: post)
    (hpre : List.Forall₂ (fun x y =>
      unmarshalReflect env gas x (RV.fresh (resolve env rv.typ.elem)) = .done y none) pre vs)
    (hbad : unmarshalReflect env gas bad (RV.fresh (resolve env rv.typ.elem))
      = .done v (some e)) :
    unmarshalSlice env (gas + 1) av rv = .done rv.val (some e) ∧
    (rv.canSet = true → rv.typ.kind = .Slice → implementsUnmarshaler rv.typ = false →
      unmarshalReflect env (gas + 2) av rv = .done rv.val (some e)) := by
  have hdec := decodeElems_error (unmarshalReflect env gas) (resolve env rv.typ.elem) bad post
    v e hpre hbad
  rw [← hsplit] at hdec
  have hbody : sliceBody env (unmarshalReflect env gas) av rv = .done rv.val (some e) := by
    rcases hav with rfl | ⟨ss, rfl, hss⟩ | ⟨bs, rfl, hbs⟩
    · simp only [sliceBody, hdec]
    · rw [hss] at hdec; simp only [sliceBody, hdec]
    · rw [hbs] at hdec; simp only [sliceBody, hdec]
  refine ⟨by simpa [unmarshalSlice] using hbody, ?_⟩
  intro hset hkind hu
  rw [unmarshalReflect_slice_eq env gas av rv hset hkind hu, hbody]
  · rcases hav with rfl | ⟨ss, rfl, _⟩ | ⟨bs, rfl, _⟩ <;> intro _ s <;> simp
  · rcases hav with rfl | ⟨ss, rfl, _⟩ | ⟨bs, rfl, _⟩ <;> simp [AttributeValue.member]

/-- An instance: the List of the Numbers "1" and "x" and 3 into a `[]int` that held 7 and 8; the
first element is decoded, the second fails, and the slice still holds 7 and 8. -/
theorem unmarshalSlice_all_or_nothing_witness :
    unmarshalSlice Env.sample 2 (.L [.N "1", .N "x", .N "3"])
        ⟨.slice (.int .platform), .slice (some [.int 7, .int 8]), true, false, false⟩
      = .done (.slice (some [.int 7, .int 8]))
          (some (.num (.errSyntax "ParseInt" "x"))) :=
  (unmarshalSlice_all_or_nothing Env.sample 1 (.L [.N "1", .N "x", .N "3"])
    ⟨.slice (.int .platform), .slice (some [.int 7, .int 8]), true, false, false⟩
    [.N "1", .N "x", .N "3"] [.N "1"] [.N "3"] (.N "x") [.int 1] (.int 0)
    (.num (.errSyntax "ParseInt" "x")) (Or.inl rfl) rfl (.cons rfl .nil) rfl).1

/-! ### Maps with string keys -/

theorem beq_string_string (a k : String) : Value.beq (.string a) (.string k) = (a == k) := rfl

theorem beq_string (x : Value) (k : String) : Value.beq x (.string k) = true ↔ x = .string k := by
  cases x with
  | string a =>
    rw [beq_string_string]
    constructor
    · intro h; rw [beq_iff_eq] at h; rw [h]
    · intro h; cases h; exact beq_self_eq_true _
  | ptr o => cases o <;> exact ⟨fun h => Bool.noConfusion h, fun h => Value.noConfusion h⟩
  | slice o => cases o <;> exact ⟨fun h => Bool.noConfusion h, fun h => Value.noConfusion h⟩
  | map o => cases o <;> exact ⟨fun h => Bool.noConfusion h, fun h => Value.noConfusion h⟩
  | iface o => cases o <;> exact ⟨fun h => Bool.noConfusion h, fun h => Value.noConfusion h⟩
  | _ => exact ⟨fun h => Bool.noConfusion h, fun h => Value.noConfusion h⟩

theorem beq_string_eq (k k' : String) :
    Value.beq (.string k) (.string k') = decide (k = k') := by
  rw [beq_string_string]
  by_cases h : k = k'
  · subst h; simp
  · simp [h]

theorem mapGet_mapSet_string (v : Value) (k k' : String) :
    ∀ m : List (Value × Value),
      mapGet (mapSet m (.string k) v) (.string k') =
        if k = k' then some v else mapGet m (.string k')
  | [] => by
    simp only [mapSet, mapGet, beq_string_eq, decide_eq_true_eq]
  | (x, w) :: rest => by
    have ih := mapGet_mapSet_string v k k' rest
    by_cases hx : Value.beq x (.string k) = true
    · have hxk := (beq_string x k).mp hx
      subst hxk
      simp only [mapSet, mapGet, beq_string_eq, decide_eq_true_eq, if_true]
      by_cases hkk : k = k'
      · simp only [hkk, if_true]
      · simp only [hkk, if_false]
    · have hxk : x ≠ .string k := fun h => hx ((beq_string x k).mpr h)
      by_cases hx' : Value.beq x (.string k') = true
      · have hxk' := (beq_string x k').mp hx'
        have hkk : k ≠ k' := fun h => hxk (by rw [hxk', h])
        simp only [mapSet, mapGet, hx, hx', hkk, if_true, if_false]
      · simp only [mapSet, mapGet, hx, hx', ih, if_false]
        simp

theorem itemMapLoop_merge (dec : AttributeValue → RV → Outcome Value) (keyType elemType : GoType)
    (hkey : keyType.isString = true) {item : Item} {vs : List Value}
    (h : List.Forall₂ (fun e v => dec e.2 (RV.fresh elemType) = .done v none) item vs) :
    ∀ m : List (Value × Value), ∃ m',
      itemMapLoop dec keyType elemType item m = .done m' none ∧
      (∀ k : String, (∀ e ∈ item, e.1 ≠ k) → mapGet m' (.string k) = mapGet m (.string k)) ∧
      (item.Pairwise (fun a b => a.1 ≠ b.1) →
        List.Forall₂ (fun e v => mapGet m' (.string e.1) = some v) item vs) := by
  induction h with
  | nil => intro m; exact ⟨m, rfl, fun _ _ => rfl, fun _ => List.Forall₂.nil⟩
  | @cons e v rest vs' h1 _ ih =>
    intro m
    obtain ⟨k, av⟩ := e
    obtain ⟨m', hrun, hkeep, hnew⟩ := ih (mapSet m (.string k) v)
    refine ⟨m', ?_, ?_, ?_⟩
    · simp only [itemMapLoop, h1, hkey, if_true, hrun]
    · intro k' hk'
      rw [hkeep k' (fun e he => hk' e (List.mem_cons_of_mem _ he)), mapGet_mapSet_string]
      have : k ≠ k' := hk' (k, av) (List.mem_cons_self _ _)
      simp [this]
    · intro hpw
      rw [List.pairwise_cons] at hpw
      refine List.Forall₂.cons ?_ (hnew hpw.2)
      show mapGet m' (.string k) = some v
      rw [hkeep k (fun e he => (hpw.1 e he).symm), mapGet_mapSet_string]
      simp

theorem unmarshalItem_map_eq (env : Env) (gas : Nat) (item : Item) (t : GoType)
    (pointee : Value) (hk : (resolve env t).kind = .Map)
    (hkey : (resolve env (resolve env t).key).kind = .String)
    (hnim : t.isItemMap = false)
    (hhook : hookOf (fun m => m.unmarshalDynamoDBItem) true (resolve env t) = none) :
    unmarshalItem env (gas + 1) item (.ptr t) (.ptr (some pointee)) =
      (itemMapLoop (unmarshalReflect env gas) (resolve env (resolve env t).key)
        (resolve env (resolve env t).elem) item pointee.entries).mapResult
        (fun m => Value.ptr (some (Value.map (some m)))) := by
  simp [unmarshalItem, itemBody, GoType.kind, GoType.elem, hnim, GoType.isAwsEncoder, ifaceOf,
    RV.valueOf, hhook, hk, hkey]


theorem kind_of_isString {t : GoType} (h : t.isString = true) : t.kind = .String := by
  cases t <;> first | rfl | exact Bool.noConfusion h

/-! ### C33 -/

/-- C33, as stated, fails: a destination of type `*map[string]types.AttributeValue` is
assigned the item itself (`*x = item`), so the prior entry "old" of a non-nil map is gone
after the call; and when the key type is a defined string type the item is not merged
either, `SetMapIndex` panics. -/
theorem item_map_destination_is_replaced :
    UnmarshalItem Env.sample 1 [("new", .S "x")] (.ptr (.map .string .attributeValue))
        (.ptr (some (.map (some [(.string "old", .iface (some (.av (.S "o"))))]))))
      = .done (.ptr (some (.map (some [(.string "new", .iface (some (.av (.S "x"))))]))))
          none ∧
    mapGet [(.string "old", .iface (some (.av (.S "o"))))] (.string "old")
      = some (.iface (some (.av (.S "o")))) ∧
    mapGet [(.string "new", .iface (some (.av (.S "x"))))] (.string "old") = none ∧
    UnmarshalItem Env.sample 3 [("new", .N "1")]
        (.ptr (.map (.named "K" ⟨none, none, none⟩ .string) (.int .platform)))
        (.ptr (some (.map (some [(.string "old", .int 7)]))))
      = .panic "reflect.Value.SetMapIndex: value of type string is not assignable" :=
  ⟨rfl, rfl, rfl, rfl⟩

/-- C33 (amended): for a pointer to a map, nil or not, whose key type is `string` and whose
type is not `map[string]types.AttributeValue`, without an item hook, and an item whose values
each decode, with nil error, into a fresh zero element, `UnmarshalItem` returns nil and leaves
a non-nil map in which every key that the item lacks has what it had before the call (nothing,
if the map was nil or lacked it too) and, the keys of the item being distinct, every key of the
item has the decoded value. -/
theorem UnmarshalItem_map_merges (env : Env) (gas : Nat) (item : Item) (t : GoType)
    (prior : Option (List (Value × Value))) (vs : List Value)
    (hk : (resolve env t).kind = .Map)
    (hkey : (resolve env (resolve env t).key).isString = true)
    (hnim : t.isItemMap = false)
    (hhook : hookOf (fun m => m.unmarshalDynamoDBItem) true (resolve env t) = none)
    (hvals : List.Forall₂ (fun e v =>
      unmarshalReflect env gas e.2 (RV.fresh (resolve env (resolve env t).elem)) = .done v none)
      item vs) :
    ∃ m : List (Value × Value),
      UnmarshalItem env (gas + 1) item (.ptr t) (.ptr (some (.map prior)))
        = .done (.ptr (some (.map (some m)))) none ∧
      (∀ k : String, (∀ e ∈ item, e.1 ≠ k) →
        mapGet m (.string k) = mapGet (prior.getD []) (.string k)) ∧
      (item.Pairwise (fun a b => a.1 ≠ b.1) →
        List.Forall₂ (fun e v => mapGet m (.string e.1) = some v) item vs) := by
  obtain ⟨m, hrun, hkeep, hnew⟩ := itemMapLoop_merge (unmarshalReflect env gas)
    (resolve env (resolve env t).key) (resolve env (resolve env t).elem) hkey hvals
    (Value.map prior).entries
  have hentries : (Value.map prior).entries = prior.getD [] := by
    cases prior <;> rfl
  refine ⟨m, ?_, ?_, hnew⟩
  · simp only [UnmarshalItem]
    rw [unmarshalItem_map_eq env gas item t (.map prior) hk (kind_of_isString hkey) hnim hhook,
      hrun]
    rfl
  · intro k hkn
    rw [hkeep k hkn, hentries]

/-- An instance: the item with "a" = 5 and "new" = 1 into a `map[string]int` that held
"old" = 7 and "a" = 1 gives a map with "old" = 7, "a" = 5 and "new" = 1. -/
theorem UnmarshalItem_map_merges_witness :
    ∃ m : List (Value × Value),
      UnmarshalItem Env.sample 2 [("a", .N "5"), ("new", .N "1")]
          (.ptr (.map .string (.int .platform)))
          (.ptr (some (.map (some [(.string "old", .int 7), (.string "a", .int 1)]))))
        = .done (.ptr (some (.map (some m)))) none ∧
      mapGet m (.string "old") = some (.int 7) ∧
      mapGet m (.string "a") = some (.int 5) ∧
      mapGet m (.string "new") = some (.int 1) := by
  obtain ⟨m, hrun, hkeep, hnew⟩ := UnmarshalItem_map_merges Env.sample 1
    [("a", .N "5"), ("new", .N "1")] (.map .string (.int .platform))
    (some [(.string "old", .int 7), (.string "a", .int 1)]) [.int 5, .int 1]
    rfl rfl rfl rfl (.cons rfl (.cons rfl .nil))
  have hpw : List.Pairwise (fun a b : String × AttributeValue => a.1 ≠ b.1)
      [("a", .N "5"), ("new", .N "1")] := by
    simp
  have h := hnew hpw
  rw [List.forall₂_cons] at h
  obtain ⟨ha, h⟩ := h
  rw [List.forall₂_cons] at h
  refine ⟨m, hrun, ?_, ha, h.1⟩
  rw [hkeep "old" (by simp)]
  rfl

end Fuel
